import Mathlib

/-!
The crustcool code: thermal evolution of a neutron-star crust.

A shallow embedding of the right-hand side, boundary policy, table lookup and
finite-difference Jacobian of `src/c/crustcool.cc`.

Modelling conventions.

* A C `double` is an exact rational (`ℚ`); rounding is not modelled.  The only
  place where the source inspects a non-finite value is the `isnan` test at the
  head of `calculate_vars`, whose temperature argument is therefore an
  `Option ℚ` (`none` is NaN).
* A C `int` is an `Int`; a C array is a total function on `Int`, so a read is
  defined at every index.  An `int` used as a truth value is tested against `0`.
  The entries a table really owns are recorded separately by `inTable`.
* The library functions `log10`, `pow`, `sqrt`, the spline `TEFF.get` and the
  fields `EOS.B`, `EOS.Q` of the equation-of-state object are not part of the
  repository sources; they are the fields of `Env`.
* The members of `struct globals` that `derivs`, `dTdt` and `jacobn` overwrite
  (`CP`, `K`, `F`, `NU`, `EPS`) form `Scratch`; the members they only read form
  `Globals`.
* The set-up routines (`crust_heating`, `energy_deposited`, `set_up_grid`,
  `set_up_initial_temperature_profile_piecewise`) are embedded over an arbitrary
  linear ordered field `R` with the libm functions they call in `Libm R` and the
  members of `struct globals` they read in `Setup R`.
-/

namespace CrustCool

/-! ## Data model -/

/-- External collaborators: libm, the flux spline and the equation of state. -/
structure Env where
  log10 : ℚ → ℚ
  pow : ℚ → ℚ → ℚ
  sqrt : ℚ → ℚ
  TEFF_get : ℚ → ℚ
  B : ℚ
  Q : ℚ

/-- The members of `struct globals` that the integration callbacks only read. -/
structure Globals where
  N : Int
  dx : ℚ
  P : Int → ℚ
  rho : Int → ℚ
  Qimp : Int → ℚ
  CP_grid : Int → Int → ℚ
  K1_grid : Int → Int → ℚ
  K0_grid : Int → Int → ℚ
  NU_grid : Int → Int → ℚ
  EPS_grid : Int → Int → ℚ
  KAPPA_grid : Int → Int → ℚ
  betamin : ℚ
  betamax : ℚ
  deltabeta : ℚ
  g : ℚ
  mdot : ℚ
  Tt : ℚ
  Tc : ℚ
  nbeta : Int
  nuflag : Int
  accreting : Int
  hardwireQ : Int
  use_my_envelope : Int
  force_cooling_bc : Int
  Qinner : ℚ
  Qrho : ℚ
  outburst_duration : ℚ
  angle_mu : ℚ

/-- The per-cell and per-interface work arrays `G.CP, G.K, G.F, G.NU, G.EPS`. -/
structure Scratch where
  CP : Int → ℚ
  K : Int → ℚ
  F : Int → ℚ
  NU : Int → ℚ
  EPS : Int → ℚ

/-- The four outputs `*CP, *K, *NU, *EPS` of `calculate_vars`. -/
structure Vars where
  CP : ℚ
  K : ℚ
  NU : ℚ
  EPS : ℚ

/-- The five output slots `*T0, *K0, *CP0, *NU0, *EPS0` of a boundary routine. -/
structure Ghost where
  T : ℚ
  K : ℚ
  CP : ℚ
  NU : ℚ
  EPS : ℚ

/-! ## Control flow -/

/-- Runs `body i` for `k` consecutive indices starting at `i`. -/
def forLoop {σ : Type} (body : Int → σ → σ) : Nat → Int → σ → σ
  | 0, _, s => s
  | k + 1, i, s => forLoop body k (i + 1) (body i s)

/-- The C loop `for (int i = lo; i <= hi; i++) body`. -/
def forRange {σ : Type} (lo hi : Int) (body : Int → σ → σ) (s : σ) : σ :=
  forLoop body (hi + 1 - lo).toNat lo s

/-- The C conversion `(int) x`: truncation toward zero. -/
def truncInt (x : ℚ) : Int := if 0 ≤ x then ⌊x⌋ else ⌈x⌉

/-! ## Variable evaluator -/

/-- The guard `if (isnan(T) || T<0.0) T=1e7;` at the head of `calculate_vars`. -/
def safeT : Option ℚ → ℚ
  | none => 1e7
  | some t => if t < 0 then 1e7 else t

/-- The clamp of `beta = log10(T)` into the table range. -/
def clampBeta (G : Globals) (beta : ℚ) : ℚ :=
  let beta := if beta > G.betamax then G.betamax else beta
  if beta < G.betamin then G.betamin else beta

/-- The linear interpolation `X[i][j] + (X[i][j+1]-X[i][j])*interpfac`. -/
def interp (X : Int → Int → ℚ) (i j : Int) (interpfac : ℚ) : ℚ :=
  X i j + (X i (j + 1) - X i j) * interpfac

/-- The impurity parameter chosen in `calculate_vars`. -/
def Qval (E : Env) (G : Globals) (i : Int) : ℚ :=
  if G.hardwireQ ≠ 0 then (if G.rho i > G.Qrho then G.Qinner else E.Q) else G.Qimp i

/-- The impurity-weighted blend `KK=G.g*K0*K1/(K0*Qval+(1.0-Qval)*K1)`. -/
def KKblend (g K0 K1 Q : ℚ) : ℚ := g * K0 * K1 / (K0 * Q + (1 - Q) * K1)

/-- The conductivity `*K` of `calculate_vars` from the three interpolated table
values: blend, radiative term, magnetic suppression. -/
def conductivity (E : Env) (G : Globals) (i : Int) (K0 K1 kappa0 : ℚ) : ℚ :=
  let KK := KKblend G.g K0 K1 (Qval E G i)
  let kappa := kappa0 * G.g
  let KK := KK + kappa
  if E.B > 0 then
    let KKperp : ℚ := 0
    if G.angle_mu ≥ 0 then
      KK * (4 * G.angle_mu * G.angle_mu / (1 + 3 * G.angle_mu * G.angle_mu))
    else
      (1 / 2) * (1.0544 * KK + 0.9456 * KKperp)
  else KK

/-- The function `calculate_vars(i,T,P,&CP,&K,&NU,&EPS)`. -/
def calculate_vars (E : Env) (G : Globals) (i : Int) (T : Option ℚ) (_P : ℚ) : Vars :=
  let T := safeT T
  let beta := clampBeta G (E.log10 T)
  let j : Int := 1 + truncInt ((beta - G.betamin) / G.deltabeta)
  let interpfac : ℚ := (beta - (G.betamin + ((j - 1 : Int) : ℚ) * G.deltabeta)) / G.deltabeta
  let K0 := interp G.K0_grid i j interpfac
  let K1 := interp G.K1_grid i j interpfac
  let kappa := interp G.KAPPA_grid i j interpfac
  { K := conductivity E G i K0 K1 kappa
    CP := interp G.CP_grid i j interpfac
    NU := if G.nuflag ≠ 0 then interp G.NU_grid i j interpfac else 0
    EPS := if G.accreting ≠ 0 then G.EPS_grid i 1 * G.mdot * G.g else 0 }

/-! ## Flux and boundary policy -/

/-- The function `outer_boundary`; `out` is the prior content of the output slots. -/
def outer_boundary (G : Globals) (T1 K1 CP1 NU1 EPS1 : ℚ) (_out : Ghost) : Ghost :=
  { T := if G.accreting ≠ 0 ∧ G.Tt > 0 then G.Tt else T1 * (8 - G.dx) / (8 + G.dx)
    K := K1
    CP := CP1
    NU := if G.nuflag ≠ 0 then NU1 else 0
    EPS := if G.accreting ≠ 0 then EPS1 else 0 }

/-- The function `inner_boundary`; `out` is the prior content of the output slots.
The `else` branch of the last statement assigns `*NUN1`, as in the source. -/
def inner_boundary (G : Globals) (_TN KN CPN NUN EPSN : ℚ) (out : Ghost) : Ghost :=
  let o : Ghost := { out with T := G.Tc }
  let o : Ghost := { o with K := KN }
  let o : Ghost := { o with CP := CPN }
  let o : Ghost := if G.nuflag ≠ 0 then { o with NU := NUN } else { o with NU := 0 }
  if G.accreting ≠ 0 then { o with EPS := EPSN } else { o with NU := 0 }

/-- The function `calculate_heat_flux(i,T)`; `K` is the array `G.K`. -/
def calculate_heat_flux (E : Env) (G : Globals) (K T : Int → ℚ) (i : Int) : ℚ :=
  if i > 1 ∨ (G.accreting ≠ 0 ∧ G.outburst_duration > 1 / 365 ∧ G.force_cooling_bc = 0) then
    (1 / 2) * (K i + K (i - 1)) * (T i - T (i - 1)) / G.dx
  else if E.B = 0 ∨ G.use_my_envelope ≠ 0 then
    (G.g / 2.28e14) * E.TEFF_get (T i)
  else
    let T9 := T i * 1e-9
    let xi := T9 - 0.001 * E.pow (1e-14 * G.g) 0.25 * E.sqrt (7 * T9)
    let flux := 5.67e-5 * 1e24 * G.g * 1e-14 * (E.pow (7 * xi) 2.25 + E.pow (0.333 * xi) 1.25)
    if G.angle_mu ≥ 0 then
      let B12 := E.B * 1e-12
      let chi1 := 1 + 0.0492 * E.pow B12 0.292 / E.pow T9 0.24
      let fcond := 4 * G.angle_mu * G.angle_mu / (1 + 3 * G.angle_mu * G.angle_mu)
      flux * (fcond * E.pow chi1 4)
    else
      let beta := 0.074 * E.sqrt (1e-12 * E.B) * E.pow T9 (-0.45)
      let a1 := 5059 * E.pow T9 0.75 /
        E.sqrt (1 + 20.4 * E.sqrt T9 + 138 * E.pow T9 1.5 + 1102 * T9 * T9)
      let a2 := 1484 * E.pow T9 0.75 / E.sqrt (1 + 90 * E.pow T9 1.5 + 125 * T9 * T9)
      let a3 := 5530 * E.pow T9 0.75 /
        E.sqrt (1 + 8.16 * E.sqrt T9 + 107.8 * E.pow T9 1.5 + 560 * T9 * T9)
      let fac := (1 + a1 * beta * beta + a2 * E.pow beta 3 + 0.007 * a3 * E.pow beta 4) /
        (1 + a3 * beta * beta)
      flux * fac

/-! ## Grid state and the integration callbacks -/

/-- The temperature vector together with the work arrays. -/
structure Grid where
  T : Int → ℚ
  S : Scratch

/-- The statement `calculate_vars(j,T[j],G.P[j],&G.CP[j],&G.K[j],&G.NU[j],&G.EPS[j])`. -/
def calcCell (E : Env) (G : Globals) (T : Int → ℚ) (j : Int) (S : Scratch) : Scratch :=
  let v := calculate_vars E G j (some (T j)) (G.P j)
  { S with
    CP := Function.update S.CP j v.CP
    K := Function.update S.K j v.K
    NU := Function.update S.NU j v.NU
    EPS := Function.update S.EPS j v.EPS }

/-- Stores the five output slots of a boundary routine in cell `j`. -/
def storeGhost (j : Int) (o : Ghost) (s : Grid) : Grid :=
  { T := Function.update s.T j o.T
    S := { s.S with
      K := Function.update s.S.K j o.K
      CP := Function.update s.S.CP j o.CP
      NU := Function.update s.S.NU j o.NU
      EPS := Function.update s.S.EPS j o.EPS } }

/-- The content of cell `j` viewed as output slots. -/
def loadGhost (j : Int) (s : Grid) : Ghost :=
  { T := s.T j, K := s.S.K j, CP := s.S.CP j, NU := s.S.NU j, EPS := s.S.EPS j }

/-- The call `outer_boundary(T[1],G.K[1],..,&T[0],&G.K[0],..)`. -/
def applyOuter (G : Globals) (s : Grid) : Grid :=
  storeGhost 0
    (outer_boundary G (s.T 1) (s.S.K 1) (s.S.CP 1) (s.S.NU 1) (s.S.EPS 1) (loadGhost 0 s)) s

/-- The call `inner_boundary(T[G.N],G.K[G.N],..,&T[G.N+1],&G.K[G.N+1],..)`. -/
def applyInner (G : Globals) (s : Grid) : Grid :=
  storeGhost (G.N + 1)
    (inner_boundary G (s.T G.N) (s.S.K G.N) (s.S.CP G.N) (s.S.NU G.N) (s.S.EPS G.N)
      (loadGhost (G.N + 1) s)) s

/-- The result of `derivs`: the (ghost-filled) temperature vector, the work
arrays and the derivative vector. -/
structure DerivsOut where
  T : Int → ℚ
  S : Scratch
  dTdt : Int → ℚ

/-- The statement `G.F[i] = calculate_heat_flux(i,T)`. -/
def storeFlux (E : Env) (G : Globals) (T : Int → ℚ) (i : Int) (S : Scratch) : Scratch :=
  { S with F := Function.update S.F i (calculate_heat_flux E G S.K T i) }

/-- The body of the last loop of `derivs`:
`dTdt[i]=G.g*(G.F[i+1]-G.F[i])/(G.dx*G.CP[i]*G.P[i]);` followed by the two
conditional increments. -/
def storeRate (G : Globals) (S : Scratch) (i : Int) (dTdt : Int → ℚ) : Int → ℚ :=
  let f := G.g * (S.F (i + 1) - S.F i) / (G.dx * S.CP i * G.P i)
  let f := if G.nuflag ≠ 0 then f + -(S.NU i / S.CP i) else f
  let f := if G.accreting ≠ 0 then f + S.EPS i / S.CP i else f
  Function.update dTdt i f

/-- The function `derivs(t,T,dTdt)`. -/
def derivs (E : Env) (G : Globals) (T : Int → ℚ) (S : Scratch) (dTdt : Int → ℚ) : DerivsOut :=
  let S := forRange 1 G.N (calcCell E G T) S
  let s := applyOuter G { T := T, S := S }
  let s := applyInner G s
  let S := forRange 1 (G.N + 1) (storeFlux E G s.T) s.S
  let dTdt := forRange 1 G.N (storeRate G S) dTdt
  { T := s.T, S := S, dTdt := Function.update dTdt (G.N + 1) 0 }

/-- The result of the single-cell routine `dTdt`. -/
structure CellOut where
  f : ℚ
  T : Int → ℚ
  S : Scratch

/-- The function `dTdt(i,T)`. -/
def dTdt (E : Env) (G : Globals) (i : Int) (T : Int → ℚ) (S : Scratch) : CellOut :=
  let k := i - 1
  let k := if k < 1 then 1 else k
  let k2 := i + 1
  let k2 := if k2 > G.N + 1 then G.N + 1 else k2
  let S := forRange k k2 (calcCell E G T) S
  let s : Grid := { T := T, S := S }
  let s := if i = 1 then applyOuter G s else s
  let s := if i = G.N then applyInner G s else s
  let f := G.g * (calculate_heat_flux E G s.S.K s.T (i + 1) - calculate_heat_flux E G s.S.K s.T i)
    / (G.dx * s.S.CP i * G.P i)
  let f := if G.nuflag ≠ 0 then f + -(s.S.NU i / s.S.CP i) else f
  let f := if G.accreting ≠ 0 then f + s.S.EPS i / s.S.CP i else f
  { f := f, T := s.T, S := s.S }

/-- The state threaded through `jacobn`: temperature vector, work arrays and
the matrix `dfdT`. -/
structure JacState where
  T : Int → ℚ
  S : Scratch
  dfdT : Int → Int → ℚ

/-- One entry of `jacobn`:
`T[c]*=1.0+e; f=dTdt(i,T); T[c]/=1.0+e; dfdT[i][c]=(f-dfdt[i])/(T[c]*e);` with `e=0.01`. -/
def perturb (E : Env) (G : Globals) (dfdt : Int → ℚ) (i c : Int) (st : JacState) : JacState :=
  let e : ℚ := 0.01
  let T := Function.update st.T c (st.T c * (1 + e))
  let r := dTdt E G i T st.S
  let T := Function.update r.T c (r.T c / (1 + e))
  { T := T
    S := r.S
    dfdT := Function.update st.dfdT i (Function.update (st.dfdT i) c ((r.f - dfdt i) / (T c * e))) }

/-- One pass of the loop body of `jacobn`: the three entries of row `i`. -/
def jacRow (E : Env) (G : Globals) (dfdt : Int → ℚ) (i : Int) (st : JacState) : JacState :=
  perturb E G dfdt i (i + 1) (perturb E G dfdt i i (perturb E G dfdt i (i - 1) st))

/-- The function `jacobn(t,T,dfdt,dfdT,n)`. -/
def jacobn (E : Env) (G : Globals) (_t : ℚ) (T : Int → ℚ) (S : Scratch) (dfdt : Int → ℚ)
    (dfdT : Int → Int → ℚ) (n : Int) : JacState :=
  let st := forRange 2 (n - 1) (jacRow E G dfdt) { T := T, S := S, dfdT := dfdT }
  perturb E G dfdt 1 (1 + 1) (perturb E G dfdt 1 1 st)

/-! ## Closed forms used to state the properties -/

/-- The outputs of `calculate_vars` for cell `j` at its own temperature `T[j]`. -/
def cellVars (E : Env) (G : Globals) (T : Int → ℚ) (j : Int) : Vars :=
  calculate_vars E G j (some (T j)) (G.P j)

/-- The outer ghost temperature written by `outer_boundary`. -/
def ghostT0 (G : Globals) (T1 : ℚ) : ℚ :=
  if G.accreting ≠ 0 ∧ G.Tt > 0 then G.Tt else T1 * (8 - G.dx) / (8 + G.dx)

/-- The temperature vector once both ghost cells have been filled. -/
def filledT (G : Globals) (T : Int → ℚ) : Int → ℚ :=
  Function.update (Function.update T 0 (ghostT0 G (T 1))) (G.N + 1) G.Tc

/-- The conductivity array on cells `0..N+1` once both ghost cells have been
filled: the ghost cells copy their interior neighbour. -/
def filledK (E : Env) (G : Globals) (T : Int → ℚ) : Int → ℚ := fun j =>
  if j = 0 then (cellVars E G T 1).K
  else if j = G.N + 1 then (cellVars E G T G.N).K
  else (cellVars E G T j).K

/-- The interface flux `calculate_heat_flux(k,T)` after both ghost cells were filled. -/
def fluxAt (E : Env) (G : Globals) (T : Int → ℚ) (k : Int) : ℚ :=
  calculate_heat_flux E G (filledK E G T) (filledT G T) k

/-- The right-hand side of cell `i` as the source computes it from the filled grid. -/
def rhsCell (E : Env) (G : Globals) (T : Int → ℚ) (i : Int) : ℚ :=
  let v := cellVars E G T i
  let f := G.g * (fluxAt E G T (i + 1) - fluxAt E G T i) / (G.dx * v.CP * G.P i)
  let f := if G.nuflag ≠ 0 then f + -(v.NU / v.CP) else f
  if G.accreting ≠ 0 then f + v.EPS / v.CP else f

/-- The grid state of `derivs` after the microphysics loop and both boundary calls. -/
def filledGrid (E : Env) (G : Globals) (T : Int → ℚ) (S : Scratch) : Grid :=
  applyInner G (applyOuter G { T := T, S := forRange 1 G.N (calcCell E G T) S })

/-- The work arrays of `derivs` after the flux loop. -/
def fluxedScratch (E : Env) (G : Globals) (T : Int → ℚ) (S : Scratch) : Scratch :=
  forRange 1 (G.N + 1) (storeFlux E G (filledGrid E G T S).T) (filledGrid E G T S).S

/-- The grid state of `dTdt(i,T)` after its microphysics loop and its
conditional boundary calls. -/
def localGrid (E : Env) (G : Globals) (i : Int) (T : Int → ℚ) (S : Scratch) : Grid :=
  let k := i - 1
  let k := if k < 1 then 1 else k
  let k2 := i + 1
  let k2 := if k2 > G.N + 1 then G.N + 1 else k2
  let S := forRange k k2 (calcCell E G T) S
  let s : Grid := { T := T, S := S }
  let s := if i = 1 then applyOuter G s else s
  if i = G.N then applyInner G s else s

/-- The quotient the source intends for entry `(i,c)`: the single-cell derivative
at the temperature vector whose entry `c` is scaled by `1.01`, minus the base
derivative, over `0.01*T[c]`. -/
def fdQuotient (E : Env) (G : Globals) (T : Int → ℚ) (S : Scratch) (dfdt : Int → ℚ)
    (i c : Int) : ℚ :=
  ((dTdt E G i (Function.update T c (1.01 * T c)) S).f - dfdt i) / (0.01 * T c)

/-- The value `jacobn` stores in entry `(i,c)` of the band: the intended quotient
on an interior column, and on the ghost column `N+1` the quotient formed from the
unperturbed derivative and the step `0.01*(Tc/1.01)`. -/
def jacStored (E : Env) (G : Globals) (T : Int → ℚ) (S : Scratch) (dfdt : Int → ℚ)
    (i c : Int) : ℚ :=
  if c ≤ G.N then fdQuotient E G T S dfdt i c
  else ((dTdt E G i T S).f - dfdt i) / (G.Tc / (1 + 0.01) * 0.01)

/-! ## A small concrete grid

Three interior cells with constant tables, used to instantiate the theorems. -/

/-- Collaborators of the sample grid: no magnetic field, hardwired `Q = 0`. -/
def sampleEnv : Env :=
  { log10 := fun x => x
    pow := fun x _ => x
    sqrt := fun x => x
    TEFF_get := fun x => x
    B := 0
    Q := 0 }

/-- The sample grid in the cooling phase; the table range and bin count are the
ones `precalculate_vars` sets. -/
def sampleGlobals : Globals :=
  { N := 3
    dx := 1
    P := fun _ => 1
    rho := fun _ => 1
    Qimp := fun _ => 0
    CP_grid := fun _ _ => 1
    K1_grid := fun _ _ => 1
    K0_grid := fun _ _ => 1
    NU_grid := fun _ _ => 1
    EPS_grid := fun _ _ => 1
    KAPPA_grid := fun _ _ => 0
    betamin := 6.5
    betamax := 10
    deltabeta := (10 - 6.5) / (1 * (100 - 1))
    g := 1
    mdot := 1
    Tt := 0
    Tc := 2
    nbeta := 100
    nuflag := 0
    accreting := 0
    hardwireQ := 1
    use_my_envelope := 0
    force_cooling_bc := 0
    Qinner := 0
    Qrho := 2
    outburst_duration := 1
    angle_mu := -1 }

/-- A temperature vector on the sample grid. -/
def sampleT : Int → ℚ := fun j => 7 + j * j

/-- A second temperature vector, equal to `sampleT` on cells `1..3`. -/
def sampleT2 : Int → ℚ := fun j => if 1 ≤ j ∧ j ≤ 3 then 7 + j * j else 0

/-- Work arrays holding stale values. -/
def sampleScratch : Scratch :=
  { CP := fun _ => 5, K := fun _ => 5, F := fun _ => 5, NU := fun _ => 5, EPS := fun _ => 5 }

/-- A derivative vector holding stale values. -/
def sampleRate : Int → ℚ := fun _ => 9

/-- A base derivative vector holding the value of `dTdt(3,sampleT)` on the sample grid. -/
def sampleBase : Int → ℚ := fun _ => -19

/-- The sample grid during an outburst with no fixed surface temperature. -/
def sampleAccreting : Globals := { sampleGlobals with accreting := 1 }

/-- The sample grid with tables that vary from bin to bin and neutrino cooling on. -/
def sampleVarying : Globals :=
  { sampleGlobals with
    CP_grid := fun i j => 1 + i + j
    K0_grid := fun i j => 2 + i + j
    K1_grid := fun i j => 3 + i + 2 * j
    NU_grid := fun i j => 5 + i * j
    KAPPA_grid := fun _ j => 7 + j
    nuflag := 1 }

/-- The sample grid during an outburst with the surface temperature pinned. -/
def samplePinned : Globals := { sampleGlobals with accreting := 1, Tt := 5 }

/-! ## Set-up routines

The heating model, the grid set-up and the piecewise initial profile call `exp`,
`log`, `log10` and `pow`.  Their embedding takes the number type as a parameter
`R`, a linear ordered field: `ℚ` evaluates it, and over `ℝ` the library functions
can be the real ones, whose laws the properties of these routines rest on. -/

/-- The libm functions called by the set-up routines. -/
structure Libm (R : Type) where
  exp : R → R
  log : R → R
  log10 : R → R
  pow : R → R → R

/-- The members of `struct globals` read by the set-up routines. -/
structure Setup (R : Type) where
  N : Int
  dx : R
  P : Int → R
  rho : Int → R
  Qheat : Int → R
  g : R
  mdot : R
  yt : R
  Tc : R
  outburst_duration : R
  heating_P1 : R
  heating_P2 : R
  hardwireQ : Int
  extra_heating : Int
  output : Int
  deep_heating_factor : R
  extra_Q : R
  extra_y : R
  energy_deposited_outer : R
  energy_deposited_inner : R
  energy_slope : R

/-- The rate `eps_heat` of the short-burst branch of `crust_heating`, in the units
of the code. -/
def eps_heat {R : Type} [LinearOrderedField R] (H : Setup R) (i : Int) : R :=
  let eps_heat := 1e25 / (H.rho i * H.outburst_duration * 3.15e7)
  eps_heat / (H.mdot * H.g)

/-- The extra ocean heat source of `crust_heating` (the block under
`if (G.extra_heating)`). -/
def eps_extra {R : Type} [LinearOrderedField R] (L : Libm R) (H : Setup R) (i : Int) : R :=
  let P := H.P i
  let extra_y1 := H.extra_y / 3
  let extra_y2 := H.extra_y * 3
  let eps_extra : R := 0
  let P1 := P * L.exp (-0.5 * H.dx)
  let P2 := P * L.exp (0.5 * H.dx)
  let geff : R := 2.28e14
  let eps_extra := if P1 > extra_y1 * geff ∧ P2 < extra_y2 * geff then
      8.8e4 * H.extra_Q * 9.64e17 / (P * L.log (extra_y2 / extra_y1)) else eps_extra
  let eps_extra := if P1 < extra_y1 * geff ∧ P2 < extra_y2 * geff ∧ extra_y1 * geff < P2 then
      8.8e4 * H.extra_Q * 9.64e17 / (P * L.log (extra_y2 / extra_y1))
        * (L.log (P2 / (extra_y1 * geff)) / H.dx) else eps_extra
  if P1 > extra_y1 * geff ∧ P2 > extra_y2 * geff ∧ extra_y2 * geff > P1 then
      8.8e4 * H.extra_Q * 9.64e17 / (P * L.log (extra_y2 / extra_y1))
        * (L.log (extra_y2 * geff / P1) / H.dx) else eps_extra

/-- The function `crust_heating(i)`. -/
def crust_heating {R : Type} [LinearOrderedField R] (L : Libm R) (H : Setup R) (i : Int) : R :=
  let eps : R := 0
  let P := H.P i
  if H.outburst_duration < 1 / 365 then
    let P1 := P * L.exp (-0.5 * H.dx)
    let P2 := P * L.exp (0.5 * H.dx)
    let eps := if P1 > H.heating_P1 ∧ P2 < H.heating_P2 then eps_heat H i else eps
    let eps := if P1 < H.heating_P1 ∧ P2 < H.heating_P2 ∧ H.heating_P1 < P2 then
        eps_heat H i * L.log (P2 / H.heating_P1) / H.dx else eps
    if P1 > H.heating_P1 ∧ P2 > H.heating_P2 ∧ H.heating_P2 > P1 then
        eps_heat H i * L.log (H.heating_P2 / P1) / H.dx else eps
  else
    if H.hardwireQ = 0 then
      H.Qheat i * 8.8e4 * 9.64e17 / (H.P i * H.dx)
    else
      let eps := if P ≥ 1e16 * 2.28e14 ∧ P ≤ 1e17 * 2.28e14 then
          8.8e4 * H.deep_heating_factor * 1.7 * 9.64e17 / (P * L.log (1e17 / 1e16)) else eps
      let eps := if P ≥ 3e12 * 2.28e14 ∧ P < 3e15 * 2.28e14 then
          8.8e4 * H.deep_heating_factor * 0.2 * 9.64e17 / (P * L.log (3e15 / 3e12)) else eps
      if H.extra_heating ≠ 0 then eps + eps_extra L H i else eps

/-- The function `energy_deposited(i)`. -/
def energy_deposited {R : Type} [LinearOrderedField R] (L : Libm R) (H : Setup R)
    (i : Int) : R :=
  let ener := if H.rho i > 4e11 then H.energy_deposited_inner else H.energy_deposited_outer
  ener * L.pow (H.rho i / 1e10) H.energy_slope

/-- The pressure members written by `set_up_grid`. -/
structure PressureGrid (R : Type) where
  Pb : R
  Pt : R
  dx : R
  P : Int → R

/-- The pressure grid of `set_up_grid`: `G.Pb`, `G.Pt`, `G.dx` and the loop
`x=log(G.Pt)+G.dx*(i-1); G.P[i]=exp(x);` over `i = 0..N+2`; `P0` is the content of
the freshly allocated vector.  Density, composition and heating weights, which
come from the equation of state and the crust-model splines, are left out. -/
def set_up_grid {R : Type} [LinearOrderedField R] (L : Libm R) (N : Int) (yt : R)
    (P0 : Int → R) : PressureGrid R :=
  let Pb : R := 6.5e32
  let Pt : R := yt * 2.28e14
  let dx : R := L.log (Pb / Pt) / ((N - 1 : Int) : R)
  { Pb := Pb
    Pt := Pt
    dx := dx
    P := forRange 0 (N + 2)
      (fun i P => Function.update P i (L.exp (L.log Pt + dx * ((i - 1 : Int) : R)))) P0 }

/-- A short-burst heating set-up on a grid with `dx = 1`: heating window
`[0.9, 1.1]`, inner normalization `3`, outer normalization `1`, slope `1/2`. -/
def sampleSetup (R : Type) [LinearOrderedField R] : Setup R :=
  { N := 3
    dx := 1
    P := fun _ => 1
    rho := fun _ => 5e11
    Qheat := fun _ => 0
    g := 1
    mdot := 1
    yt := 1e12
    Tc := 10
    outburst_duration := 1 / 1000
    heating_P1 := 0.9
    heating_P2 := 1.1
    hardwireQ := 1
    extra_heating := 0
    output := 0
    deep_heating_factor := 1
    extra_Q := 0
    extra_y := 0
    energy_deposited_outer := 1
    energy_deposited_inner := 3
    energy_slope := 1 / 2 }

/-- The set-up `sampleSetup` on a grid with cell pressures `P`. -/
def tiledSetup (R : Type) [LinearOrderedField R] (P : Int → R) : Setup R :=
  { sampleSetup R with P := P }

/-! ## The piecewise initial profile -/

/-- One uncommented `>` line of the parameter file as `sscanf` reads it: a density,
a temperature and, when the line has a third field (`nvar == 3`), a second
temperature. -/
structure BreakLine (R : Type) where
  rho : R
  T : R
  T2 : Option R

/-- The vectors `rhovec`, `Tvec` and the next free index `i` of the reading loop. -/
structure Breaks (R : Type) where
  rhovec : Int → R
  Tvec : Int → R
  i : Int

/-- The body of the reading loop of `set_up_initial_temperature_profile_piecewise`
for one uncommented `>` line. -/
def readBreak {R : Type} [LinearOrderedField R] (H : Setup R) (ln : BreakLine R)
    (b : Breaks R) : Breaks R :=
  let T := if ln.T < 0 then H.Tc else ln.T
  let T2 := ln.T2.map (fun t => if t < 0 then H.Tc else t)
  let rho := if ln.rho < 0 then H.rho H.N else ln.rho
  if rho = 0 then { b with Tvec := Function.update b.Tvec 1 T }
  else
    let b : Breaks R :=
      { rhovec := Function.update b.rhovec b.i rho
        Tvec := Function.update b.Tvec b.i T
        i := b.i + 1 }
    match T2 with
    | some t2 =>
      { rhovec := Function.update b.rhovec b.i (rho * 1.01)
        Tvec := Function.update b.Tvec b.i t2
        i := b.i + 1 }
    | none => b

/-- The breakpoint vectors once the file has been read and the base of the crust
appended: `lines` are the uncommented `>` lines in file order, `rhovec0`, `Tvec0`
the content of the freshly allocated vectors. -/
def readBreaks {R : Type} [LinearOrderedField R] (H : Setup R) (lines : List (BreakLine R))
    (rhovec0 Tvec0 : Int → R) : Breaks R :=
  let b0 : Breaks R :=
    { rhovec := Function.update rhovec0 1 (H.rho 1)
      Tvec := Function.update Tvec0 1 H.Tc
      i := 2 }
  let b := lines.foldl (fun b ln => readBreak H ln b) b0
  if b.rhovec (b.i - 1) ≠ H.rho H.N then
    { rhovec := Function.update b.rhovec b.i (H.rho H.N)
      Tvec := Function.update b.Tvec b.i H.Tc
      i := b.i + 1 }
  else b

/-- The loop `while (rhovec[j] < G.rho[i] && j<nvec) j++;` run for at most `fuel`
increments from `j`. -/
def findBreak {R : Type} [LinearOrderedField R] (rhovec : Int → R) (rho : R) (nvec : Int) :
    Nat → Int → Int
  | 0, j => j
  | fuel + 1, j => if rhovec j < rho ∧ j < nvec then findBreak rhovec rho nvec fuel (j + 1) else j

/-- The temperature `Ti` computed for cell `i`. -/
def piecewise_Ti {R : Type} [LinearOrderedField R] (L : Libm R) (H : Setup R) (b : Breaks R)
    (i : Int) : R :=
  let nvec := b.i - 1
  if i = 1 then b.Tvec 1
  else if i = H.N + 1 then b.Tvec nvec
  else
    let j := findBreak b.rhovec (H.rho i) nvec (nvec - 1).toNat 1
    L.pow 10 (L.log10 (b.Tvec (j - 1))
      + L.log10 (b.Tvec j / b.Tvec (j - 1)) * L.log10 (H.rho i / b.rhovec (j - 1))
          / L.log10 (b.rhovec j / b.rhovec (j - 1)))

/-- What the assignment loop writes: `G.Tt` and the initial values handed to the
integrator through `ODE.set_bc`. -/
structure Profile (R : Type) where
  Tt : R
  bc : Int → R

/-- The body of the assignment loop for cell `i`: `ODE.set_bc(i,Ti)` and, in output
mode, the replacement by the critical temperature `TTC`.  `TC i Ti` and `Yn i` are
`EOS.TC()` and `EOS.Yn` of the equation-of-state object for that cell; the energy
diagnostics are left out. -/
def assignCell {R : Type} [LinearOrderedField R] (L : Libm R) (H : Setup R)
    (TC : Int → R → R) (Yn : Int → R) (b : Breaks R) (i : Int) (p : Profile R) : Profile R :=
  let Ti := piecewise_Ti L H b i
  let p : Profile R := if i = 1 then { p with Tt := Ti } else p
  let p : Profile R := { p with bc := Function.update p.bc i Ti }
  if H.output ≠ 0 then
    let TTC := TC i Ti
    if Yn i > 0 ∧ Ti > TTC ∧ TTC > b.Tvec (b.i - 1) then
      { p with bc := Function.update p.bc i TTC }
    else p
  else p

/-- The function `set_up_initial_temperature_profile_piecewise`; `none` is the
`exit(0)` of the `nvec == 0` branch. -/
def set_up_initial_temperature_profile_piecewise {R : Type} [LinearOrderedField R]
    (L : Libm R) (H : Setup R) (TC : Int → R → R) (Yn : Int → R)
    (lines : List (BreakLine R)) (rhovec0 Tvec0 : Int → R) (p0 : Profile R) :
    Option (Profile R) :=
  let b := readBreaks H lines rhovec0 Tvec0
  let nvec := b.i - 1
  if nvec = 0 then none
  else some (forRange 1 (H.N + 1) (assignCell L H TC Yn b) p0)

/-- The value cell `i` is left with by the assignment loop: `Ti`, or in output mode
the critical temperature when the source replaces `Ti` by it. -/
def cellBC {R : Type} [LinearOrderedField R] (L : Libm R) (H : Setup R)
    (TC : Int → R → R) (Yn : Int → R) (b : Breaks R) (i : Int) : R :=
  if H.output ≠ 0 ∧ Yn i > 0 ∧ piecewise_Ti L H b i > TC i (piecewise_Ti L H b i)
      ∧ TC i (piecewise_Ti L H b i) > b.Tvec (b.i - 1) then
    TC i (piecewise_Ti L H b i)
  else piecewise_Ti L H b i

/-- The index `j` at which the search loop for cell `i` stops. -/
def breakIndex {R : Type} [LinearOrderedField R] (H : Setup R) (b : Breaks R) (i : Int) : Int :=
  findBreak b.rhovec (H.rho i) (b.i - 1) (b.i - 1 - 1).toNat 1

/-- The set-up `sampleSetup` on a grid with densities `rho[i] = 10*i`. -/
def profileSetup (R : Type) [LinearOrderedField R] : Setup R :=
  { sampleSetup R with rho := fun i => 10 * (i : R) }

/-! ## Table lookup and table storage -/

/-- The bin index `j = 1 + (int) ((beta-G.betamin)/G.deltabeta)` that
`calculate_vars` computes for the temperature `T`. -/
def lookup_j (E : Env) (G : Globals) (T : Option ℚ) : Int :=
  let T := safeT T
  let beta := clampBeta G (E.log10 T)
  1 + truncInt ((beta - G.betamin) / G.deltabeta)

/-- The weight `interpfac=(beta-(G.betamin + (j-1)*G.deltabeta))/G.deltabeta` that
`calculate_vars` computes for the temperature `T`. -/
def lookup_interpfac (E : Env) (G : Globals) (T : Option ℚ) : ℚ :=
  let T := safeT T
  let beta := clampBeta G (E.log10 T)
  let j : Int := 1 + truncInt ((beta - G.betamin) / G.deltabeta)
  (beta - (G.betamin + ((j - 1 : Int) : ℚ) * G.deltabeta)) / G.deltabeta

/-- The table range and bin count that the head of `precalculate_vars` stores:
`G.nbeta=100; G.betamin=6.5; G.betamax=10.0;
G.deltabeta = (G.betamax-G.betamin)/(1.0*(G.nbeta-1));`. -/
def tableRange (G : Globals) : Globals :=
  { G with
    nbeta := 100
    betamin := 6.5
    betamax := 10.0
    deltabeta := (10.0 - 6.5) / (1.0 * (((100 : Int) - 1 : Int) : ℚ)) }

/-- The entries of a table allocated by `matrix(1,G.N+2,1,G.nbeta)`: rows
`1..N+2`, columns `1..nbeta`. -/
def inTable (G : Globals) (i j : Int) : Prop :=
  1 ≤ i ∧ i ≤ G.N + 2 ∧ 1 ≤ j ∧ j ≤ G.nbeta

instance (G : Globals) (i j : Int) : Decidable (inTable G i j) := by
  unfold inTable; infer_instance

/-- Collaborators whose `log10` is a step function that agrees with the decimal
logarithm at the safe floor `1e7` and at the top of the table `1e10`. -/
def decadeEnv : Env :=
  { sampleEnv with log10 := fun x => if x < 1e10 then 7 else 10 }

/-! ## A temperature vector with filled ghost cells -/

/-- The sample temperature vector with both ghost entries filled as `derivs`
leaves them: `T[0]` from the outer boundary and `T[4] = Tc = 2`. -/
def sampleFilled : Int → ℚ := filledT sampleGlobals sampleT

/-- The sample grid with varying tables and a per-cell impurity parameter
`Qimp = 1/2` (`hardwireQ` off). -/
def sampleBlend : Globals :=
  { sampleVarying with hardwireQ := 0, Qimp := fun _ => 1 / 2 }

/-- The set-up `profileSetup` with the output flag on. -/
def outputSetup (R : Type) [LinearOrderedField R] : Setup R :=
  { profileSetup R with output := 1 }

/-! ## Loop lemmas -/

theorem forLoop_keep {σ β : Type} (body : Int → σ → σ) (q : σ → β)
    (hq : ∀ i s, q (body i s) = q s) :
    ∀ (k : Nat) (lo : Int) (s : σ), q (forLoop body k lo s) = q s := by
  intro k
  induction k with
  | zero => intro lo s; rfl
  | succ k ih =>
    intro lo s
    show q (forLoop body k (lo + 1) (body lo s)) = q s
    rw [ih, hq]

theorem forLoop_proj {σ α β : Type} (body : Int → σ → σ) (q : σ → β) (proj : σ → Int → α)
    (val : β → Int → α) (hq : ∀ i s, q (body i s) = q s)
    (h : ∀ i s j, proj (body i s) j = if j = i then val (q s) i else proj s j) :
    ∀ (k : Nat) (lo : Int) (s : σ) (j : Int),
      proj (forLoop body k lo s) j
        = if lo ≤ j ∧ j < lo + k then val (q s) j else proj s j := by
  intro k
  induction k with
  | zero =>
    intro lo s j
    have : ¬ (lo ≤ j ∧ j < lo + ((0 : Nat) : Int)) := by
      simp only [Nat.cast_zero, add_zero]; omega
    rw [if_neg this]; rfl
  | succ k ih =>
    intro lo s j
    show proj (forLoop body k (lo + 1) (body lo s)) j = _
    rw [ih, hq, h]
    by_cases h1 : j = lo
    · subst h1
      have a : ¬ (j + 1 ≤ j ∧ j < j + 1 + (k : Int)) := by omega
      have b : j ≤ j ∧ j < j + ((k + 1 : Nat) : Int) := by
        push_cast; omega
      rw [if_neg a, if_pos b, if_pos rfl]
    · by_cases h2 : lo + 1 ≤ j ∧ j < lo + 1 + (k : Int)
      · have b : lo ≤ j ∧ j < lo + ((k + 1 : Nat) : Int) := by
          push_cast; omega
        rw [if_pos h2, if_pos b]
      · have b : ¬ (lo ≤ j ∧ j < lo + ((k + 1 : Nat) : Int)) := by
          push_cast; omega
        rw [if_neg h2, if_neg b, if_neg h1]

theorem forRange_keep {σ β : Type} (lo hi : Int) (body : Int → σ → σ) (q : σ → β)
    (hq : ∀ i s, q (body i s) = q s) (s : σ) : q (forRange lo hi body s) = q s :=
  forLoop_keep body q hq _ lo s

theorem forRange_proj {σ α β : Type} (lo hi : Int) (body : Int → σ → σ) (q : σ → β)
    (proj : σ → Int → α) (val : β → Int → α) (hq : ∀ i s, q (body i s) = q s)
    (h : ∀ i s j, proj (body i s) j = if j = i then val (q s) i else proj s j)
    (s : σ) (j : Int) :
    proj (forRange lo hi body s) j = if lo ≤ j ∧ j ≤ hi then val (q s) j else proj s j := by
  unfold forRange
  rw [forLoop_proj body q proj val hq h]
  by_cases hc : lo ≤ j ∧ j ≤ hi
  · have : lo ≤ j ∧ j < lo + (((hi + 1 - lo).toNat : Nat) : Int) := by
      rw [Int.toNat_of_nonneg (by omega)]; omega
    rw [if_pos hc, if_pos this]
  · have : ¬ (lo ≤ j ∧ j < lo + (((hi + 1 - lo).toNat : Nat) : Int)) := by
      intro hh
      apply hc
      by_cases hn : 0 ≤ hi + 1 - lo
      · rw [Int.toNat_of_nonneg hn] at hh; omega
      · have : (hi + 1 - lo).toNat = 0 := by
          apply Int.toNat_eq_zero.2; omega
        rw [this] at hh; simp at hh; omega
    rw [if_neg hc, if_neg this]

theorem forLoop_inv_idx {σ : Type} (body : Int → σ → σ) (I : Int → σ → Prop) :
    ∀ (k : Nat) (lo : Int) (s : σ),
      (∀ i s, lo ≤ i → i < lo + k → I i s → I (i + 1) (body i s)) →
      I lo s → I (lo + k) (forLoop body k lo s) := by
  intro k
  induction k with
  | zero =>
    intro lo s _ h0
    simpa [forLoop] using h0
  | succ k ih =>
    intro lo s hstep h0
    show I (lo + ((k + 1 : Nat) : Int)) (forLoop body k (lo + 1) (body lo s))
    have e : lo + ((k + 1 : Nat) : Int) = lo + 1 + (k : Int) := by push_cast; ring
    rw [e]
    apply ih
    · intro i s' h1 h2 hi
      exact hstep i s' (by omega) (by push_cast; omega) hi
    · exact hstep lo s (le_refl _) (by push_cast; omega) h0

theorem forRange_inv_idx {σ : Type} (lo hi : Int) (body : Int → σ → σ) (I : Int → σ → Prop)
    (s : σ) (hle : lo ≤ hi + 1)
    (hstep : ∀ i s, lo ≤ i → i ≤ hi → I i s → I (i + 1) (body i s))
    (h0 : I lo s) : I (hi + 1) (forRange lo hi body s) := by
  have e : lo + (((hi + 1 - lo).toNat : Nat) : Int) = hi + 1 := by
    rw [Int.toNat_of_nonneg (by omega)]; ring
  have key := forLoop_inv_idx body I (hi + 1 - lo).toNat lo s
    (fun i s' h1 h2 hi => hstep i s' h1 (by omega) hi) h0
  rw [e] at key
  exact key

theorem forRange_inv {σ : Type} (lo hi : Int) (body : Int → σ → σ) (I : σ → Prop) (s : σ)
    (hstep : ∀ i s, lo ≤ i → i ≤ hi → I s → I (body i s)) (h0 : I s) :
    I (forRange lo hi body s) := by
  by_cases hle : lo ≤ hi + 1
  · exact forRange_inv_idx lo hi body (fun _ => I) s hle hstep h0
  · have : (hi + 1 - lo).toNat = 0 := Int.toNat_eq_zero.2 (by omega)
    unfold forRange
    rw [this]
    exact h0

/-! ## The work arrays after the microphysics loop -/

theorem calcCell_F (E : Env) (G : Globals) (T : Int → ℚ) (i : Int) (S : Scratch) :
    (calcCell E G T i S).F = S.F := rfl

theorem calcLoop_K (E : Env) (G : Globals) (T : Int → ℚ) (lo hi : Int) (S : Scratch) (j : Int) :
    (forRange lo hi (calcCell E G T) S).K j
      = if lo ≤ j ∧ j ≤ hi then (cellVars E G T j).K else S.K j :=
  forRange_proj lo hi (calcCell E G T) (fun _ => ()) Scratch.K
    (fun _ j => (cellVars E G T j).K) (fun _ _ => rfl)
    (fun i s j => by
      by_cases h : j = i
      · subst h; simp [calcCell, cellVars]
      · simp [calcCell, Function.update_apply, h]) S j

theorem calcLoop_CP (E : Env) (G : Globals) (T : Int → ℚ) (lo hi : Int) (S : Scratch) (j : Int) :
    (forRange lo hi (calcCell E G T) S).CP j
      = if lo ≤ j ∧ j ≤ hi then (cellVars E G T j).CP else S.CP j :=
  forRange_proj lo hi (calcCell E G T) (fun _ => ()) Scratch.CP
    (fun _ j => (cellVars E G T j).CP) (fun _ _ => rfl)
    (fun i s j => by
      by_cases h : j = i
      · subst h; simp [calcCell, cellVars]
      · simp [calcCell, Function.update_apply, h]) S j

theorem calcLoop_NU (E : Env) (G : Globals) (T : Int → ℚ) (lo hi : Int) (S : Scratch) (j : Int) :
    (forRange lo hi (calcCell E G T) S).NU j
      = if lo ≤ j ∧ j ≤ hi then (cellVars E G T j).NU else S.NU j :=
  forRange_proj lo hi (calcCell E G T) (fun _ => ()) Scratch.NU
    (fun _ j => (cellVars E G T j).NU) (fun _ _ => rfl)
    (fun i s j => by
      by_cases h : j = i
      · subst h; simp [calcCell, cellVars]
      · simp [calcCell, Function.update_apply, h]) S j

theorem calcLoop_EPS (E : Env) (G : Globals) (T : Int → ℚ) (lo hi : Int) (S : Scratch) (j : Int) :
    (forRange lo hi (calcCell E G T) S).EPS j
      = if lo ≤ j ∧ j ≤ hi then (cellVars E G T j).EPS else S.EPS j :=
  forRange_proj lo hi (calcCell E G T) (fun _ => ()) Scratch.EPS
    (fun _ j => (cellVars E G T j).EPS) (fun _ _ => rfl)
    (fun i s j => by
      by_cases h : j = i
      · subst h; simp [calcCell, cellVars]
      · simp [calcCell, Function.update_apply, h]) S j

theorem calcLoop_F (E : Env) (G : Globals) (T : Int → ℚ) (lo hi : Int) (S : Scratch) :
    (forRange lo hi (calcCell E G T) S).F = S.F :=
  forRange_keep lo hi (calcCell E G T) Scratch.F (fun _ _ => rfl) S

/-! ## The boundary calls -/

theorem inner_boundary_T (G : Globals) (TN KN CPN NUN EPSN : ℚ) (out : Ghost) :
    (inner_boundary G TN KN CPN NUN EPSN out).T = G.Tc := by
  unfold inner_boundary
  by_cases h1 : G.nuflag ≠ 0 <;> by_cases h2 : G.accreting ≠ 0 <;> simp [h1, h2]

theorem inner_boundary_K (G : Globals) (TN KN CPN NUN EPSN : ℚ) (out : Ghost) :
    (inner_boundary G TN KN CPN NUN EPSN out).K = KN := by
  unfold inner_boundary
  by_cases h1 : G.nuflag ≠ 0 <;> by_cases h2 : G.accreting ≠ 0 <;> simp [h1, h2]

theorem inner_boundary_CP (G : Globals) (TN KN CPN NUN EPSN : ℚ) (out : Ghost) :
    (inner_boundary G TN KN CPN NUN EPSN out).CP = CPN := by
  unfold inner_boundary
  by_cases h1 : G.nuflag ≠ 0 <;> by_cases h2 : G.accreting ≠ 0 <;> simp [h1, h2]

theorem applyOuter_T (G : Globals) (s : Grid) :
    (applyOuter G s).T = Function.update s.T 0 (ghostT0 G (s.T 1)) := rfl

theorem applyOuter_K (G : Globals) (s : Grid) :
    (applyOuter G s).S.K = Function.update s.S.K 0 (s.S.K 1) := rfl

theorem applyOuter_CP (G : Globals) (s : Grid) :
    (applyOuter G s).S.CP = Function.update s.S.CP 0 (s.S.CP 1) := rfl

theorem applyOuter_NU (G : Globals) (s : Grid) (j : Int) (hj : j ≠ 0) :
    (applyOuter G s).S.NU j = s.S.NU j := by
  simp [applyOuter, storeGhost, Function.update_apply, hj]

theorem applyOuter_EPS (G : Globals) (s : Grid) (j : Int) (hj : j ≠ 0) :
    (applyOuter G s).S.EPS j = s.S.EPS j := by
  simp [applyOuter, storeGhost, Function.update_apply, hj]

theorem applyOuter_F (G : Globals) (s : Grid) : (applyOuter G s).S.F = s.S.F := rfl

theorem applyInner_T (G : Globals) (s : Grid) :
    (applyInner G s).T = Function.update s.T (G.N + 1) G.Tc := by
  simp [applyInner, storeGhost, inner_boundary_T]

theorem applyInner_K (G : Globals) (s : Grid) :
    (applyInner G s).S.K = Function.update s.S.K (G.N + 1) (s.S.K G.N) := by
  simp [applyInner, storeGhost, inner_boundary_K]

theorem applyInner_CP (G : Globals) (s : Grid) :
    (applyInner G s).S.CP = Function.update s.S.CP (G.N + 1) (s.S.CP G.N) := by
  simp [applyInner, storeGhost, inner_boundary_CP]

theorem applyInner_NU (G : Globals) (s : Grid) (j : Int) (hj : j ≠ G.N + 1) :
    (applyInner G s).S.NU j = s.S.NU j := by
  simp [applyInner, storeGhost, Function.update_apply, hj]

theorem applyInner_EPS (G : Globals) (s : Grid) (j : Int) (hj : j ≠ G.N + 1) :
    (applyInner G s).S.EPS j = s.S.EPS j := by
  simp [applyInner, storeGhost, Function.update_apply, hj]

theorem applyInner_F (G : Globals) (s : Grid) : (applyInner G s).S.F = s.S.F := rfl

/-- The flux at interface `i` reads only cells `i-1` and `i`. -/
theorem calculate_heat_flux_congr (E : Env) (G : Globals) (K K' T T' : Int → ℚ) (i : Int)
    (hK : K i = K' i) (hK1 : K (i - 1) = K' (i - 1))
    (hT : T i = T' i) (hT1 : T (i - 1) = T' (i - 1)) :
    calculate_heat_flux E G K T i = calculate_heat_flux E G K' T' i := by
  unfold calculate_heat_flux
  rw [hK, hK1, hT, hT1]

/-! ## The filled grid of `derivs` -/

theorem filledGrid_T (E : Env) (G : Globals) (T : Int → ℚ) (S : Scratch) :
    (filledGrid E G T S).T = filledT G T := by
  unfold filledGrid filledT
  rw [applyInner_T, applyOuter_T]

theorem filledGrid_K (E : Env) (G : Globals) (T : Int → ℚ) (S : Scratch) (hN : 1 ≤ G.N)
    (j : Int) (h0 : 0 ≤ j) (h1 : j ≤ G.N + 1) :
    (filledGrid E G T S).S.K j = filledK E G T j := by
  unfold filledGrid filledK
  rw [applyInner_K, applyOuter_K]
  simp only [Function.update_apply, calcLoop_K]
  by_cases a : j = G.N + 1
  · have b : ¬ (G.N = 0) := by omega
    have c : (1 : Int) ≤ G.N ∧ G.N ≤ G.N := by omega
    have d : ¬ (j = 0) := by omega
    rw [if_pos a, if_neg b, if_pos c, if_neg d, if_pos a]
  · by_cases b : j = 0
    · have c : (1 : Int) ≤ 1 ∧ (1 : Int) ≤ G.N := by omega
      rw [if_neg a, if_pos b, if_pos c, if_pos b]
    · have c : (1 : Int) ≤ j ∧ j ≤ G.N := by omega
      rw [if_neg a, if_neg b, if_pos c, if_neg b, if_neg a]

theorem filledGrid_CP (E : Env) (G : Globals) (T : Int → ℚ) (S : Scratch)
    (i : Int) (h1 : 1 ≤ i) (h2 : i ≤ G.N) :
    (filledGrid E G T S).S.CP i = (cellVars E G T i).CP := by
  unfold filledGrid
  rw [applyInner_CP, applyOuter_CP]
  have a : ¬ (i = G.N + 1) := by omega
  have b : ¬ (i = 0) := by omega
  simp only [Function.update_apply, calcLoop_CP]
  rw [if_neg a, if_neg b, if_pos ⟨h1, h2⟩]

theorem filledGrid_NU (E : Env) (G : Globals) (T : Int → ℚ) (S : Scratch)
    (i : Int) (h1 : 1 ≤ i) (h2 : i ≤ G.N) :
    (filledGrid E G T S).S.NU i = (cellVars E G T i).NU := by
  unfold filledGrid
  rw [applyInner_NU _ _ _ (by omega), applyOuter_NU _ _ _ (by omega)]
  simp only [calcLoop_NU]
  rw [if_pos ⟨h1, h2⟩]

theorem filledGrid_EPS (E : Env) (G : Globals) (T : Int → ℚ) (S : Scratch)
    (i : Int) (h1 : 1 ≤ i) (h2 : i ≤ G.N) :
    (filledGrid E G T S).S.EPS i = (cellVars E G T i).EPS := by
  unfold filledGrid
  rw [applyInner_EPS _ _ _ (by omega), applyOuter_EPS _ _ _ (by omega)]
  simp only [calcLoop_EPS]
  rw [if_pos ⟨h1, h2⟩]

/-- The flux computed from the filled grid of `derivs` is the closed form `fluxAt`. -/
theorem filledGrid_flux (E : Env) (G : Globals) (T : Int → ℚ) (S : Scratch) (hN : 1 ≤ G.N)
    (k : Int) (h1 : 1 ≤ k) (h2 : k ≤ G.N + 1) :
    calculate_heat_flux E G (filledGrid E G T S).S.K (filledGrid E G T S).T k
      = fluxAt E G T k := by
  unfold fluxAt
  rw [filledGrid_T]
  apply calculate_heat_flux_congr
  · exact filledGrid_K E G T S hN k (by omega) h2
  · exact filledGrid_K E G T S hN (k - 1) (by omega) (by omega)
  · rfl
  · rfl

theorem fluxedScratch_keep (E : Env) (G : Globals) (T : Int → ℚ) (S : Scratch) :
    (fluxedScratch E G T S).K = (filledGrid E G T S).S.K
      ∧ (fluxedScratch E G T S).CP = (filledGrid E G T S).S.CP
      ∧ (fluxedScratch E G T S).NU = (filledGrid E G T S).S.NU
      ∧ (fluxedScratch E G T S).EPS = (filledGrid E G T S).S.EPS := by
  unfold fluxedScratch
  refine ⟨?_, ?_, ?_, ?_⟩
  · exact forRange_keep _ _ (storeFlux E G _) Scratch.K (fun _ _ => rfl) _
  · exact forRange_keep _ _ (storeFlux E G _) Scratch.CP (fun _ _ => rfl) _
  · exact forRange_keep _ _ (storeFlux E G _) Scratch.NU (fun _ _ => rfl) _
  · exact forRange_keep _ _ (storeFlux E G _) Scratch.EPS (fun _ _ => rfl) _

/-- The array `G.F` after the flux loop of `derivs`. -/
theorem fluxedScratch_F (E : Env) (G : Globals) (T : Int → ℚ) (S : Scratch) (hN : 1 ≤ G.N)
    (k : Int) (h1 : 1 ≤ k) (h2 : k ≤ G.N + 1) :
    (fluxedScratch E G T S).F k = fluxAt E G T k := by
  unfold fluxedScratch
  rw [forRange_proj 1 (G.N + 1) (storeFlux E G (filledGrid E G T S).T) Scratch.K Scratch.F
    (fun K i => calculate_heat_flux E G K (filledGrid E G T S).T i) (fun _ _ => rfl)
    (fun i s j => by
      by_cases h : j = i
      · subst h; simp [storeFlux]
      · simp [storeFlux, Function.update_apply, h])]
  rw [if_pos ⟨h1, h2⟩]
  exact filledGrid_flux E G T S hN k h1 h2

theorem derivs_T (E : Env) (G : Globals) (T : Int → ℚ) (S : Scratch) (d : Int → ℚ) :
    (derivs E G T S d).T = filledT G T := filledGrid_T E G T S

theorem derivs_S (E : Env) (G : Globals) (T : Int → ℚ) (S : Scratch) (d : Int → ℚ) :
    (derivs E G T S d).S = fluxedScratch E G T S := rfl

/-- The value `storeRate` writes for cell `j`. -/
theorem storeRate_apply (G : Globals) (S : Scratch) (i : Int) (d : Int → ℚ) (j : Int) :
    storeRate G S i d j = if j = i then storeRate G S i d i else d j := by
  by_cases h : j = i
  · subst h; simp
  · simp [storeRate, Function.update_apply, h]

theorem storeRate_self (G : Globals) (S : Scratch) (i : Int) (d d' : Int → ℚ) :
    storeRate G S i d i = storeRate G S i d' i := by
  simp [storeRate]

/-- The derivative vector written by `derivs`, cell by cell. -/
theorem derivs_dTdt_apply (E : Env) (G : Globals) (T : Int → ℚ) (S : Scratch) (d : Int → ℚ)
    (j : Int) :
    (derivs E G T S d).dTdt j
      = if j = G.N + 1 then 0
        else if 1 ≤ j ∧ j ≤ G.N then storeRate G (fluxedScratch E G T S) j d j
        else d j := by
  show Function.update (forRange 1 G.N (storeRate G (fluxedScratch E G T S)) d) (G.N + 1) 0 j = _
  rw [Function.update_apply]
  by_cases a : j = G.N + 1
  · rw [if_pos a, if_pos a]
  · rw [if_neg a, if_neg a]
    exact forRange_proj 1 G.N (storeRate G (fluxedScratch E G T S)) (fun _ => ())
      (fun (d : Int → ℚ) => d)
      (fun _ j => storeRate G (fluxedScratch E G T S) j d j)
      (fun _ _ => rfl)
      (fun i s j => by
        show storeRate G (fluxedScratch E G T S) i s j
          = if j = i then storeRate G (fluxedScratch E G T S) i d i else s j
        rw [storeRate_apply]
        by_cases h : j = i
        · subst h; rw [if_pos rfl, if_pos rfl]; exact storeRate_self _ _ _ _ _
        · rw [if_neg h, if_neg h]) d j

/-- On an interior cell `derivs` stores the closed-form right-hand side. -/
theorem derivs_dTdt_rhsCell (E : Env) (G : Globals) (T : Int → ℚ) (S : Scratch) (d : Int → ℚ)
    (i : Int) (h1 : 1 ≤ i) (h2 : i ≤ G.N) :
    (derivs E G T S d).dTdt i = rhsCell E G T i := by
  have hN : 1 ≤ G.N := le_trans h1 h2
  rw [derivs_dTdt_apply, if_neg (by omega), if_pos ⟨h1, h2⟩]
  obtain ⟨_, hCP, hNU, hEPS⟩ := fluxedScratch_keep E G T S
  unfold storeRate
  simp only [hCP, hNU, hEPS, Function.update_same]
  rw [fluxedScratch_F E G T S hN (i + 1) (by omega) (by omega),
    fluxedScratch_F E G T S hN i h1 (by omega),
    filledGrid_CP E G T S i h1 h2, filledGrid_NU E G T S i h1 h2,
    filledGrid_EPS E G T S i h1 h2]
  rfl

/-! ## The single-cell routine -/

theorem dTdt_f (E : Env) (G : Globals) (i : Int) (T : Int → ℚ) (S : Scratch) :
    (dTdt E G i T S).f
      = (let s := localGrid E G i T S
         let f := G.g * (calculate_heat_flux E G s.S.K s.T (i + 1)
            - calculate_heat_flux E G s.S.K s.T i) / (G.dx * s.S.CP i * G.P i)
         let f := if G.nuflag ≠ 0 then f + -(s.S.NU i / s.S.CP i) else f
         if G.accreting ≠ 0 then f + s.S.EPS i / s.S.CP i else f) := rfl

theorem dTdt_T (E : Env) (G : Globals) (i : Int) (T : Int → ℚ) (S : Scratch) :
    (dTdt E G i T S).T = (localGrid E G i T S).T := rfl

theorem dTdt_S (E : Env) (G : Globals) (i : Int) (T : Int → ℚ) (S : Scratch) :
    (dTdt E G i T S).S = (localGrid E G i T S).S := rfl

theorem localGrid_T (E : Env) (G : Globals) (i : Int) (T : Int → ℚ) (S : Scratch) :
    (localGrid E G i T S).T
      = (let T1 := if i = 1 then Function.update T 0 (ghostT0 G (T 1)) else T
         if i = G.N then Function.update T1 (G.N + 1) G.Tc else T1) := by
  dsimp only [localGrid]
  by_cases a : i = 1 <;> by_cases b : i = G.N
  · simp only [if_pos a, if_pos b, applyInner_T, applyOuter_T]
  · simp only [if_pos a, if_neg b, applyInner_T, applyOuter_T]
  · simp only [if_neg a, if_pos b, applyInner_T, applyOuter_T]
  · simp only [if_neg a, if_neg b, applyInner_T, applyOuter_T]

theorem localGrid_T_near (E : Env) (G : Globals) (i : Int) (T : Int → ℚ) (S : Scratch)
    (h1 : 1 ≤ i) (h2 : i ≤ G.N) (j : Int) (hj1 : i - 1 ≤ j) (hj2 : j ≤ i + 1) :
    (localGrid E G i T S).T j = filledT G T j := by
  rw [localGrid_T]
  unfold filledT
  dsimp only
  by_cases a : i = 1 <;> by_cases b : i = G.N
  · simp only [if_pos a, if_pos b]
  · simp only [if_pos a, if_neg b, Function.update_apply]
    split_ifs <;> first | rfl | omega
  · simp only [if_neg a, if_pos b, Function.update_apply]
    split_ifs <;> first | rfl | omega
  · simp only [if_neg a, if_neg b, Function.update_apply]
    split_ifs <;> first | rfl | omega

theorem localGrid_T_frame (E : Env) (G : Globals) (i : Int) (T : Int → ℚ) (S : Scratch)
    (j : Int) (hj1 : 1 ≤ j) (hj2 : j ≤ G.N) :
    (localGrid E G i T S).T j = T j := by
  rw [localGrid_T]
  dsimp only
  by_cases a : i = 1 <;> by_cases b : i = G.N
  · simp only [if_pos a, if_pos b, Function.update_apply]
    split_ifs <;> first | rfl | omega
  · simp only [if_pos a, if_neg b, Function.update_apply]
    split_ifs <;> first | rfl | omega
  · simp only [if_neg a, if_pos b, Function.update_apply]
    split_ifs <;> first | rfl | omega
  · simp only [if_neg a, if_neg b]

theorem localGrid_K (E : Env) (G : Globals) (i : Int) (T : Int → ℚ) (S : Scratch)
    (h1 : 1 ≤ i) (h2 : i ≤ G.N) (j : Int) (hj1 : i - 1 ≤ j) (hj2 : j ≤ i + 1) :
    (localGrid E G i T S).S.K j = filledK E G T j := by
  have hk2 : ¬ (i + 1 > G.N + 1) := by omega
  dsimp only [localGrid, filledK]
  by_cases a : i = 1 <;> by_cases b : i = G.N
  · simp only [if_pos a, if_pos b, if_neg hk2, applyInner_K, applyOuter_K,
      Function.update_apply, calcLoop_K]
    split_ifs <;> first | rfl | omega
  · simp only [if_pos a, if_neg b, if_neg hk2, applyInner_K, applyOuter_K,
      Function.update_apply, calcLoop_K]
    split_ifs <;> first | rfl | omega
  · simp only [if_neg a, if_pos b, if_neg hk2, applyInner_K, applyOuter_K,
      Function.update_apply, calcLoop_K]
    split_ifs <;> first | rfl | omega
  · simp only [if_neg a, if_neg b, if_neg hk2, applyInner_K, applyOuter_K,
      Function.update_apply, calcLoop_K]
    split_ifs <;> first | rfl | omega

theorem localGrid_CP (E : Env) (G : Globals) (i : Int) (T : Int → ℚ) (S : Scratch)
    (h1 : 1 ≤ i) (h2 : i ≤ G.N) :
    (localGrid E G i T S).S.CP i = (cellVars E G T i).CP := by
  have hk2 : ¬ (i + 1 > G.N + 1) := by omega
  dsimp only [localGrid]
  by_cases a : i = 1 <;> by_cases b : i = G.N
  · simp only [if_pos a, if_pos b, if_neg hk2, applyInner_CP, applyOuter_CP,
      Function.update_apply, calcLoop_CP]
    split_ifs <;> first | rfl | omega
  · simp only [if_pos a, if_neg b, if_neg hk2, applyInner_CP, applyOuter_CP,
      Function.update_apply, calcLoop_CP]
    split_ifs <;> first | rfl | omega
  · simp only [if_neg a, if_pos b, if_neg hk2, applyInner_CP, applyOuter_CP,
      Function.update_apply, calcLoop_CP]
    split_ifs <;> first | rfl | omega
  · simp only [if_neg a, if_neg b, if_neg hk2, applyInner_CP, applyOuter_CP,
      Function.update_apply, calcLoop_CP]
    split_ifs <;> first | rfl | omega

theorem localGrid_NU (E : Env) (G : Globals) (i : Int) (T : Int → ℚ) (S : Scratch)
    (h1 : 1 ≤ i) (h2 : i ≤ G.N) :
    (localGrid E G i T S).S.NU i = (cellVars E G T i).NU := by
  have hk2 : ¬ (i + 1 > G.N + 1) := by omega
  have e0 : i ≠ 0 := by omega
  have e1 : i ≠ G.N + 1 := by omega
  dsimp only [localGrid]
  by_cases a : i = 1 <;> by_cases b : i = G.N
  · simp only [if_pos a, if_pos b, if_neg hk2]
    rw [applyInner_NU _ _ _ e1, applyOuter_NU _ _ _ e0, calcLoop_NU]
    split_ifs <;> first | rfl | omega
  · simp only [if_pos a, if_neg b, if_neg hk2]
    rw [applyOuter_NU _ _ _ e0, calcLoop_NU]
    split_ifs <;> first | rfl | omega
  · simp only [if_neg a, if_pos b, if_neg hk2]
    rw [applyInner_NU _ _ _ e1, calcLoop_NU]
    split_ifs <;> first | rfl | omega
  · simp only [if_neg a, if_neg b, if_neg hk2]
    rw [calcLoop_NU]
    split_ifs <;> first | rfl | omega

theorem localGrid_EPS (E : Env) (G : Globals) (i : Int) (T : Int → ℚ) (S : Scratch)
    (h1 : 1 ≤ i) (h2 : i ≤ G.N) :
    (localGrid E G i T S).S.EPS i = (cellVars E G T i).EPS := by
  have hk2 : ¬ (i + 1 > G.N + 1) := by omega
  have e0 : i ≠ 0 := by omega
  have e1 : i ≠ G.N + 1 := by omega
  dsimp only [localGrid]
  by_cases a : i = 1 <;> by_cases b : i = G.N
  · simp only [if_pos a, if_pos b, if_neg hk2]
    rw [applyInner_EPS _ _ _ e1, applyOuter_EPS _ _ _ e0, calcLoop_EPS]
    split_ifs <;> first | rfl | omega
  · simp only [if_pos a, if_neg b, if_neg hk2]
    rw [applyOuter_EPS _ _ _ e0, calcLoop_EPS]
    split_ifs <;> first | rfl | omega
  · simp only [if_neg a, if_pos b, if_neg hk2]
    rw [applyInner_EPS _ _ _ e1, calcLoop_EPS]
    split_ifs <;> first | rfl | omega
  · simp only [if_neg a, if_neg b, if_neg hk2]
    rw [calcLoop_EPS]
    split_ifs <;> first | rfl | omega

/-- The single-cell routine returns the closed-form right-hand side. -/
theorem dTdt_f_rhsCell (E : Env) (G : Globals) (i : Int) (T : Int → ℚ) (S : Scratch)
    (h1 : 1 ≤ i) (h2 : i ≤ G.N) :
    (dTdt E G i T S).f = rhsCell E G T i := by
  rw [dTdt_f]
  dsimp only
  rw [localGrid_CP E G i T S h1 h2, localGrid_NU E G i T S h1 h2, localGrid_EPS E G i T S h1 h2]
  have e1 : calculate_heat_flux E G (localGrid E G i T S).S.K (localGrid E G i T S).T (i + 1)
      = fluxAt E G T (i + 1) := by
    unfold fluxAt
    apply calculate_heat_flux_congr
    · exact localGrid_K E G i T S h1 h2 (i + 1) (by omega) (by omega)
    · exact localGrid_K E G i T S h1 h2 (i + 1 - 1) (by omega) (by omega)
    · exact localGrid_T_near E G i T S h1 h2 (i + 1) (by omega) (by omega)
    · exact localGrid_T_near E G i T S h1 h2 (i + 1 - 1) (by omega) (by omega)
  have e2 : calculate_heat_flux E G (localGrid E G i T S).S.K (localGrid E G i T S).T i
      = fluxAt E G T i := by
    unfold fluxAt
    apply calculate_heat_flux_congr
    · exact localGrid_K E G i T S h1 h2 i (by omega) (by omega)
    · exact localGrid_K E G i T S h1 h2 (i - 1) (by omega) (by omega)
    · exact localGrid_T_near E G i T S h1 h2 i (by omega) (by omega)
    · exact localGrid_T_near E G i T S h1 h2 (i - 1) (by omega) (by omega)
  rw [e1, e2]
  rfl

/-! ## Nearest-neighbour dependency -/

theorem cellVars_congr (E : Env) (G : Globals) (T T' : Int → ℚ) (j : Int) (h : T j = T' j) :
    cellVars E G T j = cellVars E G T' j := by
  unfold cellVars; rw [h]

theorem filledK_congr (E : Env) (G : Globals) (T T' : Int → ℚ) (i : Int)
    (h1 : 1 ≤ i) (h2 : i ≤ G.N)
    (hT : ∀ j, 1 ≤ j → j ≤ G.N → i - 1 ≤ j → j ≤ i + 1 → T j = T' j)
    (j : Int) (hj1 : i - 1 ≤ j) (hj2 : j ≤ i + 1) :
    filledK E G T j = filledK E G T' j := by
  unfold filledK
  by_cases a : j = 0
  · rw [if_pos a, if_pos a, cellVars_congr E G T T' 1 (hT 1 (by omega) (by omega) (by omega) (by omega))]
  · by_cases b : j = G.N + 1
    · rw [if_neg a, if_neg a, if_pos b, if_pos b,
        cellVars_congr E G T T' G.N (hT G.N (by omega) (by omega) (by omega) (by omega))]
    · rw [if_neg a, if_neg a, if_neg b, if_neg b,
        cellVars_congr E G T T' j (hT j (by omega) (by omega) hj1 hj2)]

theorem filledT_congr (G : Globals) (T T' : Int → ℚ) (i : Int)
    (h1 : 1 ≤ i) (h2 : i ≤ G.N)
    (hT : ∀ j, 1 ≤ j → j ≤ G.N → i - 1 ≤ j → j ≤ i + 1 → T j = T' j)
    (j : Int) (hj1 : i - 1 ≤ j) (hj2 : j ≤ i + 1) :
    filledT G T j = filledT G T' j := by
  unfold filledT
  simp only [Function.update_apply]
  by_cases b : j = G.N + 1
  · rw [if_pos b, if_pos b]
  · by_cases a : j = 0
    · rw [if_neg b, if_neg b, if_pos a, if_pos a,
        hT 1 (by omega) (by omega) (by omega) (by omega)]
    · rw [if_neg b, if_neg b, if_neg a, if_neg a]
      exact hT j (by omega) (by omega) hj1 hj2

/-- The closed-form right-hand side of cell `i` reads `T` only at the interior
cells among `i-1, i, i+1`. -/
theorem rhsCell_congr (E : Env) (G : Globals) (T T' : Int → ℚ) (i : Int)
    (h1 : 1 ≤ i) (h2 : i ≤ G.N)
    (hT : ∀ j, 1 ≤ j → j ≤ G.N → i - 1 ≤ j → j ≤ i + 1 → T j = T' j) :
    rhsCell E G T i = rhsCell E G T' i := by
  have e1 : fluxAt E G T (i + 1) = fluxAt E G T' (i + 1) := by
    unfold fluxAt
    apply calculate_heat_flux_congr
    · exact filledK_congr E G T T' i h1 h2 hT _ (by omega) (by omega)
    · exact filledK_congr E G T T' i h1 h2 hT _ (by omega) (by omega)
    · exact filledT_congr G T T' i h1 h2 hT _ (by omega) (by omega)
    · exact filledT_congr G T T' i h1 h2 hT _ (by omega) (by omega)
  have e2 : fluxAt E G T i = fluxAt E G T' i := by
    unfold fluxAt
    apply calculate_heat_flux_congr
    · exact filledK_congr E G T T' i h1 h2 hT _ (by omega) (by omega)
    · exact filledK_congr E G T T' i h1 h2 hT _ (by omega) (by omega)
    · exact filledT_congr G T T' i h1 h2 hT _ (by omega) (by omega)
    · exact filledT_congr G T T' i h1 h2 hT _ (by omega) (by omega)
  unfold rhsCell
  rw [e1, e2, cellVars_congr E G T T' i (hT i h1 h2 (by omega) (by omega))]

/-! ## The finite-difference Jacobian -/

theorem perturb_dfdT (E : Env) (G : Globals) (dfdt : Int → ℚ) (i c : Int) (st : JacState)
    (r c' : Int) :
    (perturb E G dfdt i c st).dfdT r c'
      = if r = i ∧ c' = c then
          ((dTdt E G i (Function.update st.T c (st.T c * (1 + 0.01))) st.S).f - dfdt i)
            / ((dTdt E G i (Function.update st.T c (st.T c * (1 + 0.01))) st.S).T c
                / (1 + 0.01) * 0.01)
        else st.dfdT r c' := by
  unfold perturb
  simp only [Function.update_apply]
  by_cases a : r = i
  · by_cases b : c' = c
    · subst a; subst b; simp
    · subst a; simp [b]
  · simp [a]

theorem perturb_dfdT_other (E : Env) (G : Globals) (dfdt : Int → ℚ) (i c : Int) (st : JacState)
    (r c' : Int) (h : ¬ (r = i ∧ c' = c)) :
    (perturb E G dfdt i c st).dfdT r c' = st.dfdT r c' := by
  rw [perturb_dfdT, if_neg h]

theorem perturb_T (E : Env) (G : Globals) (dfdt : Int → ℚ) (i c : Int) (st : JacState)
    (j : Int) (hj1 : 1 ≤ j) (hj2 : j ≤ G.N) :
    (perturb E G dfdt i c st).T j = st.T j := by
  unfold perturb
  simp only [Function.update_apply, dTdt_T]
  by_cases a : j = c
  · subst a
    rw [if_pos rfl, localGrid_T_frame E G i _ st.S j hj1 hj2, Function.update_same]
    field_simp
  · rw [if_neg a, localGrid_T_frame E G i _ st.S j hj1 hj2, Function.update_noteq a]

theorem jacRow_dfdT_other (E : Env) (G : Globals) (dfdt : Int → ℚ) (i : Int) (st : JacState)
    (r c : Int) (h : ¬ (r = i ∧ i - 1 ≤ c ∧ c ≤ i + 1)) :
    (jacRow E G dfdt i st).dfdT r c = st.dfdT r c := by
  unfold jacRow
  rw [perturb_dfdT_other _ _ _ _ _ _ _ _ (by omega), perturb_dfdT_other _ _ _ _ _ _ _ _ (by omega),
    perturb_dfdT_other _ _ _ _ _ _ _ _ (by omega)]

theorem jacRow_T (E : Env) (G : Globals) (dfdt : Int → ℚ) (i : Int) (st : JacState)
    (j : Int) (hj1 : 1 ≤ j) (hj2 : j ≤ G.N) :
    (jacRow E G dfdt i st).T j = st.T j := by
  unfold jacRow
  rw [perturb_T _ _ _ _ _ _ _ hj1 hj2, perturb_T _ _ _ _ _ _ _ hj1 hj2,
    perturb_T _ _ _ _ _ _ _ hj1 hj2]

/-- Entries outside rows `1..n-1` of the tridiagonal band keep their value. -/
theorem jacobn_dfdT_other (E : Env) (G : Globals) (t : ℚ) (T : Int → ℚ) (S : Scratch)
    (dfdt : Int → ℚ) (dfdT : Int → Int → ℚ) (n : Int) (hn : 2 ≤ n) (r c : Int)
    (h : ¬ (1 ≤ r ∧ r ≤ n - 1 ∧ r - 1 ≤ c ∧ c ≤ r + 1 ∧ 1 ≤ c)) :
    (jacobn E G t T S dfdt dfdT n).dfdT r c = dfdT r c := by
  unfold jacobn
  dsimp only
  rw [perturb_dfdT_other _ _ _ _ _ _ _ _ (by omega), perturb_dfdT_other _ _ _ _ _ _ _ _ (by omega)]
  apply forRange_inv 2 (n - 1) (jacRow E G dfdt) (fun st => st.dfdT r c = dfdT r c)
  · intro i s h1 h2 hs
    rw [jacRow_dfdT_other _ _ _ _ _ _ _ (by omega)]
    exact hs
  · rfl

theorem perturb_entry (E : Env) (G : Globals) (dfdt : Int → ℚ) (i c : Int) (st : JacState)
    (T : Int → ℚ) (S0 : Scratch) (h1 : 1 ≤ i) (h2 : i ≤ G.N) (hc0 : 1 ≤ c)
    (hc1 : i - 1 ≤ c) (hc2 : c ≤ i + 1)
    (hT : ∀ j, 1 ≤ j → j ≤ G.N → st.T j = T j) :
    (perturb E G dfdt i c st).dfdT i c = jacStored E G T S0 dfdt i c := by
  rw [perturb_dfdT, if_pos ⟨rfl, rfl⟩, dTdt_f_rhsCell E G i _ st.S h1 h2, dTdt_T]
  unfold jacStored fdQuotient
  by_cases hc : c ≤ G.N
  · rw [if_pos hc, dTdt_f_rhsCell E G i _ S0 h1 h2,
      localGrid_T_frame E G i _ st.S c hc0 hc, Function.update_same, hT c hc0 hc]
    have e : rhsCell E G (Function.update st.T c (T c * (1 + 0.01))) i
        = rhsCell E G (Function.update T c (1.01 * T c)) i := by
      apply rhsCell_congr E G _ _ i h1 h2
      intro j hj1 hj2 _ _
      simp only [Function.update_apply]
      by_cases a : j = c
      · rw [if_pos a, if_pos a]; norm_num; ring
      · rw [if_neg a, if_neg a]; exact hT j hj1 hj2
    rw [e]
    congr 1
    norm_num
    ring
  · have hi : i = G.N := by omega
    have hcN : c = G.N + 1 := by omega
    rw [if_neg hc, dTdt_f_rhsCell E G i _ S0 h1 h2]
    have e : rhsCell E G (Function.update st.T c (st.T c * (1 + 0.01))) i = rhsCell E G T i := by
      apply rhsCell_congr E G _ _ i h1 h2
      intro j hj1 hj2 _ _
      rw [Function.update_noteq (by omega)]
      exact hT j hj1 hj2
    rw [e, localGrid_T]
    dsimp only
    rw [if_pos hi, hcN, Function.update_same]


theorem jacRow_entry (E : Env) (G : Globals) (dfdt : Int → ℚ) (i c : Int) (st : JacState)
    (T : Int → ℚ) (S0 : Scratch) (h1 : 1 ≤ i) (h2 : i ≤ G.N) (hc0 : 1 ≤ c)
    (hc1 : i - 1 ≤ c) (hc2 : c ≤ i + 1)
    (hT : ∀ j, 1 ≤ j → j ≤ G.N → st.T j = T j) :
    (jacRow E G dfdt i st).dfdT i c = jacStored E G T S0 dfdt i c := by
  have hT1 : ∀ j, 1 ≤ j → j ≤ G.N → (perturb E G dfdt i (i - 1) st).T j = T j :=
    fun j a b => by rw [perturb_T _ _ _ _ _ _ _ a b]; exact hT j a b
  have hT2 : ∀ j, 1 ≤ j → j ≤ G.N →
      (perturb E G dfdt i i (perturb E G dfdt i (i - 1) st)).T j = T j :=
    fun j a b => by rw [perturb_T _ _ _ _ _ _ _ a b]; exact hT1 j a b
  unfold jacRow
  by_cases a : c = i + 1
  · subst a
    exact perturb_entry E G dfdt i (i + 1) _ T S0 h1 h2 hc0 hc1 hc2 hT2
  · rw [perturb_dfdT_other _ _ _ _ _ _ _ _ (by omega)]
    by_cases b : c = i
    · subst b
      exact perturb_entry E G dfdt c c _ T S0 h1 h2 hc0 hc1 hc2 hT1
    · rw [perturb_dfdT_other _ _ _ _ _ _ _ _ (by omega)]
      have e : c = i - 1 := by omega
      subst e
      exact perturb_entry E G dfdt i (i - 1) _ T S0 h1 h2 hc0 hc1 hc2 hT

/-- Every band entry of rows `1..N` after `jacobn` called with `n = N+1`. -/
theorem jacobn_entry (E : Env) (G : Globals) (t : ℚ) (T : Int → ℚ) (S S0 : Scratch)
    (dfdt : Int → ℚ) (dfdT : Int → Int → ℚ) (i c : Int) (h1 : 1 ≤ i) (h2 : i ≤ G.N)
    (hc0 : 1 ≤ c) (hc1 : i - 1 ≤ c) (hc2 : c ≤ i + 1) :
    (jacobn E G t T S dfdt dfdT (G.N + 1)).dfdT i c = jacStored E G T S0 dfdt i c := by
  have hN : 1 ≤ G.N := le_trans h1 h2
  have hloop := forRange_inv_idx 2 (G.N + 1 - 1) (jacRow E G dfdt)
    (fun k st => (∀ j, 1 ≤ j → j ≤ G.N → st.T j = T j)
      ∧ (2 ≤ i → i < k → st.dfdT i c = jacStored E G T S0 dfdt i c))
    { T := T, S := S, dfdT := dfdT } (by omega)
    (fun k st hk1 hk2 hI => by
      obtain ⟨hT, hE⟩ := hI
      refine ⟨fun j a b => by rw [jacRow_T _ _ _ _ _ _ a b]; exact hT j a b, ?_⟩
      intro hi2 hik
      by_cases e : i = k
      · subst e
        exact jacRow_entry E G dfdt i c st T S0 h1 h2 hc0 hc1 hc2 hT
      · rw [jacRow_dfdT_other _ _ _ _ _ _ _ (by omega)]
        exact hE hi2 (by omega))
    ⟨fun _ _ _ => rfl, fun a b => by omega⟩
  obtain ⟨hT, hE⟩ := hloop
  have hT1 : ∀ j, 1 ≤ j → j ≤ G.N →
      (perturb E G dfdt 1 1 (forRange 2 (G.N + 1 - 1) (jacRow E G dfdt)
        { T := T, S := S, dfdT := dfdT })).T j = T j :=
    fun j a b => by rw [perturb_T _ _ _ _ _ _ _ a b]; exact hT j a b
  unfold jacobn
  dsimp only
  by_cases hi : 2 ≤ i
  · rw [perturb_dfdT_other _ _ _ _ _ _ _ _ (by omega),
      perturb_dfdT_other _ _ _ _ _ _ _ _ (by omega)]
    exact hE hi (by omega)
  · have e : i = 1 := by omega
    subst e
    by_cases a : c = 1 + 1
    · subst a
      exact perturb_entry E G dfdt 1 (1 + 1) _ T S0 h1 h2 hc0 hc1 hc2 hT1
    · rw [perturb_dfdT_other _ _ _ _ _ _ _ _ (by omega)]
      have b : c = 1 := by omega
      subst b
      exact perturb_entry E G dfdt 1 1 _ T S0 h1 h2 hc0 hc1 hc2 hT

/-! ## The discrete energy sum -/

theorem sum_Icc_telescope (f : Int → ℚ) (n : Nat) :
    ∑ i in Finset.Icc (1 : Int) n, (f (i + 1) - f i) = f (n + 1) - f 1 := by
  induction n with
  | zero => simp
  | succ n ih =>
    have hIcc : Finset.Icc (1 : Int) ((n + 1 : Nat) : Int)
        = insert ((n : Int) + 1) (Finset.Icc (1 : Int) n) := by
      ext x
      simp only [Finset.mem_Icc, Finset.mem_insert]
      push_cast
      omega
    have hnot : ((n : Int) + 1) ∉ Finset.Icc (1 : Int) n := by
      simp only [Finset.mem_Icc]; omega
    rw [hIcc, Finset.sum_insert hnot, ih]
    push_cast
    ring

theorem derivs_S_CP (E : Env) (G : Globals) (T : Int → ℚ) (S : Scratch) (d : Int → ℚ)
    (i : Int) (h1 : 1 ≤ i) (h2 : i ≤ G.N) :
    (derivs E G T S d).S.CP i = (cellVars E G T i).CP := by
  rw [derivs_S, (fluxedScratch_keep E G T S).2.1]
  exact filledGrid_CP E G T S i h1 h2

theorem derivs_S_F (E : Env) (G : Globals) (T : Int → ℚ) (S : Scratch) (d : Int → ℚ)
    (hN : 1 ≤ G.N) (k : Int) (h1 : 1 ≤ k) (h2 : k ≤ G.N + 1) :
    (derivs E G T S d).S.F k = fluxAt E G T k := by
  rw [derivs_S]
  exact fluxedScratch_F E G T S hN k h1 h2

/-- With both source terms off, the grid sum of `CP*P*dTdt*dx/g` telescopes to
the flux through the last interface minus the flux through the first. -/
theorem derivs_energy_sum (E : Env) (G : Globals) (T : Int → ℚ) (S : Scratch) (d : Int → ℚ)
    (hnu : G.nuflag = 0) (hacc : G.accreting = 0) (hN : 1 ≤ G.N) (hg : G.g ≠ 0) (hdx : G.dx ≠ 0)
    (hCP : ∀ i, 1 ≤ i → i ≤ G.N → (derivs E G T S d).S.CP i ≠ 0)
    (hP : ∀ i, 1 ≤ i → i ≤ G.N → G.P i ≠ 0) :
    ∑ i in Finset.Icc (1 : Int) G.N,
        (derivs E G T S d).S.CP i * G.P i * (derivs E G T S d).dTdt i * G.dx / G.g
      = fluxAt E G T (G.N + 1) - fluxAt E G T 1 := by
  obtain ⟨n, hn⟩ := Int.eq_ofNat_of_zero_le (show 0 ≤ G.N by omega)
  have hterm : ∀ i ∈ Finset.Icc (1 : Int) G.N,
      (derivs E G T S d).S.CP i * G.P i * (derivs E G T S d).dTdt i * G.dx / G.g
        = fluxAt E G T (i + 1) - fluxAt E G T i := by
    intro i hi
    obtain ⟨h1, h2⟩ := Finset.mem_Icc.1 hi
    have hc := hCP i h1 h2
    have hp := hP i h1 h2
    rw [derivs_S_CP E G T S d i h1 h2] at hc ⊢
    rw [derivs_dTdt_rhsCell E G T S d i h1 h2]
    unfold rhsCell
    have a : ¬ (G.nuflag ≠ 0) := by simp [hnu]
    have b : ¬ (G.accreting ≠ 0) := by simp [hacc]
    simp only [if_neg a, if_neg b]
    field_simp
    ring
  rw [Finset.sum_congr rfl hterm, hn, sum_Icc_telescope]

/-! ## The variable evaluator -/

/-- The outputs of `calculate_vars` depend on the temperature only through the
clamped `beta`. -/
theorem calculate_vars_congr_beta (E : Env) (G : Globals) (i : Int) (T T' : Option ℚ)
    (P P' : ℚ)
    (h : clampBeta G (E.log10 (safeT T)) = clampBeta G (E.log10 (safeT T'))) :
    calculate_vars E G i T P = calculate_vars E G i T' P' := by
  unfold calculate_vars
  dsimp only
  rw [h]

theorem safeT_some_nonneg (T : ℚ) (h : 0 ≤ T) : safeT (some T) = T := by
  show (if T < 0 then (1e7 : ℚ) else T) = T
  rw [if_neg (by linarith)]

theorem truncInt_intCast (m : Int) (h : 0 ≤ m) : truncInt (m : ℚ) = m := by
  unfold truncInt
  rw [if_pos (by exact_mod_cast h), Int.floor_intCast]

theorem clampBeta_of_le (G : Globals) (beta : ℚ) (h : beta ≤ G.betamin) :
    clampBeta G beta = G.betamin := by
  unfold clampBeta
  dsimp only
  split_ifs <;> first | rfl | linarith

theorem clampBeta_of_ge (G : Globals) (beta : ℚ) (h : G.betamax ≤ beta) :
    clampBeta G beta = clampBeta G G.betamax := by
  unfold clampBeta
  dsimp only
  split_ifs <;> first | rfl | linarith

theorem KKblend_convex (g K0 K1 Q : ℚ) (h0 : 0 < K0) (h1 : 0 < K1) (hQ0 : 0 ≤ Q) (hQ1 : Q ≤ 1) :
    0 < K0 * Q + (1 - Q) * K1
      ∧ KKblend g K0 K1 Q
          = ((1 - Q) * K1 / (K0 * Q + (1 - Q) * K1)) * (g * K0)
            + (K0 * Q / (K0 * Q + (1 - Q) * K1)) * (g * K1) := by
  have hD : 0 < K0 * Q + (1 - Q) * K1 := by
    rcases eq_or_lt_of_le hQ0 with h | h
    · rw [← h]; simpa using h1
    · have a : 0 < K0 * Q := mul_pos h0 h
      have b : 0 ≤ (1 - Q) * K1 := mul_nonneg (by linarith) h1.le
      linarith
  refine ⟨hD, ?_⟩
  unfold KKblend
  field_simp
  ring

/-- At the stored temperature of bin `j` the lookup index is `j` and the
interpolation weight is zero. -/
theorem calculate_vars_at_bin (E : Env) (G : Globals) (i j : Int) (T P : ℚ)
    (hlt : G.betamin < G.betamax) (hn : 2 ≤ G.nbeta)
    (hd : G.deltabeta = (G.betamax - G.betamin) / (1 * ((G.nbeta - 1 : Int) : ℚ)))
    (hj1 : 1 ≤ j) (hj2 : j ≤ G.nbeta) (hT : 0 ≤ T)
    (hlog : E.log10 T = G.betamin + ((j - 1 : Int) : ℚ) * G.deltabeta) :
    (calculate_vars E G i (some T) P).CP = G.CP_grid i j
      ∧ (G.nuflag ≠ 0 → (calculate_vars E G i (some T) P).NU = G.NU_grid i j)
      ∧ (calculate_vars E G i (some T) P).K
          = conductivity E G i (G.K0_grid i j) (G.K1_grid i j) (G.KAPPA_grid i j) := by
  have hnb : (0 : ℚ) < ((G.nbeta - 1 : Int) : ℚ) := by
    have : (0 : Int) < G.nbeta - 1 := by omega
    exact_mod_cast this
  have hdpos : 0 < G.deltabeta := by
    rw [hd, one_mul]; exact div_pos (by linarith) hnb
  have hjq : (0 : ℚ) ≤ ((j - 1 : Int) : ℚ) := by
    have : (0 : Int) ≤ j - 1 := by omega
    exact_mod_cast this
  have hjn : ((j - 1 : Int) : ℚ) ≤ ((G.nbeta - 1 : Int) : ℚ) := by
    have : j - 1 ≤ G.nbeta - 1 := by omega
    exact_mod_cast this
  have hspan : ((G.nbeta - 1 : Int) : ℚ) * G.deltabeta = G.betamax - G.betamin := by
    rw [hd, one_mul, mul_comm, div_mul_cancel₀ _ hnb.ne']
  have hbeta : clampBeta G (E.log10 (safeT (some T)))
      = G.betamin + ((j - 1 : Int) : ℚ) * G.deltabeta := by
    rw [safeT_some_nonneg T hT, hlog]
    unfold clampBeta
    have a : ¬ (G.betamin + ((j - 1 : Int) : ℚ) * G.deltabeta > G.betamax) := by
      have := mul_le_mul_of_nonneg_right hjn hdpos.le
      linarith
    have b : ¬ (G.betamin + ((j - 1 : Int) : ℚ) * G.deltabeta < G.betamin) := by
      have := mul_nonneg hjq hdpos.le
      linarith
    simp only [if_neg a, if_neg b]
  have hq : (G.betamin + ((j - 1 : Int) : ℚ) * G.deltabeta - G.betamin) / G.deltabeta
      = ((j - 1 : Int) : ℚ) := by
    field_simp
  have hidx : 1 + truncInt ((G.betamin + ((j - 1 : Int) : ℚ) * G.deltabeta - G.betamin)
      / G.deltabeta) = j := by
    rw [hq, truncInt_intCast (j - 1) (by omega)]; ring
  have hsub : (1 : Int) + (j - 1) - 1 = j - 1 := by ring
  unfold calculate_vars
  dsimp only
  rw [hbeta, hidx]
  have hfac : (G.betamin + ((j - 1 : Int) : ℚ) * G.deltabeta
      - (G.betamin + ((j - 1 : Int) : ℚ) * G.deltabeta)) / G.deltabeta = 0 := by
    rw [sub_self, zero_div]
  rw [hfac]
  refine ⟨?_, ?_, ?_⟩
  · simp [interp]
  · intro hnu
    simp [interp, hnu]
  · simp [interp]

/-! ## Evaluation on the sample grid -/

theorem sample_cellVars (T : Int → ℚ) (j : Int) :
    cellVars sampleEnv sampleGlobals T j = { CP := 1, K := 1, NU := 0, EPS := 0 } := by
  simp [cellVars, calculate_vars, interp, conductivity, KKblend, Qval, sampleEnv, sampleGlobals]

theorem sample_hyps :
    sampleGlobals.nuflag = 0 ∧ sampleGlobals.accreting = 0 ∧ (1 : Int) ≤ sampleGlobals.N
      ∧ sampleGlobals.g ≠ 0 ∧ sampleGlobals.dx ≠ 0
      ∧ (∀ i, 1 ≤ i → i ≤ sampleGlobals.N →
          (derivs sampleEnv sampleGlobals sampleT sampleScratch sampleRate).S.CP i ≠ 0)
      ∧ (∀ i, 1 ≤ i → i ≤ sampleGlobals.N → sampleGlobals.P i ≠ 0) := by
  refine ⟨rfl, rfl, by decide, by simp [sampleGlobals], by simp [sampleGlobals], ?_, ?_⟩
  · intro i h1 h2
    rw [derivs_S_CP _ _ _ _ _ i h1 h2, sample_cellVars]
    simp
  · intro i _ _
    simp [sampleGlobals]

theorem sample_flux_first : fluxAt sampleEnv sampleGlobals sampleT 1 = 8 / 2.28e14 := by
  simp [fluxAt, calculate_heat_flux, filledK, filledT, sample_cellVars, Function.update_apply]
  simp [sampleGlobals, sampleEnv, sampleT]
  norm_num

theorem sample_flux_last :
    fluxAt sampleEnv sampleGlobals sampleT (sampleGlobals.N + 1) = -14 := by
  simp [fluxAt, calculate_heat_flux, filledK, filledT, sample_cellVars, Function.update_apply]
  simp [sampleGlobals, sampleT]
  norm_num

theorem sample_rhsCell_last (T : Int → ℚ) (h3 : T 3 = 16) (h2 : T 2 = 11) :
    rhsCell sampleEnv sampleGlobals T 3 = -19 := by
  simp [rhsCell, fluxAt, calculate_heat_flux, filledK, filledT, sample_cellVars,
    Function.update_apply]
  simp [sampleGlobals, h3, h2]
  norm_num

theorem sampleBase_last :
    sampleBase 3 = (dTdt sampleEnv sampleGlobals 3 sampleT sampleScratch).f := by
  rw [dTdt_f_rhsCell _ _ _ _ _ (by decide) (by decide),
    sample_rhsCell_last sampleT (by norm_num [sampleT]) (by norm_num [sampleT])]
  rfl

theorem sampleAccreting_cellVars (T : Int → ℚ) (j : Int) :
    (cellVars sampleEnv sampleAccreting T j).K = 1 := by
  simp [cellVars, calculate_vars, interp, conductivity, KKblend, Qval, sampleEnv,
    sampleAccreting, sampleGlobals]

theorem sampleEnv_log10_mono :
    ∀ a b : ℚ, 0 ≤ a → a ≤ b → sampleEnv.log10 a ≤ sampleEnv.log10 b :=
  fun _ _ _ h => h

theorem rpow_right_continuous (a s : ℝ) (ha : 0 < a) :
    ∀ ε : ℝ, 0 < ε → ∃ δ : ℝ, 0 < δ ∧ ∀ x : ℝ, a < x → x < a + δ →
      |x ^ s - a ^ s| < ε := by
  intro ε hε
  have hc : ContinuousAt (fun x : ℝ => x ^ s) a :=
    Real.continuousAt_rpow_const a s (Or.inl ha.ne')
  obtain ⟨δ, hδ, h⟩ := Metric.continuousAt_iff.1 hc ε hε
  refine ⟨δ, hδ, fun x hx1 hx2 => ?_⟩
  have hd : dist x a < δ := by
    rw [Real.dist_eq, abs_lt]
    constructor <;> linarith
  have := h hd
  rwa [Real.dist_eq] at this

/-- The pressure array written by the loop of `set_up_grid`. -/
theorem set_up_grid_P_apply {R : Type} [LinearOrderedField R] (L : Libm R) (N : Int) (yt : R)
    (P0 : Int → R) (i : Int) :
    (set_up_grid L N yt P0).P i
      = if 0 ≤ i ∧ i ≤ N + 2 then
          L.exp (L.log (set_up_grid L N yt P0).Pt
            + (set_up_grid L N yt P0).dx * ((i - 1 : Int) : R))
        else P0 i :=
  forRange_proj 0 (N + 2) _ (fun _ => ()) (fun (P : Int → R) => P)
    (fun _ i => L.exp (L.log (set_up_grid L N yt P0).Pt
      + (set_up_grid L N yt P0).dx * ((i - 1 : Int) : R)))
    (fun _ _ => rfl)
    (fun i s j => by
      show Function.update s i _ j = _
      rw [Function.update_apply]
      by_cases h : j = i
      · subst h; rw [if_pos rfl, if_pos rfl]; rfl
      · rw [if_neg h, if_neg h]) P0 i

/-- In the short-burst branch a cell none of whose three guards holds gets no heating. -/
theorem crust_heating_short_zero {R : Type} [LinearOrderedField R] (L : Libm R) (H : Setup R)
    (i : Int) (hshort : H.outburst_duration < 1 / 365)
    (c1 : ¬ (H.P i * L.exp (-0.5 * H.dx) > H.heating_P1
      ∧ H.P i * L.exp (0.5 * H.dx) < H.heating_P2))
    (c2 : ¬ (H.P i * L.exp (-0.5 * H.dx) < H.heating_P1
      ∧ H.P i * L.exp (0.5 * H.dx) < H.heating_P2
      ∧ H.heating_P1 < H.P i * L.exp (0.5 * H.dx)))
    (c3 : ¬ (H.P i * L.exp (-0.5 * H.dx) > H.heating_P1
      ∧ H.P i * L.exp (0.5 * H.dx) > H.heating_P2
      ∧ H.heating_P2 > H.P i * L.exp (-0.5 * H.dx))) :
    crust_heating L H i = 0 := by
  unfold crust_heating
  dsimp only
  rw [if_pos hshort, if_neg c3, if_neg c2, if_neg c1]

/-- A heating window strictly inside one cell deposits nothing in that cell. -/
theorem crust_heating_window_inside_cell {R : Type} [LinearOrderedField R] (L : Libm R)
    (H : Setup R) (i : Int) (hshort : H.outburst_duration < 1 / 365)
    (h1 : H.P i * L.exp (-0.5 * H.dx) < H.heating_P1)
    (h2 : H.heating_P2 < H.P i * L.exp (0.5 * H.dx)) :
    crust_heating L H i = 0 :=
  crust_heating_short_zero L H i hshort (fun h => absurd h.1 (not_lt.2 h1.le))
    (fun h => absurd h.2.1 (not_lt.2 h2.le)) (fun h => absurd h.1 (not_lt.2 h1.le))

/-- A cell whose lower edge coincides with the lower edge of the window, lying
otherwise inside the window, gets no heating. -/
theorem crust_heating_edge_on_cell_edge {R : Type} [LinearOrderedField R] (L : Libm R)
    (H : Setup R) (i : Int) (hshort : H.outburst_duration < 1 / 365)
    (h1 : H.P i * L.exp (-0.5 * H.dx) = H.heating_P1) :
    crust_heating L H i = 0 :=
  crust_heating_short_zero L H i hshort (fun h => absurd h.1 (not_lt.2 h1.le))
    (fun h => absurd h.1 (not_lt.2 h1.ge)) (fun h => absurd h.1 (not_lt.2 h1.le))

theorem exp_half_bounds : (3 / 2 : ℝ) ≤ Real.exp (1 / 2) ∧ Real.exp (-(1 / 2)) ≤ 2 / 3 := by
  have h := Real.add_one_le_exp (1 / 2 : ℝ)
  have h1 : (3 / 2 : ℝ) ≤ Real.exp (1 / 2) := by linarith
  refine ⟨h1, ?_⟩
  rw [Real.exp_neg, inv_le_comm₀ (Real.exp_pos _) (by norm_num)]
  linarith

/-! ## The piecewise initial profile: reading the breakpoints -/

theorem readBreak_i_ge {R : Type} [LinearOrderedField R] (H : Setup R) (ln : BreakLine R)
    (b : Breaks R) : b.i ≤ (readBreak H ln b).i := by
  unfold readBreak
  dsimp only
  generalize (if ln.T < 0 then H.Tc else ln.T) = T
  generalize Option.map (fun t => if t < 0 then H.Tc else t) ln.T2 = T2
  generalize (if ln.rho < 0 then H.rho H.N else ln.rho) = rho
  by_cases h : rho = 0
  · rw [if_pos h]
  · rw [if_neg h]
    cases T2 with
    | none => show b.i ≤ b.i + 1; omega
    | some t2 => show b.i ≤ b.i + 1 + 1; omega

theorem foldl_readBreak_i_ge {R : Type} [LinearOrderedField R] (H : Setup R)
    (lines : List (BreakLine R)) :
    ∀ b : Breaks R, b.i ≤ (lines.foldl (fun b ln => readBreak H ln b) b).i := by
  induction lines with
  | nil => intro b; exact le_refl _
  | cons ln rest ih =>
    intro b
    exact le_trans (readBreak_i_ge H ln b) (ih (readBreak H ln b))

/-- The next free index is at least `2`, so `nvec = i-1` is at least `1`. -/
theorem readBreaks_i_ge {R : Type} [LinearOrderedField R] (H : Setup R)
    (lines : List (BreakLine R)) (rhovec0 Tvec0 : Int → R) :
    2 ≤ (readBreaks H lines rhovec0 Tvec0).i := by
  have h : (2 : Int) ≤ _ := foldl_readBreak_i_ge H lines
    { rhovec := Function.update rhovec0 1 (H.rho 1)
      Tvec := Function.update Tvec0 1 H.Tc
      i := 2 }
  unfold readBreaks
  dsimp only
  split_ifs
  · show 2 ≤ _ + 1
    omega
  · exact h

/-! ## The piecewise initial profile: interpolation -/

/-- The search loop stops at the first index from `j0` on whose density is not
below `rho`, or at `nvec`. -/
theorem findBreak_spec {R : Type} [LinearOrderedField R] (rhovec : Int → R) (rho : R)
    (nvec : Int) :
    ∀ (fuel : Nat) (j0 : Int), j0 ≤ nvec → (nvec - j0).toNat ≤ fuel →
      j0 ≤ findBreak rhovec rho nvec fuel j0
        ∧ findBreak rhovec rho nvec fuel j0 ≤ nvec
        ∧ (∀ k, j0 ≤ k → k < findBreak rhovec rho nvec fuel j0 → rhovec k < rho)
        ∧ (findBreak rhovec rho nvec fuel j0 < nvec →
            ¬ rhovec (findBreak rhovec rho nvec fuel j0) < rho) := by
  intro fuel
  induction fuel with
  | zero =>
    intro j0 h1 h2
    have e : j0 = nvec := by
      have : (nvec - j0).toNat = 0 := Nat.le_zero.1 h2
      have := Int.toNat_eq_zero.1 this
      omega
    show j0 ≤ j0 ∧ j0 ≤ nvec ∧ (∀ k, j0 ≤ k → k < j0 → rhovec k < rho)
      ∧ (j0 < nvec → ¬ rhovec j0 < rho)
    exact ⟨le_refl _, h1, fun k a b => absurd b (not_lt.2 a), fun h => absurd h (by omega)⟩
  | succ fuel ih =>
    intro j0 h1 h2
    by_cases c : rhovec j0 < rho ∧ j0 < nvec
    · have e : findBreak rhovec rho nvec (fuel + 1) j0
          = findBreak rhovec rho nvec fuel (j0 + 1) := by
        show (if rhovec j0 < rho ∧ j0 < nvec then _ else _) = _
        rw [if_pos c]
      rw [e]
      obtain ⟨a1, a2, a3, a4⟩ := ih (j0 + 1) (by omega) (by omega)
      refine ⟨by omega, a2, fun k hk1 hk2 => ?_, a4⟩
      by_cases hk : k = j0
      · rw [hk]; exact c.1
      · exact a3 k (by omega) hk2
    · have e : findBreak rhovec rho nvec (fuel + 1) j0 = j0 := by
        show (if rhovec j0 < rho ∧ j0 < nvec then _ else _) = _
        rw [if_neg c]
      rw [e]
      exact ⟨le_refl _, h1, fun k a b => absurd b (not_lt.2 a), fun h hlt => c ⟨hlt, h⟩⟩

/-- The first breakpoint is the top of the grid: index `1` is never overwritten. -/
theorem readBreak_rhovec_one {R : Type} [LinearOrderedField R] (H : Setup R)
    (ln : BreakLine R) (b : Breaks R) (hb : 2 ≤ b.i) :
    (readBreak H ln b).rhovec 1 = b.rhovec 1 := by
  unfold readBreak
  dsimp only
  generalize (if ln.T < 0 then H.Tc else ln.T) = T
  generalize Option.map (fun t => if t < 0 then H.Tc else t) ln.T2 = T2
  generalize (if ln.rho < 0 then H.rho H.N else ln.rho) = rho
  by_cases h : rho = 0
  · rw [if_pos h]
  · rw [if_neg h]
    cases T2 with
    | none =>
      show Function.update b.rhovec b.i rho 1 = _
      rw [Function.update_noteq (by omega)]
    | some t2 =>
      show Function.update (Function.update b.rhovec b.i rho) (b.i + 1) _ 1 = _
      rw [Function.update_noteq (by omega), Function.update_noteq (by omega)]

theorem foldl_readBreak_rhovec_one {R : Type} [LinearOrderedField R] (H : Setup R)
    (lines : List (BreakLine R)) :
    ∀ b : Breaks R, 2 ≤ b.i →
      (lines.foldl (fun b ln => readBreak H ln b) b).rhovec 1 = b.rhovec 1 := by
  induction lines with
  | nil => intro b _; rfl
  | cons ln rest ih =>
    intro b hb
    show (rest.foldl (fun b ln => readBreak H ln b) (readBreak H ln b)).rhovec 1 = _
    rw [ih _ (le_trans hb (readBreak_i_ge H ln b)), readBreak_rhovec_one H ln b hb]

theorem readBreaks_rhovec_one {R : Type} [LinearOrderedField R] (H : Setup R)
    (lines : List (BreakLine R)) (rhovec0 Tvec0 : Int → R) :
    (readBreaks H lines rhovec0 Tvec0).rhovec 1 = H.rho 1 := by
  have h2 : (2 : Int) ≤ _ := foldl_readBreak_i_ge H lines
    { rhovec := Function.update rhovec0 1 (H.rho 1)
      Tvec := Function.update Tvec0 1 H.Tc
      i := 2 }
  have h1 : _ = Function.update rhovec0 1 (H.rho 1) 1 := foldl_readBreak_rhovec_one H lines
    { rhovec := Function.update rhovec0 1 (H.rho 1)
      Tvec := Function.update Tvec0 1 H.Tc
      i := 2 } (le_refl _)
  rw [Function.update_same] at h1
  unfold readBreaks
  dsimp only
  split_ifs
  · show Function.update (List.foldl (fun b ln => readBreak H ln b) _ lines).rhovec _ _ 1 = _
    rw [Function.update_noteq (by omega), h1]
  · exact h1


theorem assignCell_bc {R : Type} [LinearOrderedField R] (L : Libm R) (H : Setup R)
    (TC : Int → R → R) (Yn : Int → R) (b : Breaks R) (i : Int) (p : Profile R) :
    (assignCell L H TC Yn b i p).bc = Function.update p.bc i (cellBC L H TC Yn b i) := by
  unfold assignCell cellBC
  dsimp only
  generalize piecewise_Ti L H b i = Ti
  split_ifs with h1 h2 h3 h4 h5 h6 h7 h8
  all_goals first
    | rfl
    | exact Function.update_idem _ _ _
    | (exfalso; tauto)

/-- The initial values handed to the integrator by the assignment loop. -/
theorem assignLoop_bc {R : Type} [LinearOrderedField R] (L : Libm R) (H : Setup R)
    (TC : Int → R → R) (Yn : Int → R) (b : Breaks R) (p0 : Profile R) (c : Int) :
    (forRange 1 (H.N + 1) (assignCell L H TC Yn b) p0).bc c
      = if 1 ≤ c ∧ c ≤ H.N + 1 then cellBC L H TC Yn b c else p0.bc c :=
  forRange_proj 1 (H.N + 1) (assignCell L H TC Yn b) (fun _ => ()) Profile.bc
    (fun _ c => cellBC L H TC Yn b c) (fun _ _ => rfl)
    (fun i s j => by
      rw [assignCell_bc, Function.update_apply]) p0 c

/-- Order reflection for a strictly increasing `log10`. -/
theorem log10_le_reflect {R : Type} [LinearOrderedField R] (L : Libm R)
    (hmono : ∀ a b : R, 0 < a → a < b → L.log10 a < L.log10 b) (u v : R) (hv : 0 < v)
    (h : L.log10 u ≤ L.log10 v) : u ≤ v := by
  by_contra hc
  have := hmono v u hv (not_le.1 hc)
  exact absurd h (not_le.2 this)

/-- The log-log interpolation between two breakpoints. -/
theorem loglog_interp {R : Type} [LinearOrderedField R] (L : Libm R)
    (hlogpow : ∀ x : R, L.log10 (L.pow 10 x) = x)
    (hpowlog : ∀ x : R, 0 < x → L.pow 10 (L.log10 x) = x)
    (hdiv : ∀ a b : R, 0 < a → 0 < b → L.log10 (a / b) = L.log10 a - L.log10 b)
    (hmono : ∀ a b : R, 0 < a → a < b → L.log10 a < L.log10 b)
    (hpowpos : ∀ x : R, 0 < L.pow 10 x)
    (a c r0 r r1 : R) (ha : 0 < a) (hc : 0 < c) (hr0 : 0 < r0) (h01 : r0 < r) (h1 : r ≤ r1) :
    L.log10 (L.pow 10 (L.log10 a + L.log10 (c / a) * L.log10 (r / r0) / L.log10 (r1 / r0)))
        = L.log10 a + (L.log10 c - L.log10 a) * (L.log10 r - L.log10 r0)
            / (L.log10 r1 - L.log10 r0)
      ∧ min a c ≤ L.pow 10 (L.log10 a + L.log10 (c / a) * L.log10 (r / r0) / L.log10 (r1 / r0))
      ∧ L.pow 10 (L.log10 a + L.log10 (c / a) * L.log10 (r / r0) / L.log10 (r1 / r0))
          ≤ max a c
      ∧ (r = r1 →
          L.pow 10 (L.log10 a + L.log10 (c / a) * L.log10 (r / r0) / L.log10 (r1 / r0)) = c) := by
  have hr : 0 < r := lt_trans hr0 h01
  have hr1 : 0 < r1 := lt_of_lt_of_le hr h1
  have hd0 : 0 < L.log10 r - L.log10 r0 := sub_pos.2 (hmono r0 r hr0 h01)
  have hd01 : L.log10 r - L.log10 r0 ≤ L.log10 r1 - L.log10 r0 := by
    rcases eq_or_lt_of_le h1 with e | e
    · rw [e]
    · have := hmono r r1 hr e
      linarith
  have hd1 : 0 < L.log10 r1 - L.log10 r0 := lt_of_lt_of_le hd0 hd01
  have hx : L.log10 a + L.log10 (c / a) * L.log10 (r / r0) / L.log10 (r1 / r0)
      = L.log10 a + (L.log10 c - L.log10 a) * (L.log10 r - L.log10 r0)
          / (L.log10 r1 - L.log10 r0) := by
    rw [hdiv c a hc ha, hdiv r r0 hr hr0, hdiv r1 r0 hr1 hr0]
  rw [hx]
  generalize hla : L.log10 a = la at *
  generalize hlc : L.log10 c = lc at *
  generalize hD0 : L.log10 r - L.log10 r0 = d0 at *
  generalize hD1 : L.log10 r1 - L.log10 r0 = d1 at *
  have hw0 : 0 ≤ d0 / d1 := div_nonneg hd0.le hd1.le
  have hw1 : d0 / d1 ≤ 1 := (div_le_one hd1).2 hd01
  have hxw : la + (lc - la) * d0 / d1 = la + (lc - la) * (d0 / d1) := by ring
  have hT := hpowpos (la + (lc - la) * d0 / d1)
  have hle : a ≤ c → la ≤ lc := by
    intro hac
    rcases eq_or_lt_of_le hac with e | e
    · rw [← hla, ← hlc, e]
    · rw [← hla, ← hlc]; exact (hmono a c ha e).le
  have hge : c ≤ a → lc ≤ la := by
    intro hac
    rcases eq_or_lt_of_le hac with e | e
    · rw [← hla, ← hlc, e]
    · rw [← hla, ← hlc]; exact (hmono c a hc e).le
  refine ⟨hlogpow _, ?_, ?_, ?_⟩
  · rcases le_total a c with hac | hac
    · rw [min_eq_left hac]
      apply log10_le_reflect L hmono _ _ hT
      rw [hlogpow, hla, hxw]
      have := mul_nonneg (sub_nonneg.2 (hle hac)) hw0
      linarith
    · rw [min_eq_right hac]
      apply log10_le_reflect L hmono _ _ hT
      rw [hlogpow, hlc, hxw]
      have := mul_le_mul_of_nonneg_left hw1 (sub_nonneg.2 (hge hac))
      linarith
  · rcases le_total a c with hac | hac
    · rw [max_eq_right hac]
      apply log10_le_reflect L hmono _ _ hc
      rw [hlogpow, hlc, hxw]
      have := mul_le_mul_of_nonneg_left hw1 (sub_nonneg.2 (hle hac))
      linarith
    · rw [max_eq_left hac]
      apply log10_le_reflect L hmono _ _ ha
      rw [hlogpow, hla, hxw]
      have := mul_nonneg (sub_nonneg.2 (hge hac)) hw0
      linarith
  · intro hrr
    have e : d0 = d1 := by rw [← hD0, ← hD1, hrr]
    have : la + (lc - la) * d0 / d1 = lc := by
      rw [e]; field_simp
    rw [this, ← hlc]
    exact hpowlog c hc

theorem piecewise_Ti_interior {R : Type} [LinearOrderedField R] (L : Libm R) (H : Setup R)
    (b : Breaks R) (i : Int) (h1 : 1 < i) (h2 : i < H.N + 1) :
    piecewise_Ti L H b i
      = L.pow 10 (L.log10 (b.Tvec (breakIndex H b i - 1))
          + L.log10 (b.Tvec (breakIndex H b i) / b.Tvec (breakIndex H b i - 1))
              * L.log10 (H.rho i / b.rhovec (breakIndex H b i - 1))
              / L.log10 (b.rhovec (breakIndex H b i) / b.rhovec (breakIndex H b i - 1))) := by
  unfold piecewise_Ti breakIndex
  dsimp only
  rw [if_neg (by omega), if_neg (by omega)]

/-- The breakpoint vectors when the file has no `>` line. -/
theorem readBreaks_nil {R : Type} [LinearOrderedField R] (H : Setup R)
    (rhovec0 Tvec0 : Int → R) :
    (readBreaks H [] rhovec0 Tvec0).Tvec 1 = H.Tc
      ∧ (readBreaks H [] rhovec0 Tvec0).Tvec ((readBreaks H [] rhovec0 Tvec0).i - 1) = H.Tc
      ∧ (readBreaks H [] rhovec0 Tvec0).rhovec 1 = H.rho 1
      ∧ (H.rho 1 ≠ H.rho H.N → (readBreaks H [] rhovec0 Tvec0).i - 1 = 2) := by
  unfold readBreaks
  dsimp only [List.foldl]
  have e1 : ((2 : Int) - 1) = 1 := by norm_num
  by_cases h : Function.update rhovec0 1 (H.rho 1) (2 - 1) ≠ H.rho H.N
  · rw [if_pos h]
    refine ⟨?_, ?_, ?_, fun _ => ?_⟩
    · show Function.update (Function.update Tvec0 1 H.Tc) 2 H.Tc 1 = H.Tc
      rw [Function.update_noteq (by norm_num), Function.update_same]
    · show Function.update (Function.update Tvec0 1 H.Tc) 2 H.Tc (2 + 1 - 1) = H.Tc
      have : ((2 : Int) + 1 - 1) = 2 := by norm_num
      rw [this, Function.update_same]
    · show Function.update (Function.update rhovec0 1 (H.rho 1)) 2 (H.rho H.N) 1 = H.rho 1
      rw [Function.update_noteq (by norm_num), Function.update_same]
    · show (2 : Int) + 1 - 1 = 2
      norm_num
  · rw [if_neg h]
    refine ⟨?_, ?_, ?_, fun hne => ?_⟩
    · show Function.update Tvec0 1 H.Tc 1 = H.Tc
      rw [Function.update_same]
    · show Function.update Tvec0 1 H.Tc (2 - 1) = H.Tc
      rw [e1, Function.update_same]
    · show Function.update rhovec0 1 (H.rho 1) 1 = H.rho 1
      rw [Function.update_same]
    · exfalso
      apply h
      rw [e1, Function.update_same]
      exact hne

/-- With no `>` line every cell is assigned the core temperature. -/
theorem piecewise_Ti_nil {R : Type} [LinearOrderedField R] (L : Libm R) (H : Setup R)
    (rhovec0 Tvec0 : Int → R)
    (hpowlog : ∀ x : R, 0 < x → L.pow 10 (L.log10 x) = x)
    (hdiv : ∀ a b : R, 0 < a → 0 < b → L.log10 (a / b) = L.log10 a - L.log10 b)
    (hTc : 0 < H.Tc) (hrho : ∀ k, 1 < k → k < H.N + 1 → H.rho 1 < H.rho k)
    (c : Int) (hc1 : 1 ≤ c) (hc2 : c ≤ H.N + 1) :
    piecewise_Ti L H (readBreaks H [] rhovec0 Tvec0) c = H.Tc := by
  obtain ⟨t1, tn, r1, hn⟩ := readBreaks_nil H rhovec0 Tvec0
  by_cases a : c = 1
  · unfold piecewise_Ti
    dsimp only
    rw [if_pos a, t1]
  · by_cases a2 : c = H.N + 1
    · unfold piecewise_Ti
      dsimp only
      rw [if_neg a, if_pos a2, tn]
    · have hN : H.rho 1 < H.rho H.N := hrho H.N (by omega) (by omega)
      have hnv := hn hN.ne
      have hJ : breakIndex H (readBreaks H [] rhovec0 Tvec0) c = 2 := by
        unfold breakIndex
        rw [hnv]
        have hf : ((2 : Int) - 1).toNat = 1 := by decide
        rw [hf]
        show (if (readBreaks H [] rhovec0 Tvec0).rhovec 1 < H.rho c ∧ (1 : Int) < 2
          then findBreak _ _ _ 0 (1 + 1) else 1) = 2
        rw [if_pos ⟨by rw [r1]; exact hrho c (by omega) (by omega), by norm_num⟩]
        rfl
      rw [piecewise_Ti_interior L H _ c (by omega) (by omega), hJ]
      have e21 : ((2 : Int) - 1) = 1 := by norm_num
      have t2 : (readBreaks H [] rhovec0 Tvec0).Tvec 2 = H.Tc := by
        have := tn
        rw [hnv] at this
        exact this
      rw [e21, t1, t2, hdiv H.Tc H.Tc hTc hTc, sub_self, zero_mul, zero_div, add_zero,
        hpowlog H.Tc hTc]


/-- The interior cells between the first and the last breakpoint: where the
search loop stops. -/
theorem breakIndex_spec {R : Type} [LinearOrderedField R] (H : Setup R)
    (lines : List (BreakLine R)) (rhovec0 Tvec0 : Int → R) (i : Int)
    (hlo : H.rho 1 < H.rho i)
    (hhi : H.rho i ≤ (readBreaks H lines rhovec0 Tvec0).rhovec
      ((readBreaks H lines rhovec0 Tvec0).i - 1)) :
    2 ≤ breakIndex H (readBreaks H lines rhovec0 Tvec0) i
      ∧ breakIndex H (readBreaks H lines rhovec0 Tvec0) i
          ≤ (readBreaks H lines rhovec0 Tvec0).i - 1
      ∧ H.rho i ≤ (readBreaks H lines rhovec0 Tvec0).rhovec
          (breakIndex H (readBreaks H lines rhovec0 Tvec0) i)
      ∧ ∀ k, 1 ≤ k → k < breakIndex H (readBreaks H lines rhovec0 Tvec0) i →
          (readBreaks H lines rhovec0 Tvec0).rhovec k < H.rho i := by
  have hi := readBreaks_i_ge H lines rhovec0 Tvec0
  have hr1 := readBreaks_rhovec_one H lines rhovec0 Tvec0
  generalize readBreaks H lines rhovec0 Tvec0 = b at *
  obtain ⟨s1, s2, s3, s4⟩ := findBreak_spec b.rhovec (H.rho i) (b.i - 1) (b.i - 1 - 1).toNat 1
    (by omega) (le_refl _)
  have hJ : findBreak b.rhovec (H.rho i) (b.i - 1) (b.i - 1 - 1).toNat 1 = breakIndex H b i := rfl
  rw [hJ] at s1 s2 s3 s4
  have hne1 : breakIndex H b i ≠ 1 := by
    intro e
    rw [e] at s4
    by_cases hn : (1 : Int) < b.i - 1
    · exact s4 hn (by rw [hr1]; exact hlo)
    · have : b.i - 1 = 1 := by omega
      rw [this, hr1] at hhi
      exact absurd hlo (not_lt.2 hhi)
  refine ⟨by omega, s2, ?_, s3⟩
  by_cases hn : breakIndex H b i < b.i - 1
  · exact not_lt.1 (s4 hn)
  · have : breakIndex H b i = b.i - 1 := by omega
    rw [this]; exact hhi

/-- The breakpoint vectors read from the single line `> 30 1000` on `profileSetup`. -/
theorem profile_breaks :
    readBreaks (profileSetup ℝ) [{ rho := 30, T := 1000, T2 := none }] (fun _ => 0) (fun _ => 0)
      = { rhovec := Function.update (Function.update (fun _ => 0) 1 10) 2 30
          Tvec := Function.update (Function.update (fun _ => 0) 1 10) 2 1000
          i := 3 } := by
  have hN : (profileSetup ℝ).rho (profileSetup ℝ).N = 30 := by
    show (10 : ℝ) * ((3 : Int) : ℝ) = 30
    norm_num
  have h1 : (profileSetup ℝ).rho 1 = 10 := by
    show (10 : ℝ) * ((1 : Int) : ℝ) = 10
    norm_num
  have hTc : (profileSetup ℝ).Tc = 10 := rfl
  unfold readBreaks
  simp only [List.foldl, readBreak, hN, h1, hTc]
  norm_num [Function.update_apply]

/-! ## The lookup index -/

theorem clampBeta_mem (G : Globals) (beta : ℚ) (hlt : G.betamin ≤ G.betamax) :
    G.betamin ≤ clampBeta G beta ∧ clampBeta G beta ≤ G.betamax := by
  unfold clampBeta
  dsimp only
  split_ifs <;> constructor <;> linarith

theorem clampBeta_eq_max_iff (G : Globals) (beta : ℚ) (hlt : G.betamin < G.betamax) :
    clampBeta G beta = G.betamax ↔ G.betamax ≤ beta := by
  unfold clampBeta
  dsimp only
  split_ifs with h1 h2 h2
  · exact ⟨fun _ => h1.le, fun _ => by linarith⟩
  · exact ⟨fun _ => h1.le, fun _ => rfl⟩
  · exact ⟨fun h => by linarith, fun h => by linarith⟩
  · exact ⟨fun h => h.ge, fun h => le_antisymm (by linarith) h⟩

/-- The index and weight of the lookup for a table with `nbeta >= 2` bins of
width `(betamax-betamin)/(nbeta-1)`: the index lies in `1..nbeta`, it is `nbeta`
exactly when `log10 T` reaches `betamax`, and the weight lies in `[0,1)`. -/
theorem lookup_bounds (E : Env) (G : Globals) (T : Option ℚ)
    (hlt : G.betamin < G.betamax) (hn : 2 ≤ G.nbeta)
    (hd : G.deltabeta = (G.betamax - G.betamin) / (1 * ((G.nbeta - 1 : Int) : ℚ))) :
    1 ≤ lookup_j E G T ∧ lookup_j E G T ≤ G.nbeta
      ∧ (lookup_j E G T = G.nbeta ↔ G.betamax ≤ E.log10 (safeT T))
      ∧ 0 ≤ lookup_interpfac E G T ∧ lookup_interpfac E G T < 1 := by
  have hnb : (0 : ℚ) < ((G.nbeta - 1 : Int) : ℚ) := by
    have : (0 : Int) < G.nbeta - 1 := by omega
    exact_mod_cast this
  have hdpos : 0 < G.deltabeta := by
    rw [hd]; apply div_pos (by linarith); linarith
  have hwidth : G.betamax - G.betamin = ((G.nbeta - 1 : Int) : ℚ) * G.deltabeta := by
    have hne : ((G.nbeta - 1 : Int) : ℚ) ≠ 0 := hnb.ne.symm
    have e : G.deltabeta * ((G.nbeta - 1 : Int) : ℚ) = G.betamax - G.betamin := by
      rw [hd, one_mul]; exact div_mul_cancel₀ _ hne
    linarith
  obtain ⟨hb1, hb2⟩ := clampBeta_mem G (E.log10 (safeT T)) hlt.le
  have hmax := clampBeta_eq_max_iff G (E.log10 (safeT T)) hlt
  unfold lookup_j lookup_interpfac
  dsimp only
  generalize clampBeta G (E.log10 (safeT T)) = beta at hb1 hb2 hmax
  have hx0 : 0 ≤ (beta - G.betamin) / G.deltabeta := div_nonneg (by linarith) hdpos.le
  have hx1 : (beta - G.betamin) / G.deltabeta ≤ ((G.nbeta - 1 : Int) : ℚ) := by
    rw [div_le_iff₀ hdpos]; linarith
  have htr : truncInt ((beta - G.betamin) / G.deltabeta)
      = ⌊(beta - G.betamin) / G.deltabeta⌋ := by
    unfold truncInt; rw [if_pos hx0]
  rw [htr]
  have hf0 : 0 ≤ ⌊(beta - G.betamin) / G.deltabeta⌋ := Int.floor_nonneg.2 hx0
  have hf1 : ⌊(beta - G.betamin) / G.deltabeta⌋ ≤ G.nbeta - 1 := by
    have := Int.floor_le ((beta - G.betamin) / G.deltabeta)
    have h2 : ((⌊(beta - G.betamin) / G.deltabeta⌋ : Int) : ℚ) ≤ ((G.nbeta - 1 : Int) : ℚ) :=
      le_trans this hx1
    exact_mod_cast h2
  have hfl := Int.floor_le ((beta - G.betamin) / G.deltabeta)
  have hfu := Int.lt_floor_add_one ((beta - G.betamin) / G.deltabeta)
  refine ⟨by omega, by omega, ?_, ?_, ?_⟩
  · rw [← hmax]
    constructor
    · intro h
      have h3 : ⌊(beta - G.betamin) / G.deltabeta⌋ = G.nbeta - 1 := by omega
      rw [h3] at hfl
      rw [le_div_iff₀ hdpos] at hfl
      linarith
    · intro h
      have h3 : (beta - G.betamin) / G.deltabeta = ((G.nbeta - 1 : Int) : ℚ) := by
        rw [h, hwidth]; field_simp
      rw [h3, Int.floor_intCast]; ring
  · apply div_nonneg _ hdpos.le
    have e : ((1 + ⌊(beta - G.betamin) / G.deltabeta⌋ - 1 : Int) : ℚ)
        = ((⌊(beta - G.betamin) / G.deltabeta⌋ : Int) : ℚ) := by
      congr 1; ring
    rw [e]
    rw [le_div_iff₀ hdpos] at hfl
    linarith
  · rw [div_lt_iff₀ hdpos]
    have e : ((1 + ⌊(beta - G.betamin) / G.deltabeta⌋ - 1 : Int) : ℚ)
        = ((⌊(beta - G.betamin) / G.deltabeta⌋ : Int) : ℚ) := by
      congr 1; ring
    rw [e]
    rw [div_lt_iff₀ hdpos] at hfu
    linarith

theorem tableRange_hyps (G : Globals) :
    (tableRange G).betamin < (tableRange G).betamax ∧ 2 ≤ (tableRange G).nbeta
      ∧ (tableRange G).deltabeta = ((tableRange G).betamax - (tableRange G).betamin)
          / (1 * (((tableRange G).nbeta - 1 : Int) : ℚ)) := by
  refine ⟨by norm_num [tableRange], by norm_num [tableRange], ?_⟩
  norm_num [tableRange]

/-! ## The temperature vector after `jacobn` -/

/-- Perturbing the ghost column `N+1` of row `N` leaves `Tc/1.01` in `T[N+1]`:
the call `dTdt(N,T)` stores `Tc` there before the division. -/
theorem perturb_T_ghost_last (E : Env) (G : Globals) (dfdt : Int → ℚ) (st : JacState) :
    (perturb E G dfdt G.N (G.N + 1) st).T (G.N + 1) = G.Tc / (1 + 0.01) := by
  unfold perturb
  simp only [Function.update_same, dTdt_T, localGrid_T]
  rw [if_pos trivial, Function.update_same]

/-- A perturbation of row `i != N` in a column other than `N+1` does not touch
`T[N+1]`. -/
theorem perturb_T_ghost_keep (E : Env) (G : Globals) (dfdt : Int → ℚ) (i c : Int)
    (st : JacState) (hN : 0 ≤ G.N) (hi : i ≠ G.N) (hc : c ≠ G.N + 1) :
    (perturb E G dfdt i c st).T (G.N + 1) = st.T (G.N + 1) := by
  have h0 : G.N + 1 ≠ 0 := by omega
  have hc' : G.N + 1 ≠ c := fun h => hc h.symm
  unfold perturb
  simp only [dTdt_T, localGrid_T, if_neg hi]
  rw [Function.update_noteq hc']
  by_cases a : i = 1
  · rw [if_pos a, Function.update_noteq h0, Function.update_noteq hc']
  · rw [if_neg a, Function.update_noteq hc']

/-- On return from `jacobn` called with `n = N+1`, the ghost entry `T[N+1]`
holds `Tc/1.01`, whatever it held on entry. -/
theorem jacobn_T_ghost (E : Env) (G : Globals) (t : ℚ) (T : Int → ℚ) (S : Scratch)
    (dfdt : Int → ℚ) (dfdT : Int → Int → ℚ) (hN : 1 ≤ G.N) :
    (jacobn E G t T S dfdt dfdT (G.N + 1)).T (G.N + 1) = G.Tc / (1 + 0.01) := by
  unfold jacobn
  dsimp only
  by_cases h1 : G.N = 1
  · have e : (1 : Int) + 1 = G.N + 1 := by omega
    rw [e]
    have key := fun st => perturb_T_ghost_last E G dfdt st
    rw [h1] at key
    rw [h1]
    exact key _
  · rw [perturb_T_ghost_keep E G dfdt 1 (1 + 1) _ (by omega) (by omega) (by omega),
      perturb_T_ghost_keep E G dfdt 1 1 _ (by omega) (by omega) (by omega)]
    have hloop := forRange_inv_idx 2 (G.N + 1 - 1) (jacRow E G dfdt)
      (fun k st => G.N < k → st.T (G.N + 1) = G.Tc / (1 + 0.01))
      { T := T, S := S, dfdT := dfdT } (by omega)
      (fun k st hk1 hk2 _ hlt => by
        have e : k = G.N := by omega
        subst e
        unfold jacRow
        exact perturb_T_ghost_last E G dfdt _)
      (fun h => by omega)
    exact hloop (by omega)

/-- On return from `jacobn` every interior entry `T[1..N]` holds its entry value. -/
theorem jacobn_T_interior (E : Env) (G : Globals) (t : ℚ) (T : Int → ℚ) (S : Scratch)
    (dfdt : Int → ℚ) (dfdT : Int → Int → ℚ) (n : Int) (j : Int) (hj1 : 1 ≤ j)
    (hj2 : j ≤ G.N) :
    (jacobn E G t T S dfdt dfdT n).T j = T j := by
  unfold jacobn
  dsimp only
  rw [perturb_T _ _ _ _ _ _ _ hj1 hj2, perturb_T _ _ _ _ _ _ _ hj1 hj2]
  exact forRange_inv 2 (n - 1) (jacRow E G dfdt) (fun st => st.T j = T j)
    { T := T, S := S, dfdT := dfdT }
    (fun i s _ _ hs => by
      show (jacRow E G dfdt i s).T j = T j
      rw [jacRow_T _ _ _ _ _ _ hj1 hj2]; exact hs) rfl

/-! ## The lookup at the safe floor -/

/-- With the table range of `precalculate_vars` and a `log10` exact at `1e7`, the
lookup at `T = 1e7` lands in bin `15` with weight `1/7`. -/
theorem decade_lookup_floor (G : Globals) (hmin : G.betamin = 6.5) (hmax : G.betamax = 10)
    (hd : G.deltabeta = (10 - 6.5) / (1 * (100 - 1))) :
    lookup_j decadeEnv G (some 1e7) = 15
      ∧ lookup_interpfac decadeEnv G (some 1e7) = 1 / 7 := by
  have hb : clampBeta G (decadeEnv.log10 (safeT (some 1e7))) = 7 := by
    rw [safeT_some_nonneg _ (by norm_num)]
    unfold clampBeta
    norm_num [decadeEnv, hmin, hmax]
  have hq : ((7 : ℚ) - G.betamin) / G.deltabeta = 99 / 7 := by
    rw [hmin, hd]; norm_num
  have ht : truncInt ((99 : ℚ) / 7) = 14 := by
    unfold truncInt
    rw [if_pos (by norm_num)]
    rw [Int.floor_eq_iff]
    constructor <;> norm_num
  constructor
  · unfold lookup_j
    dsimp only
    rw [hb, hq, ht]; rfl
  · unfold lookup_interpfac
    dsimp only
    rw [hb, hq, ht, hmin, hd]; norm_num

/-- The conductivity `calculate_vars` returns, written out from the interpolated
table values: blend, radiative term, magnetic factor. -/
theorem calculate_vars_K (E : Env) (G : Globals) (i : Int) (T : Option ℚ) (P : ℚ) :
    (calculate_vars E G i T P).K
      = conductivity E G i
          (interp G.K0_grid i (lookup_j E G T) (lookup_interpfac E G T))
          (interp G.K1_grid i (lookup_j E G T) (lookup_interpfac E G T))
          (interp G.KAPPA_grid i (lookup_j E G T) (lookup_interpfac E G T)) := rfl

/-- The blend as a formula: for positive `K0`, `K1` and `Q` in `[0,1]` it lies
between `g*K0` and `g*K1`, and it is `g*K0` at `Q = 0` and `g*K1` at `Q = 1`. -/
theorem KKblend_bounds (g K0 K1 Q : ℚ) (h0 : 0 < K0) (h1 : 0 < K1) (hQ0 : 0 ≤ Q)
    (hQ1 : Q ≤ 1) :
    min (g * K0) (g * K1) ≤ KKblend g K0 K1 Q
      ∧ KKblend g K0 K1 Q ≤ max (g * K0) (g * K1)
      ∧ KKblend g K0 K1 0 = g * K0
      ∧ KKblend g K0 K1 1 = g * K1 := by
  obtain ⟨hD, hx⟩ := KKblend_convex g K0 K1 Q h0 h1 hQ0 hQ1
  have ha : 0 ≤ (1 - Q) * K1 / (K0 * Q + (1 - Q) * K1) :=
    div_nonneg (mul_nonneg (by linarith) h1.le) hD.le
  have hb : 0 ≤ K0 * Q / (K0 * Q + (1 - Q) * K1) :=
    div_nonneg (mul_nonneg h0.le hQ0) hD.le
  have hab : (1 - Q) * K1 / (K0 * Q + (1 - Q) * K1) + K0 * Q / (K0 * Q + (1 - Q) * K1) = 1 := by
    field_simp
    ring
  refine ⟨?_, ?_, ?_, ?_⟩
  · rw [hx]
    have m0 := min_le_left (g * K0) (g * K1)
    have m1 := min_le_right (g * K0) (g * K1)
    calc min (g * K0) (g * K1)
        = ((1 - Q) * K1 / (K0 * Q + (1 - Q) * K1) + K0 * Q / (K0 * Q + (1 - Q) * K1))
            * min (g * K0) (g * K1) := by rw [hab, one_mul]
      _ = (1 - Q) * K1 / (K0 * Q + (1 - Q) * K1) * min (g * K0) (g * K1)
            + K0 * Q / (K0 * Q + (1 - Q) * K1) * min (g * K0) (g * K1) := by ring
      _ ≤ _ := add_le_add (mul_le_mul_of_nonneg_left m0 ha) (mul_le_mul_of_nonneg_left m1 hb)
  · rw [hx]
    have m0 := le_max_left (g * K0) (g * K1)
    have m1 := le_max_right (g * K0) (g * K1)
    calc (1 - Q) * K1 / (K0 * Q + (1 - Q) * K1) * (g * K0)
            + K0 * Q / (K0 * Q + (1 - Q) * K1) * (g * K1)
        ≤ (1 - Q) * K1 / (K0 * Q + (1 - Q) * K1) * max (g * K0) (g * K1)
            + K0 * Q / (K0 * Q + (1 - Q) * K1) * max (g * K0) (g * K1) :=
          add_le_add (mul_le_mul_of_nonneg_left m0 ha) (mul_le_mul_of_nonneg_left m1 hb)
      _ = ((1 - Q) * K1 / (K0 * Q + (1 - Q) * K1) + K0 * Q / (K0 * Q + (1 - Q) * K1))
            * max (g * K0) (g * K1) := by ring
      _ = max (g * K0) (g * K1) := by rw [hab, one_mul]
  · unfold KKblend
    field_simp
  · unfold KKblend
    field_simp
    ring

/-- In exact arithmetic, evaluating `calculate_vars` at the stored temperature of a
bin `j` in `1..nbeta-1` (`log10 T = betamin + (j-1)*deltabeta`) returns the values
stored in that bin, and the outputs are unchanged when the tables are replaced by
any tables with the same entries at bin `j` of cell `i`. -/
theorem calculate_vars_bin_inside (E : Env) (G : Globals) (i j : Int) (T P : ℚ)
    (hlt : G.betamin < G.betamax) (hn : 2 ≤ G.nbeta)
    (hd : G.deltabeta = (G.betamax - G.betamin) / (1 * ((G.nbeta - 1 : Int) : ℚ)))
    (hj1 : 1 ≤ j) (hj2 : j ≤ G.nbeta - 1) (hT : 0 ≤ T)
    (hlog : E.log10 T = G.betamin + ((j - 1 : Int) : ℚ) * G.deltabeta) :
    (calculate_vars E G i (some T) P).CP = G.CP_grid i j
      ∧ (G.nuflag ≠ 0 → (calculate_vars E G i (some T) P).NU = G.NU_grid i j)
      ∧ (calculate_vars E G i (some T) P).K
          = conductivity E G i (G.K0_grid i j) (G.K1_grid i j) (G.KAPPA_grid i j)
      ∧ ∀ (CP' K0' K1' NU' KAPPA' : Int → Int → ℚ),
          CP' i j = G.CP_grid i j → K0' i j = G.K0_grid i j → K1' i j = G.K1_grid i j →
          NU' i j = G.NU_grid i j → KAPPA' i j = G.KAPPA_grid i j →
          calculate_vars E
              { G with CP_grid := CP', K0_grid := K0', K1_grid := K1', NU_grid := NU',
                       KAPPA_grid := KAPPA' } i (some T) P
            = calculate_vars E G i (some T) P := by
  have hj2' : j ≤ G.nbeta := by omega
  obtain ⟨h1, h2, h3⟩ := calculate_vars_at_bin E G i j T P hlt hn hd hj1 hj2' hT hlog
  refine ⟨h1, h2, h3, ?_⟩
  intro CP' K0' K1' NU' KAPPA' e1 e2 e3 e4 e5
  obtain ⟨g1, g2, g3⟩ := calculate_vars_at_bin E
    { G with CP_grid := CP', K0_grid := K0', K1_grid := K1', NU_grid := NU',
             KAPPA_grid := KAPPA' } i j T P hlt hn hd hj1 hj2' hT hlog
  have hEPS : (calculate_vars E
      { G with CP_grid := CP', K0_grid := K0', K1_grid := K1', NU_grid := NU',
               KAPPA_grid := KAPPA' } i (some T) P).EPS
      = (calculate_vars E G i (some T) P).EPS := rfl
  have hNU : (calculate_vars E
      { G with CP_grid := CP', K0_grid := K0', K1_grid := K1', NU_grid := NU',
               KAPPA_grid := KAPPA' } i (some T) P).NU
      = (calculate_vars E G i (some T) P).NU := by
    by_cases hnu : G.nuflag ≠ 0
    · rw [g2 hnu, h2 hnu]; exact e4
    · simp only [calculate_vars, if_neg hnu]
  have hK : (calculate_vars E
      { G with CP_grid := CP', K0_grid := K0', K1_grid := K1', NU_grid := NU',
               KAPPA_grid := KAPPA' } i (some T) P).K
      = (calculate_vars E G i (some T) P).K := by
    rw [g3, h3]
    show conductivity E _ i (K0' i j) (K1' i j) (KAPPA' i j) = _
    rw [e2, e3, e5]
    rfl
  have hCP : (calculate_vars E
      { G with CP_grid := CP', K0_grid := K0', K1_grid := K1', NU_grid := NU',
               KAPPA_grid := KAPPA' } i (some T) P).CP
      = (calculate_vars E G i (some T) P).CP := by
    rw [g1, h1]; exact e1
  generalize calculate_vars E
      { G with CP_grid := CP', K0_grid := K0', K1_grid := K1', NU_grid := NU',
               KAPPA_grid := KAPPA' } i (some T) P = a at hEPS hNU hK hCP
  generalize calculate_vars E G i (some T) P = b at hEPS hNU hK hCP
  cases a; cases b
  simp only at hEPS hNU hK hCP
  simp [hEPS, hNU, hK, hCP]

/-! ## A profile with a hot middle breakpoint, in output mode -/

/-- The breakpoint vectors for the single line `> 20 1000` on `outputSetup`: the
top of the crust, the line, and the appended base. -/
theorem capped_breaks :
    readBreaks (outputSetup ℝ) [{ rho := 20, T := 1000, T2 := none }] (fun _ => 0) (fun _ => 0)
      = { rhovec := Function.update (Function.update (Function.update (fun _ => 0) 1 10) 2 20)
            3 30
          Tvec := Function.update (Function.update (Function.update (fun _ => 0) 1 10) 2 1000)
            3 10
          i := 4 } := by
  have hN : (outputSetup ℝ).rho (outputSetup ℝ).N = 30 := by
    show (10 : ℝ) * ((3 : Int) : ℝ) = 30
    norm_num
  have h1 : (outputSetup ℝ).rho 1 = 10 := by
    show (10 : ℝ) * ((1 : Int) : ℝ) = 10
    norm_num
  have hTc : (outputSetup ℝ).Tc = 10 := rfl
  unfold readBreaks
  simp only [List.foldl, readBreak, hN, h1, hTc]
  norm_num [Function.update_apply]

/-- On that profile the temperature computed for cell `2`, whose density is the
breakpoint density `20`, is the breakpoint temperature `1000`. -/
theorem capped_Ti :
    piecewise_Ti ⟨Real.exp, Real.log, Real.logb 10, fun x y => x ^ y⟩ (outputSetup ℝ)
      (readBreaks (outputSetup ℝ) [{ rho := 20, T := 1000, T2 := none }] (fun _ => 0)
        (fun _ => 0)) 2 = 1000 := by
  have l1 : ∀ x : ℝ, Real.logb 10 ((10 : ℝ) ^ x) = x :=
    fun x => Real.logb_rpow (by norm_num) (by norm_num)
  have l2 : ∀ x : ℝ, 0 < x → (10 : ℝ) ^ Real.logb 10 x = x :=
    fun x hx => Real.rpow_logb (by norm_num) (by norm_num) hx
  have l3 : ∀ a b : ℝ, 0 < a → 0 < b →
      Real.logb 10 (a / b) = Real.logb 10 a - Real.logb 10 b :=
    fun a b ha hb => Real.logb_div ha.ne' hb.ne'
  have l4 : ∀ a b : ℝ, 0 < a → a < b → Real.logb 10 a < Real.logb 10 b :=
    fun a b ha hab => Real.logb_lt_logb (by norm_num) ha hab
  have l5 : ∀ x : ℝ, 0 < (10 : ℝ) ^ x := fun x => Real.rpow_pos_of_pos (by norm_num) x
  have r1 : (outputSetup ℝ).rho 1 = 10 := by
    show (10 : ℝ) * ((1 : Int) : ℝ) = 10
    norm_num
  have r2 : (outputSetup ℝ).rho 2 = 20 := by
    show (10 : ℝ) * ((2 : Int) : ℝ) = 20
    norm_num
  have hb := capped_breaks
  obtain ⟨j2, jn, jge, jlt⟩ := breakIndex_spec (outputSetup ℝ)
    [{ rho := 20, T := 1000, T2 := none }] (fun _ => 0) (fun _ => 0) 2
    (by rw [r1, r2]; norm_num)
    (by rw [r2, hb]; simp [Function.update_apply]; norm_num)
  rw [piecewise_Ti_interior _ _ _ 2 (by decide) (by decide)]
  have hJ : breakIndex (outputSetup ℝ)
      (readBreaks (outputSetup ℝ) [{ rho := 20, T := 1000, T2 := none }] (fun _ => 0)
        (fun _ => 0)) 2 = 2 := by
    by_contra hne
    have h3 : (readBreaks (outputSetup ℝ) [{ rho := 20, T := 1000, T2 := none }]
        (fun _ => 0) (fun _ => 0)).i - 1 = 3 := by rw [hb]; norm_num
    rw [h3] at jn
    have := jlt 2 (by decide) (by omega)
    rw [hb, r2] at this
    simp [Function.update_apply] at this
  rw [hJ, hb, r2]
  have t1 : Function.update (Function.update (Function.update (fun _ => (0 : ℝ)) (1 : Int) 10)
      2 1000) 3 10 (2 - 1) = 10 := by
    simp [Function.update_apply]
  have t2 : Function.update (Function.update (Function.update (fun _ => (0 : ℝ)) (1 : Int) 10)
      2 1000) 3 10 2 = 1000 := by
    simp [Function.update_apply]
  have u1 : Function.update (Function.update (Function.update (fun _ => (0 : ℝ)) (1 : Int) 10)
      2 20) 3 30 (2 - 1) = 10 := by
    simp [Function.update_apply]
  have u2 : Function.update (Function.update (Function.update (fun _ => (0 : ℝ)) (1 : Int) 10)
      2 20) 3 30 2 = 20 := by
    simp [Function.update_apply]
  simp only [t1, t2, u1, u2]
  exact (loglog_interp (R := ℝ) ⟨Real.exp, Real.log, Real.logb 10, fun x y => x ^ y⟩
    l1 l2 l3 l4 l5 10 1000 10 20 20 (by norm_num) (by norm_num) (by norm_num) (by norm_num)
    (le_refl _)).2.2.2 rfl

/-! ## The claims -/

/-- Claim C1. After `derivs`, every interior cell `i` in `1..N` holds
`dTdt[i] = g*(F[i+1]-F[i])/(dx*CP[i]*P[i]) - NU[i]/CP[i]` (when `nuflag` is on)
`+ EPS[i]/CP[i]` (when `accreting` is on), where `CP, NU, EPS` are the outputs of
`calculate_vars` at `T[i]` and `F[i], F[i+1]` are the values of
`calculate_heat_flux` on the grid whose two ghost cells have been filled; and
`dTdt[N+1] = 0`. -/
theorem derivs_interior_rate (E : Env) (G : Globals) (T : Int → ℚ) (S : Scratch)
    (d : Int → ℚ) (i : Int) (h1 : 1 ≤ i) (h2 : i ≤ G.N) :
    (derivs E G T S d).dTdt i
        = G.g * ((derivs E G T S d).S.F (i + 1) - (derivs E G T S d).S.F i)
            / (G.dx * (calculate_vars E G i (some (T i)) (G.P i)).CP * G.P i)
          - (if G.nuflag ≠ 0 then
              (calculate_vars E G i (some (T i)) (G.P i)).NU
                / (calculate_vars E G i (some (T i)) (G.P i)).CP else 0)
          + (if G.accreting ≠ 0 then
              (calculate_vars E G i (some (T i)) (G.P i)).EPS
                / (calculate_vars E G i (some (T i)) (G.P i)).CP else 0)
      ∧ (derivs E G T S d).S.F i
          = calculate_heat_flux E G (filledK E G T) (filledT G T) i
      ∧ (derivs E G T S d).S.F (i + 1)
          = calculate_heat_flux E G (filledK E G T) (filledT G T) (i + 1)
      ∧ (derivs E G T S d).dTdt (G.N + 1) = 0 := by
  have hN : 1 ≤ G.N := le_trans h1 h2
  have hF1 : (derivs E G T S d).S.F i = fluxAt E G T i := by
    rw [derivs_S]; exact fluxedScratch_F E G T S hN i h1 (by omega)
  have hF2 : (derivs E G T S d).S.F (i + 1) = fluxAt E G T (i + 1) := by
    rw [derivs_S]; exact fluxedScratch_F E G T S hN (i + 1) (by omega) (by omega)
  refine ⟨?_, hF1, hF2, ?_⟩
  · rw [derivs_dTdt_rhsCell E G T S d i h1 h2, hF1, hF2]
    dsimp only [rhsCell, cellVars]
    split_ifs <;> ring
  · rw [derivs_dTdt_apply, if_pos rfl]

theorem derivs_interior_rate_witness :
    ((1 : Int) ≤ 2 ∧ (2 : Int) ≤ sampleGlobals.N)
      ∧ (derivs sampleEnv sampleGlobals sampleT sampleScratch sampleRate).dTdt 2 = 2
      ∧ (derivs sampleEnv sampleGlobals sampleT sampleScratch sampleRate).dTdt
          (sampleGlobals.N + 1) = 0 := by
  have h := derivs_interior_rate sampleEnv sampleGlobals sampleT sampleScratch sampleRate 2
    (by decide) (by decide)
  refine ⟨⟨by decide, by decide⟩, ?_, h.2.2.2⟩
  have hv := sample_cellVars sampleT
  unfold cellVars at hv
  rw [h.1, h.2.1, h.2.2.1]
  simp [calculate_heat_flux, filledK, filledT, sample_cellVars, hv, Function.update_apply]
  simp [sampleGlobals, sampleT]
  norm_num

/-- Claim C2 (amended). With neutrino cooling and heating off and nonzero `g`,
`dx`, `CP[i]`, `P[i]`, the sum over the interior cells of `CP[i]*P[i]*dTdt[i]*dx/g`
equals the flux `F[N+1]` through the core interface minus the flux `F[1]` through
the surface interface. -/
theorem derivs_energy_conservation (E : Env) (G : Globals) (T : Int → ℚ) (S : Scratch)
    (d : Int → ℚ) (hnu : G.nuflag = 0) (hacc : G.accreting = 0) (hN : 1 ≤ G.N)
    (hg : G.g ≠ 0) (hdx : G.dx ≠ 0)
    (hCP : ∀ i, 1 ≤ i → i ≤ G.N → (derivs E G T S d).S.CP i ≠ 0)
    (hP : ∀ i, 1 ≤ i → i ≤ G.N → G.P i ≠ 0) :
    ∑ i in Finset.Icc (1 : Int) G.N,
        (derivs E G T S d).S.CP i * G.P i * (derivs E G T S d).dTdt i * G.dx / G.g
      = (derivs E G T S d).S.F (G.N + 1) - (derivs E G T S d).S.F 1 := by
  rw [derivs_energy_sum E G T S d hnu hacc hN hg hdx hCP hP,
    derivs_S_F E G T S d hN (G.N + 1) (by omega) (by omega),
    derivs_S_F E G T S d hN 1 (by omega) (by omega)]

theorem derivs_energy_conservation_witness :
    (sampleGlobals.nuflag = 0 ∧ sampleGlobals.accreting = 0 ∧ (1 : Int) ≤ sampleGlobals.N
      ∧ sampleGlobals.g ≠ 0 ∧ sampleGlobals.dx ≠ 0
      ∧ (∀ i, 1 ≤ i → i ≤ sampleGlobals.N →
          (derivs sampleEnv sampleGlobals sampleT sampleScratch sampleRate).S.CP i ≠ 0)
      ∧ (∀ i, 1 ≤ i → i ≤ sampleGlobals.N → sampleGlobals.P i ≠ 0))
    ∧ ∑ i in Finset.Icc (1 : Int) sampleGlobals.N,
        (derivs sampleEnv sampleGlobals sampleT sampleScratch sampleRate).S.CP i
          * sampleGlobals.P i
          * (derivs sampleEnv sampleGlobals sampleT sampleScratch sampleRate).dTdt i
          * sampleGlobals.dx / sampleGlobals.g
      = (derivs sampleEnv sampleGlobals sampleT sampleScratch sampleRate).S.F
            (sampleGlobals.N + 1)
          - (derivs sampleEnv sampleGlobals sampleT sampleScratch sampleRate).S.F 1 :=
  ⟨sample_hyps,
    derivs_energy_conservation sampleEnv sampleGlobals sampleT sampleScratch sampleRate
      sample_hyps.1 sample_hyps.2.1 sample_hyps.2.2.1 sample_hyps.2.2.2.1
      sample_hyps.2.2.2.2.1 sample_hyps.2.2.2.2.2.1 sample_hyps.2.2.2.2.2.2⟩

/-- Claim C2 as stated fails: on the sample grid (cooling and heating off, all of
`g`, `dx`, `CP[i]`, `P[i]` nonzero) the grid sum of `CP*P*dTdt*dx/g` differs from
the surface flux `F[1]` minus the core flux `F[N+1]`. -/
theorem derivs_energy_sum_ne_top_minus_bottom :
    (sampleGlobals.nuflag = 0 ∧ sampleGlobals.accreting = 0 ∧ (1 : Int) ≤ sampleGlobals.N
      ∧ sampleGlobals.g ≠ 0 ∧ sampleGlobals.dx ≠ 0
      ∧ (∀ i, 1 ≤ i → i ≤ sampleGlobals.N →
          (derivs sampleEnv sampleGlobals sampleT sampleScratch sampleRate).S.CP i ≠ 0)
      ∧ (∀ i, 1 ≤ i → i ≤ sampleGlobals.N → sampleGlobals.P i ≠ 0))
    ∧ ∑ i in Finset.Icc (1 : Int) sampleGlobals.N,
        (derivs sampleEnv sampleGlobals sampleT sampleScratch sampleRate).S.CP i
          * sampleGlobals.P i
          * (derivs sampleEnv sampleGlobals sampleT sampleScratch sampleRate).dTdt i
          * sampleGlobals.dx / sampleGlobals.g
      ≠ (derivs sampleEnv sampleGlobals sampleT sampleScratch sampleRate).S.F 1
          - (derivs sampleEnv sampleGlobals sampleT sampleScratch sampleRate).S.F
              (sampleGlobals.N + 1) := by
  refine ⟨sample_hyps, ?_⟩
  rw [derivs_energy_sum sampleEnv sampleGlobals sampleT sampleScratch sampleRate
      sample_hyps.1 sample_hyps.2.1 sample_hyps.2.2.1 sample_hyps.2.2.2.1
      sample_hyps.2.2.2.2.1 sample_hyps.2.2.2.2.2.1 sample_hyps.2.2.2.2.2.2,
    derivs_S_F _ _ _ _ _ sample_hyps.2.2.1 (sampleGlobals.N + 1) (by decide) (by decide),
    derivs_S_F _ _ _ _ _ sample_hyps.2.2.1 1 (by decide) (by decide),
    sample_flux_first, sample_flux_last]
  norm_num

/-- Claim C3. For an interior cell `i` in `1..N`, two temperature vectors that
agree on the interior cells among `i-1, i, i+1` give the same `dTdt[i]` under
`derivs` (whatever the work arrays held); hence overwriting `T[j]` with
`|i-j| >= 2` leaves `dTdt[i]` unchanged. -/
theorem derivs_tridiagonal_dependency (E : Env) (G : Globals) (T T' : Int → ℚ)
    (S S' : Scratch) (d d' : Int → ℚ) (i : Int) (h1 : 1 ≤ i) (h2 : i ≤ G.N)
    (hT : ∀ j, 1 ≤ j → j ≤ G.N → i - 1 ≤ j → j ≤ i + 1 → T j = T' j) :
    (derivs E G T S d).dTdt i = (derivs E G T' S' d').dTdt i
      ∧ ∀ (j : Int) (x : ℚ), 2 ≤ |i - j| →
          (derivs E G (Function.update T j x) S d).dTdt i = (derivs E G T S d).dTdt i := by
  refine ⟨?_, ?_⟩
  · rw [derivs_dTdt_rhsCell E G T S d i h1 h2, derivs_dTdt_rhsCell E G T' S' d' i h1 h2]
    exact rhsCell_congr E G T T' i h1 h2 hT
  · intro j x hj
    rw [derivs_dTdt_rhsCell E G _ S d i h1 h2, derivs_dTdt_rhsCell E G T S d i h1 h2]
    apply rhsCell_congr E G _ T i h1 h2
    intro k _ _ hk1 hk2
    have hne : k ≠ j := by
      intro hkj
      subst hkj
      have : |i - k| ≤ 1 := abs_le.2 ⟨by omega, by omega⟩
      omega
    exact Function.update_noteq hne x T

theorem derivs_tridiagonal_dependency_witness :
    ((1 : Int) ≤ 2 ∧ (2 : Int) ≤ sampleGlobals.N)
      ∧ (derivs sampleEnv sampleGlobals sampleT sampleScratch sampleRate).dTdt 2
          = (derivs sampleEnv sampleGlobals sampleT2 sampleScratch sampleRate).dTdt 2 :=
  ⟨⟨by decide, by decide⟩,
    (derivs_tridiagonal_dependency sampleEnv sampleGlobals sampleT sampleT2 sampleScratch
      sampleScratch sampleRate sampleRate 2 (by decide) (by decide)
      (fun j hj1 hj2 _ _ => by
        have h3 : j ≤ 3 := hj2
        simp [sampleT, sampleT2, hj1, h3])).1⟩

/-- Claim C4. For `n >= 2`, `jacobn` writes only entries `dfdT[i][j]` with
`1 <= i <= n-1`, `|i-j| <= 1` and `j >= 1`: every other entry keeps the value it
had on entry, in particular all of row `n` and entry `(1,0)`; so on a pre-zeroed
matrix every off-tridiagonal entry is zero on return. -/
theorem jacobn_frame (E : Env) (G : Globals) (t : ℚ) (T : Int → ℚ) (S : Scratch)
    (dfdt : Int → ℚ) (dfdT : Int → Int → ℚ) (n : Int) (hn : 2 ≤ n) :
    (∀ r c, ¬ (1 ≤ r ∧ r ≤ n - 1 ∧ |r - c| ≤ 1 ∧ 1 ≤ c) →
        (jacobn E G t T S dfdt dfdT n).dfdT r c = dfdT r c)
      ∧ (∀ c, (jacobn E G t T S dfdt dfdT n).dfdT n c = dfdT n c)
      ∧ (jacobn E G t T S dfdt dfdT n).dfdT 1 0 = dfdT 1 0
      ∧ ((∀ r c, dfdT r c = 0) →
          ∀ r c, 1 < |r - c| → (jacobn E G t T S dfdt dfdT n).dfdT r c = 0) := by
  have key : ∀ r c, ¬ (1 ≤ r ∧ r ≤ n - 1 ∧ |r - c| ≤ 1 ∧ 1 ≤ c) →
      (jacobn E G t T S dfdt dfdT n).dfdT r c = dfdT r c := by
    intro r c h
    apply jacobn_dfdT_other E G t T S dfdt dfdT n hn r c
    intro h'
    apply h
    refine ⟨h'.1, h'.2.1, abs_le.2 ⟨by omega, by omega⟩, h'.2.2.2.2⟩
  refine ⟨key, ?_, ?_, ?_⟩
  · intro c
    exact key n c (fun h => by omega)
  · exact key 1 0 (fun h => by omega)
  · intro hz r c hrc
    rw [key r c (fun h => by have := h.2.2.1; omega)]
    exact hz r c

theorem jacobn_frame_witness :
    (2 : Int) ≤ 4
      ∧ (jacobn sampleEnv sampleGlobals 0 sampleT sampleScratch sampleRate (fun _ _ => 0) 4).dfdT
          1 0 = 0 :=
  ⟨by decide,
    (jacobn_frame sampleEnv sampleGlobals 0 sampleT sampleScratch sampleRate (fun _ _ => 0) 4
      (by decide)).2.2.1⟩

/-- Claim C5. For every temperature vector (ghost entries and work arrays
arbitrary) and every interior cell `i` in `1..N`, the single-cell routine
`dTdt(i,T)` returns the value that `derivs` stores in `dTdt[i]`. -/
theorem dTdt_eq_derivs (E : Env) (G : Globals) (T : Int → ℚ) (S S' : Scratch)
    (d : Int → ℚ) (i : Int) (h1 : 1 ≤ i) (h2 : i ≤ G.N) :
    (dTdt E G i T S).f = (derivs E G T S' d).dTdt i := by
  rw [dTdt_f_rhsCell E G i T S h1 h2, derivs_dTdt_rhsCell E G T S' d i h1 h2]

theorem dTdt_eq_derivs_witness :
    ((1 : Int) ≤ 3 ∧ (3 : Int) ≤ sampleGlobals.N)
      ∧ (dTdt sampleEnv sampleGlobals 3 sampleT sampleScratch).f
          = (derivs sampleEnv sampleGlobals sampleT sampleScratch sampleRate).dTdt 3 :=
  ⟨⟨by decide, by decide⟩,
    dTdt_eq_derivs sampleEnv sampleGlobals sampleT sampleScratch sampleScratch sampleRate 3
      (by decide) (by decide)⟩

/-- Claim C6. Called with `n = N+1` and with `dfdt` the base derivative vector
(the values `derivs` stores in `dTdt[1..N]` for the same temperatures), for every
row `i` in `1..N` and every column `j` in `{i-1, i, i+1}` with `1 <= j <= N+1` and
`T[j] != 0`, `jacobn` stores `dfdT[i][j] = (dTdt(i, T with T[j] replaced by
1.01*T[j]) - dfdt[i]) / (0.01*T[j])`, with `T[j]` the value on entry. -/
theorem jacobn_band_entry (E : Env) (G : Globals) (t : ℚ) (T : Int → ℚ) (S S0 : Scratch)
    (d0 dfdt : Int → ℚ) (dfdT : Int → Int → ℚ) (i j : Int) (h1 : 1 ≤ i) (h2 : i ≤ G.N)
    (hj : j = i - 1 ∨ j = i ∨ j = i + 1) (hj1 : 1 ≤ j) (hj2 : j ≤ G.N + 1) (_hT : T j ≠ 0)
    (hbase : ∀ r, 1 ≤ r → r ≤ G.N → dfdt r = (derivs E G T S0 d0).dTdt r) :
    (jacobn E G t T S dfdt dfdT (G.N + 1)).dfdT i j
      = ((dTdt E G i (Function.update T j (1.01 * T j)) S).f - dfdt i) / (0.01 * T j) := by
  rw [jacobn_entry E G t T S S dfdt dfdT i j h1 h2 hj1 (by omega) (by omega)]
  unfold jacStored fdQuotient
  by_cases hc : j ≤ G.N
  · rw [if_pos hc]
  · have e : (dTdt E G i (Function.update T j (1.01 * T j)) S).f = (dTdt E G i T S).f := by
      rw [dTdt_f_rhsCell E G i _ S h1 h2, dTdt_f_rhsCell E G i T S h1 h2]
      apply rhsCell_congr E G _ T i h1 h2
      intro k _ hk2 _ _
      exact Function.update_noteq (by omega) _ T
    have hb : dfdt i = (dTdt E G i T S).f := by
      rw [hbase i h1 h2, derivs_dTdt_rhsCell E G T S0 d0 i h1 h2,
        dTdt_f_rhsCell E G i T S h1 h2]
    rw [if_neg hc, e, hb, sub_self, zero_div, zero_div]

theorem jacobn_band_entry_witness :
    ((1 : Int) ≤ 3 ∧ (3 : Int) ≤ sampleGlobals.N
        ∧ ((4 : Int) = 3 - 1 ∨ (4 : Int) = 3 ∨ (4 : Int) = 3 + 1)
        ∧ (1 : Int) ≤ 4 ∧ (4 : Int) ≤ sampleGlobals.N + 1 ∧ sampleT 4 ≠ 0
        ∧ (∀ r, 1 ≤ r → r ≤ sampleGlobals.N →
            (derivs sampleEnv sampleGlobals sampleT sampleScratch sampleRate).dTdt r
              = (derivs sampleEnv sampleGlobals sampleT sampleScratch sampleRate).dTdt r))
      ∧ (jacobn sampleEnv sampleGlobals 0 sampleT sampleScratch
            (derivs sampleEnv sampleGlobals sampleT sampleScratch sampleRate).dTdt
            (fun _ _ => 0) (sampleGlobals.N + 1)).dfdT 3 4
          = ((dTdt sampleEnv sampleGlobals 3 (Function.update sampleT 4 (1.01 * sampleT 4))
                sampleScratch).f
              - (derivs sampleEnv sampleGlobals sampleT sampleScratch sampleRate).dTdt 3)
            / (0.01 * sampleT 4) :=
  ⟨⟨by decide, by decide, by decide, by decide, by decide, by norm_num [sampleT],
      fun _ _ _ => rfl⟩,
    jacobn_band_entry sampleEnv sampleGlobals 0 sampleT sampleScratch sampleScratch sampleRate
      (derivs sampleEnv sampleGlobals sampleT sampleScratch sampleRate).dTdt
      (fun _ _ => 0) 3 4 (by decide) (by decide) (by decide) (by decide) (by decide)
      (by norm_num [sampleT]) (fun _ _ _ => rfl)⟩

/-- Claim C8. With `log10` monotone on the nonnegative temperatures, every
temperature above the one with `log10 = betamax` yields the outputs of that
temperature, and every temperature `0 <= T` below the one with `log10 = betamin`
yields the outputs of that temperature. -/
theorem calculate_vars_clamp (E : Env) (G : Globals) (i : Int) (T Thi Tlo P : ℚ)
    (hmono : ∀ a b : ℚ, 0 ≤ a → a ≤ b → E.log10 a ≤ E.log10 b)
    (hhi0 : 0 ≤ Thi) (hhi : E.log10 Thi = G.betamax)
    (hlo0 : 0 ≤ Tlo) (hlo : E.log10 Tlo = G.betamin) :
    (Thi < T → calculate_vars E G i (some T) P = calculate_vars E G i (some Thi) P)
      ∧ (0 ≤ T → T < Tlo →
          calculate_vars E G i (some T) P = calculate_vars E G i (some Tlo) P) := by
  refine ⟨?_, ?_⟩
  · intro h
    apply calculate_vars_congr_beta
    rw [safeT_some_nonneg T (by linarith), safeT_some_nonneg Thi hhi0, hhi]
    apply clampBeta_of_ge
    rw [← hhi]
    exact hmono Thi T hhi0 h.le
  · intro h0 h
    apply calculate_vars_congr_beta
    rw [safeT_some_nonneg T h0, safeT_some_nonneg Tlo hlo0, hlo,
      clampBeta_of_le G G.betamin (le_refl _)]
    apply clampBeta_of_le
    rw [← hlo]
    exact hmono T Tlo h0 h.le

theorem calculate_vars_clamp_witness :
    ((∀ a b : ℚ, 0 ≤ a → a ≤ b → sampleEnv.log10 a ≤ sampleEnv.log10 b)
        ∧ (0 : ℚ) ≤ 10 ∧ sampleEnv.log10 10 = sampleVarying.betamax
        ∧ (0 : ℚ) ≤ 6.5 ∧ sampleEnv.log10 6.5 = sampleVarying.betamin
        ∧ (10 : ℚ) < 11 ∧ (0 : ℚ) ≤ 1 ∧ (1 : ℚ) < 6.5)
      ∧ calculate_vars sampleEnv sampleVarying 2 (some 11) 1
          = calculate_vars sampleEnv sampleVarying 2 (some 10) 1
      ∧ calculate_vars sampleEnv sampleVarying 2 (some 1) 1
          = calculate_vars sampleEnv sampleVarying 2 (some 6.5) 1 :=
  ⟨⟨sampleEnv_log10_mono, by norm_num, rfl, by norm_num, rfl, by norm_num, by norm_num,
      by norm_num⟩,
    (calculate_vars_clamp sampleEnv sampleVarying 2 11 10 6.5 1 sampleEnv_log10_mono
      (by norm_num) rfl (by norm_num) rfl).1 (by norm_num),
    (calculate_vars_clamp sampleEnv sampleVarying 2 1 10 6.5 1 sampleEnv_log10_mono
      (by norm_num) rfl (by norm_num) rfl).2 (by norm_num) (by norm_num)⟩

/-- Claim C9. In `calculate_vars`, with `K0`, `K1`, `kappa` the values interpolated
from `K0_grid`, `K1_grid`, `KAPPA_grid` and `Q` the impurity parameter the routine
selects, the returned conductivity is the blend `g*K0*K1/(K0*Q + (1-Q)*K1)` plus the
radiative term `kappa*g` (times the magnetic factor when `B > 0`); and for positive
`K0`, `K1` and `Q` in `[0,1]` this blend lies between `g*K0` and `g*K1` (inclusive),
is `g*K0` at `Q = 0` and `g*K1` at `Q = 1`. -/
theorem calculate_vars_conductivity_blend (E : Env) (G : Globals) (i : Int) (T : Option ℚ)
    (P K0 K1 kappa Q : ℚ)
    (hK0 : interp G.K0_grid i (lookup_j E G T) (lookup_interpfac E G T) = K0)
    (hK1 : interp G.K1_grid i (lookup_j E G T) (lookup_interpfac E G T) = K1)
    (hkappa : interp G.KAPPA_grid i (lookup_j E G T) (lookup_interpfac E G T) = kappa)
    (hQ : Qval E G i = Q)
    (h0 : 0 < K0) (h1 : 0 < K1) (hQ0 : 0 ≤ Q) (hQ1 : Q ≤ 1) :
    (¬ E.B > 0 →
        (calculate_vars E G i T P).K
          = G.g * K0 * K1 / (K0 * Q + (1 - Q) * K1) + kappa * G.g)
      ∧ (E.B > 0 → G.angle_mu ≥ 0 →
        (calculate_vars E G i T P).K
          = (G.g * K0 * K1 / (K0 * Q + (1 - Q) * K1) + kappa * G.g)
            * (4 * G.angle_mu * G.angle_mu / (1 + 3 * G.angle_mu * G.angle_mu)))
      ∧ (E.B > 0 → ¬ G.angle_mu ≥ 0 →
        (calculate_vars E G i T P).K
          = (1 / 2) * (1.0544 * (G.g * K0 * K1 / (K0 * Q + (1 - Q) * K1) + kappa * G.g)
              + 0.9456 * 0))
      ∧ min (G.g * K0) (G.g * K1) ≤ G.g * K0 * K1 / (K0 * Q + (1 - Q) * K1)
      ∧ G.g * K0 * K1 / (K0 * Q + (1 - Q) * K1) ≤ max (G.g * K0) (G.g * K1)
      ∧ (Q = 0 → G.g * K0 * K1 / (K0 * Q + (1 - Q) * K1) = G.g * K0)
      ∧ (Q = 1 → G.g * K0 * K1 / (K0 * Q + (1 - Q) * K1) = G.g * K1) := by
  obtain ⟨b1, b2, b3, b4⟩ := KKblend_bounds G.g K0 K1 Q h0 h1 hQ0 hQ1
  have hK := calculate_vars_K E G i T P
  rw [hK0, hK1, hkappa] at hK
  refine ⟨?_, ?_, ?_, b1, b2, ?_, ?_⟩
  · intro hB
    rw [hK]
    unfold conductivity
    dsimp only
    rw [if_neg hB, hQ]; rfl
  · intro hB hmu
    rw [hK]
    unfold conductivity
    dsimp only
    rw [if_pos hB, if_pos hmu, hQ]; rfl
  · intro hB hmu
    rw [hK]
    unfold conductivity
    dsimp only
    rw [if_pos hB, if_neg hmu, hQ]; rfl
  · intro hq; subst hq; exact b3
  · intro hq; subst hq; exact b4

theorem calculate_vars_conductivity_blend_witness :
    (interp sampleBlend.K0_grid 2 (lookup_j decadeEnv sampleBlend (some 1e7))
          (lookup_interpfac decadeEnv sampleBlend (some 1e7)) = 134 / 7
        ∧ interp sampleBlend.K1_grid 2 (lookup_j decadeEnv sampleBlend (some 1e7))
          (lookup_interpfac decadeEnv sampleBlend (some 1e7)) = 247 / 7
        ∧ interp sampleBlend.KAPPA_grid 2 (lookup_j decadeEnv sampleBlend (some 1e7))
          (lookup_interpfac decadeEnv sampleBlend (some 1e7)) = 155 / 7
        ∧ Qval decadeEnv sampleBlend 2 = 1 / 2
        ∧ (0 : ℚ) < 134 / 7 ∧ (0 : ℚ) < 247 / 7 ∧ (0 : ℚ) ≤ 1 / 2 ∧ (1 / 2 : ℚ) ≤ 1
        ∧ ¬ decadeEnv.B > 0)
      ∧ (calculate_vars decadeEnv sampleBlend 2 (some 1e7) 1).K
          = sampleBlend.g * (134 / 7) * (247 / 7)
              / (134 / 7 * (1 / 2) + (1 - 1 / 2) * (247 / 7))
            + 155 / 7 * sampleBlend.g := by
  obtain ⟨hj, hf⟩ := decade_lookup_floor sampleBlend (by norm_num [sampleBlend, sampleVarying, sampleGlobals])
    (by norm_num [sampleBlend, sampleVarying, sampleGlobals])
    (by norm_num [sampleBlend, sampleVarying, sampleGlobals])
  have e0 : interp sampleBlend.K0_grid 2 (lookup_j decadeEnv sampleBlend (some 1e7))
      (lookup_interpfac decadeEnv sampleBlend (some 1e7)) = 134 / 7 := by
    rw [hj, hf]; norm_num [interp, sampleBlend, sampleVarying]
  have e1 : interp sampleBlend.K1_grid 2 (lookup_j decadeEnv sampleBlend (some 1e7))
      (lookup_interpfac decadeEnv sampleBlend (some 1e7)) = 247 / 7 := by
    rw [hj, hf]; norm_num [interp, sampleBlend, sampleVarying]
  have e2 : interp sampleBlend.KAPPA_grid 2 (lookup_j decadeEnv sampleBlend (some 1e7))
      (lookup_interpfac decadeEnv sampleBlend (some 1e7)) = 155 / 7 := by
    rw [hj, hf]; norm_num [interp, sampleBlend, sampleVarying]
  have eQ : Qval decadeEnv sampleBlend 2 = 1 / 2 := by
    norm_num [Qval, sampleBlend]
  have hB : ¬ decadeEnv.B > 0 := by norm_num [decadeEnv, sampleEnv]
  exact ⟨⟨e0, e1, e2, eQ, by norm_num, by norm_num, by norm_num, by norm_num, hB⟩,
    (calculate_vars_conductivity_blend decadeEnv sampleBlend 2 (some 1e7) 1 _ _ _ _ e0 e1 e2 eQ
      (by norm_num) (by norm_num) (by norm_num) (by norm_num)).1 hB⟩

/-- Claim C10 (amended). Whenever the surface Fourier-law gate of
`calculate_heat_flux` is closed, that is not (`accreting` on and
`outburst_duration > 1/365` and `force_cooling_bc` off), and no magnetic field is
present (`B = 0`), the outer interface flux `calculate_heat_flux(1,T)` equals
`(g/2.28e14)*TEFF(T[1])`, for every `T`, every conductivity array and every `Tt`. -/
theorem calculate_heat_flux_outer_table (E : Env) (G : Globals) (K T : Int → ℚ)
    (hgate : ¬ (G.accreting ≠ 0 ∧ G.outburst_duration > 1 / 365 ∧ G.force_cooling_bc = 0))
    (hB : E.B = 0) :
    calculate_heat_flux E G K T 1 = (G.g / 2.28e14) * E.TEFF_get (T 1) := by
  unfold calculate_heat_flux
  have h : ¬ ((1 : Int) > 1
      ∨ (G.accreting ≠ 0 ∧ G.outburst_duration > 1 / 365 ∧ G.force_cooling_bc = 0)) := by
    intro h
    rcases h with h | h
    · omega
    · exact hgate h
  rw [if_neg h, if_pos (Or.inl hB)]

theorem calculate_heat_flux_outer_table_witness :
    (¬ (sampleGlobals.accreting ≠ 0 ∧ sampleGlobals.outburst_duration > 1 / 365
          ∧ sampleGlobals.force_cooling_bc = 0) ∧ sampleEnv.B = 0)
      ∧ calculate_heat_flux sampleEnv sampleGlobals sampleScratch.K sampleT 1
          = (sampleGlobals.g / 2.28e14) * sampleEnv.TEFF_get (sampleT 1) :=
  ⟨⟨fun h => h.1 rfl, rfl⟩,
    calculate_heat_flux_outer_table sampleEnv sampleGlobals sampleScratch.K sampleT
      (fun h => h.1 rfl) rfl⟩

/-- Claim C10 as stated fails: with `accreting` on, `Tt = 0` (so the outer boundary
is not in the pinned-temperature regime) and `B = 0`, the outer flux on the
ghost-filled sample grid is the Fourier-law value `16/9`, not the tabulated one. -/
theorem calculate_heat_flux_outer_not_table :
    (¬ (sampleAccreting.accreting ≠ 0 ∧ sampleAccreting.Tt > 0) ∧ sampleEnv.B = 0)
      ∧ calculate_heat_flux sampleEnv sampleAccreting (filledK sampleEnv sampleAccreting sampleT)
          (filledT sampleAccreting sampleT) 1
        ≠ (sampleAccreting.g / 2.28e14)
            * sampleEnv.TEFF_get (filledT sampleAccreting sampleT 1) := by
  refine ⟨⟨fun h => ?_, rfl⟩, ?_⟩
  · have := h.2
    simp [sampleAccreting, sampleGlobals] at this
  · have e : calculate_heat_flux sampleEnv sampleAccreting
        (filledK sampleEnv sampleAccreting sampleT) (filledT sampleAccreting sampleT) 1
        = 16 / 9 := by
      simp [calculate_heat_flux, filledK, filledT, ghostT0, sampleAccreting_cellVars,
        Function.update_apply]
      simp [sampleAccreting, sampleGlobals, sampleT]
      norm_num
    rw [e]
    simp [filledT, Function.update_apply, sampleAccreting, sampleGlobals, sampleEnv, sampleT]
    norm_num

/-- Claim C11. `outer_boundary` sets the ghost temperature to `Tt` when `accreting`
is on and `Tt > 0`, and to `T1*(8-dx)/(8+dx)` otherwise; in the second case, for
`T1 > 0` and `0 < dx < 8`, the ghost temperature lies strictly between `0` and `T1`. -/
theorem outer_boundary_ghost_temperature (G : Globals) (T1 K1 CP1 NU1 EPS1 : ℚ)
    (out : Ghost) :
    (G.accreting ≠ 0 ∧ G.Tt > 0 →
        (outer_boundary G T1 K1 CP1 NU1 EPS1 out).T = G.Tt)
      ∧ (¬ (G.accreting ≠ 0 ∧ G.Tt > 0) →
          (outer_boundary G T1 K1 CP1 NU1 EPS1 out).T = T1 * (8 - G.dx) / (8 + G.dx))
      ∧ (¬ (G.accreting ≠ 0 ∧ G.Tt > 0) → 0 < T1 → 0 < G.dx → G.dx < 8 →
          0 < (outer_boundary G T1 K1 CP1 NU1 EPS1 out).T
            ∧ (outer_boundary G T1 K1 CP1 NU1 EPS1 out).T < T1) := by
  refine ⟨fun h => ?_, fun h => ?_, fun h hT hd0 hd8 => ?_⟩
  · show (if G.accreting ≠ 0 ∧ G.Tt > 0 then G.Tt else T1 * (8 - G.dx) / (8 + G.dx)) = G.Tt
    rw [if_pos h]
  · show (if G.accreting ≠ 0 ∧ G.Tt > 0 then G.Tt else T1 * (8 - G.dx) / (8 + G.dx)) = _
    rw [if_neg h]
  · have e : (outer_boundary G T1 K1 CP1 NU1 EPS1 out).T = T1 * (8 - G.dx) / (8 + G.dx) := by
      show (if G.accreting ≠ 0 ∧ G.Tt > 0 then G.Tt else T1 * (8 - G.dx) / (8 + G.dx)) = _
      rw [if_neg h]
    have hden : 0 < 8 + G.dx := by linarith
    rw [e]
    constructor
    · exact div_pos (mul_pos hT (by linarith)) hden
    · rw [div_lt_iff₀ hden]
      nlinarith

theorem outer_boundary_ghost_temperature_witness :
    ((samplePinned.accreting ≠ 0 ∧ samplePinned.Tt > 0)
        ∧ ¬ (sampleGlobals.accreting ≠ 0 ∧ sampleGlobals.Tt > 0)
        ∧ (0 : ℚ) < 8 ∧ 0 < sampleGlobals.dx ∧ sampleGlobals.dx < 8)
      ∧ (outer_boundary samplePinned 8 1 1 0 0 (loadGhost 0 ⟨sampleT, sampleScratch⟩)).T = 5
      ∧ (0 < (outer_boundary sampleGlobals 8 1 1 0 0 (loadGhost 0 ⟨sampleT, sampleScratch⟩)).T
          ∧ (outer_boundary sampleGlobals 8 1 1 0 0 (loadGhost 0 ⟨sampleT, sampleScratch⟩)).T
              < 8) :=
  ⟨⟨⟨by decide, by norm_num [samplePinned]⟩, fun h => h.1 rfl, by norm_num,
      by norm_num [sampleGlobals], by norm_num [sampleGlobals]⟩,
    (outer_boundary_ghost_temperature samplePinned 8 1 1 0 0
      (loadGhost 0 ⟨sampleT, sampleScratch⟩)).1 ⟨by decide, by norm_num [samplePinned]⟩,
    (outer_boundary_ghost_temperature sampleGlobals 8 1 1 0 0
      (loadGhost 0 ⟨sampleT, sampleScratch⟩)).2.2 (fun h => h.1 rfl) (by norm_num)
      (by norm_num [sampleGlobals]) (by norm_num [sampleGlobals])⟩

/-- Claim C12 (evaluation at the failing input). With `nuflag` on and `accreting`
off, `inner_boundary` called with `NUN = 3`, `EPSN = 4` on output slots whose
heating slot holds `7` returns the neutrino value `0` and leaves the heating slot
at `7`, while `outer_boundary` on the same input returns the neutrino value `3`
and the heating value `0`. -/
theorem inner_boundary_cooling_ghost :
    (sampleVarying.nuflag ≠ 0 ∧ sampleVarying.accreting = 0)
      ∧ inner_boundary sampleVarying 10 2 1 3 4 { T := 0, K := 0, CP := 0, NU := 0, EPS := 7 }
          = { T := 2, K := 2, CP := 1, NU := 0, EPS := 7 }
      ∧ outer_boundary sampleVarying 10 2 1 3 4 { T := 0, K := 0, CP := 0, NU := 0, EPS := 7 }
          = { T := 70 / 9, K := 2, CP := 1, NU := 3, EPS := 0 } := by
  refine ⟨⟨by decide, rfl⟩, ?_, ?_⟩
  · simp [inner_boundary, sampleVarying, sampleGlobals]
  · simp [outer_boundary, sampleVarying, sampleGlobals]
    norm_num

/-- Claim C13. For a grid with `N >= 1` and two temperature vectors that agree on
`T[1..N]` (ghost entries `T[0]`, `T[N+1]` and work arrays arbitrary), `derivs`
produces the same derivatives `dTdt[1..N+1]` and leaves the same ghost
temperatures, with `T[N+1] = Tc`. -/
theorem derivs_ghost_independent (E : Env) (G : Globals) (T T' : Int → ℚ) (S S' : Scratch)
    (d d' : Int → ℚ) (hN : 1 ≤ G.N) (hT : ∀ j, 1 ≤ j → j ≤ G.N → T j = T' j) :
    (∀ j, 1 ≤ j → j ≤ G.N + 1 →
        (derivs E G T S d).dTdt j = (derivs E G T' S' d').dTdt j)
      ∧ (derivs E G T S d).T 0 = (derivs E G T' S' d').T 0
      ∧ (derivs E G T S d).T (G.N + 1) = (derivs E G T' S' d').T (G.N + 1)
      ∧ (derivs E G T S d).T (G.N + 1) = G.Tc := by
  have hTc : ∀ (U : Int → ℚ) (W : Scratch) (e : Int → ℚ),
      (derivs E G U W e).T (G.N + 1) = G.Tc := by
    intro U W e
    rw [derivs_T]; unfold filledT; rw [Function.update_same]
  refine ⟨?_, ?_, ?_, hTc T S d⟩
  · intro j hj1 hj2
    by_cases a : j = G.N + 1
    · rw [derivs_dTdt_apply, derivs_dTdt_apply, if_pos a, if_pos a]
    · rw [derivs_dTdt_rhsCell E G T S d j hj1 (by omega),
        derivs_dTdt_rhsCell E G T' S' d' j hj1 (by omega)]
      exact rhsCell_congr E G T T' j hj1 (by omega) (fun k a b _ _ => hT k a b)
  · rw [derivs_T, derivs_T]
    have h0 : (0 : Int) ≠ G.N + 1 := by omega
    unfold filledT
    simp only [Function.update_apply]
    rw [if_neg h0, if_neg h0, if_pos trivial, if_pos trivial, hT 1 (le_refl _) hN]
  · rw [hTc T S d, hTc T' S' d']

theorem derivs_ghost_independent_witness :
    ((1 : Int) ≤ sampleGlobals.N ∧ ∀ j, 1 ≤ j → j ≤ sampleGlobals.N → sampleT j = sampleT2 j)
      ∧ (derivs sampleEnv sampleGlobals sampleT sampleScratch sampleRate).T 0
          = (derivs sampleEnv sampleGlobals sampleT2 sampleScratch sampleBase).T 0
      ∧ (derivs sampleEnv sampleGlobals sampleT sampleScratch sampleRate).T
          (sampleGlobals.N + 1) = sampleGlobals.Tc :=
  ⟨⟨by decide, fun j hj1 hj2 => by
      have h3 : j ≤ 3 := hj2
      simp [sampleT, sampleT2, hj1, h3]⟩,
    (derivs_ghost_independent sampleEnv sampleGlobals sampleT sampleT2 sampleScratch
      sampleScratch sampleRate sampleBase (by decide) (fun j hj1 hj2 => by
        have h3 : j ≤ 3 := hj2
        simp [sampleT, sampleT2, hj1, h3])).2.1,
    (derivs_ghost_independent sampleEnv sampleGlobals sampleT sampleT2 sampleScratch
      sampleScratch sampleRate sampleBase (by decide) (fun j hj1 hj2 => by
        have h3 : j ≤ 3 := hj2
        simp [sampleT, sampleT2, hj1, h3])).2.2.2⟩

/-- Claim C14. The heating rate returned by `calculate_vars` is the same for every
pair of temperatures (NaN included); it is `EPS_grid[i][1]*mdot*g` when
`accreting` is on and `0` when it is off; the neutrino rate is `0` whenever
`nuflag` is off. -/
theorem calculate_vars_toggles (E : Env) (G : Globals) (i : Int) (T T' : Option ℚ)
    (P P' : ℚ) :
    (calculate_vars E G i T P).EPS = (calculate_vars E G i T' P').EPS
      ∧ (G.accreting ≠ 0 → (calculate_vars E G i T P).EPS = G.EPS_grid i 1 * G.mdot * G.g)
      ∧ (G.accreting = 0 → (calculate_vars E G i T P).EPS = 0)
      ∧ (G.nuflag = 0 → (calculate_vars E G i T P).NU = 0) := by
  refine ⟨rfl, fun h => ?_, fun h => ?_, fun h => ?_⟩
  · show (if G.accreting ≠ 0 then G.EPS_grid i 1 * G.mdot * G.g else 0) = _
    rw [if_pos h]
  · show (if G.accreting ≠ 0 then G.EPS_grid i 1 * G.mdot * G.g else 0) = _
    rw [if_neg (by simp [h])]
  · simp only [calculate_vars]
    rw [if_neg (by simp [h])]

theorem calculate_vars_toggles_witness :
    (sampleAccreting.accreting ≠ 0 ∧ sampleGlobals.accreting = 0 ∧ sampleGlobals.nuflag = 0)
      ∧ (calculate_vars sampleEnv sampleAccreting 2 (some 8) 1).EPS
          = sampleAccreting.EPS_grid 2 1 * sampleAccreting.mdot * sampleAccreting.g
      ∧ (calculate_vars sampleEnv sampleGlobals 2 none 1).EPS = 0
      ∧ (calculate_vars sampleEnv sampleGlobals 2 (some 8) 1).NU = 0 :=
  ⟨⟨by decide, rfl, rfl⟩,
    (calculate_vars_toggles sampleEnv sampleAccreting 2 (some 8) none 1 1).2.1 (by decide),
    (calculate_vars_toggles sampleEnv sampleGlobals 2 none none 1 1).2.2.1 rfl,
    (calculate_vars_toggles sampleEnv sampleGlobals 2 (some 8) none 1 1).2.2.2 rfl⟩

/-- Claim C15 (evaluation at the failing input). Short-burst regime, real `exp` and
`log`, three cells `P[i] = exp(i-2)` with `dx = 1` tiling log-pressure, heating
window `[0.9, 1.1]` strictly inside cell `2`: `crust_heating` is `0` in every cell,
although `eps_heat` is nonzero and the window has log-pressure length
`ln(1.1/0.9) > 0`. -/
theorem crust_heating_narrow_window_lost :
    ((sampleSetup ℝ).outburst_duration < 1 / 365
        ∧ Real.exp ((2 : ℝ) - 2) * Real.exp (-0.5 * (sampleSetup ℝ).dx)
            < (sampleSetup ℝ).heating_P1
        ∧ (sampleSetup ℝ).heating_P1 < (sampleSetup ℝ).heating_P2
        ∧ (sampleSetup ℝ).heating_P2
            < Real.exp ((2 : ℝ) - 2) * Real.exp (0.5 * (sampleSetup ℝ).dx))
      ∧ (∀ i : Int, 1 ≤ i → i ≤ 3 →
          crust_heating ⟨Real.exp, Real.log, Real.logb 10, fun x y => x ^ y⟩
            (tiledSetup ℝ (fun i => Real.exp ((i : ℝ) - 2))) i = 0)
      ∧ (∀ i : Int, eps_heat (tiledSetup ℝ (fun i => Real.exp ((i : ℝ) - 2))) i ≠ 0)
      ∧ 0 < Real.log ((sampleSetup ℝ).heating_P2 / (sampleSetup ℝ).heating_P1) := by
  obtain ⟨hlo, hhi⟩ := exp_half_bounds
  have e0 : Real.exp ((2 : ℝ) - 2) = 1 := by norm_num
  have em : Real.exp (-0.5 * (sampleSetup ℝ).dx) = Real.exp (-(1 / 2)) := by
    congr 1; norm_num [sampleSetup]
  have ep : Real.exp (0.5 * (sampleSetup ℝ).dx) = Real.exp (1 / 2) := by
    congr 1; norm_num [sampleSetup]
  have hshort : (sampleSetup ℝ).outburst_duration < 1 / 365 := by norm_num [sampleSetup]
  have hP1 : (sampleSetup ℝ).heating_P1 = 0.9 := rfl
  have hP2 : (sampleSetup ℝ).heating_P2 = 1.1 := rfl
  refine ⟨⟨hshort, ?_, ?_, ?_⟩, ?_, ?_, ?_⟩
  · rw [e0, em, hP1]; norm_num; linarith
  · rw [hP1, hP2]; norm_num
  · rw [e0, ep, hP2]; norm_num; linarith
  · intro i h1 h3
    have hcases : i = 1 ∨ i = 2 ∨ i = 3 := by omega
    rcases hcases with h | h | h
    · subst h
      have a1 : Real.exp (((1 : Int) : ℝ) - 2) * Real.exp (1 / 2) = Real.exp (-(1 / 2)) := by
        rw [← Real.exp_add]; congr 1; norm_num
      have a2 : Real.exp (((1 : Int) : ℝ) - 2) * Real.exp (-(1 / 2))
          ≤ Real.exp (-(1 / 2)) := by
        rw [← Real.exp_add]; apply Real.exp_le_exp.2; norm_num
      refine crust_heating_short_zero _ (tiledSetup ℝ (fun i => Real.exp ((i : ℝ) - 2))) _ hshort ?_ ?_ ?_
      · intro h; have := h.1
        show False
        change Real.exp (((1 : Int) : ℝ) - 2) * Real.exp (-0.5 * (sampleSetup ℝ).dx) > 0.9 at this
        rw [em] at this; norm_num at this; norm_num at a2; linarith
      · intro h; have := h.2.2
        change 0.9 < Real.exp (((1 : Int) : ℝ) - 2) * Real.exp (0.5 * (sampleSetup ℝ).dx) at this
        rw [ep, a1] at this; norm_num at this; linarith
      · intro h; have := h.1
        change Real.exp (((1 : Int) : ℝ) - 2) * Real.exp (-0.5 * (sampleSetup ℝ).dx) > 0.9 at this
        rw [em] at this; norm_num at this; norm_num at a2; linarith
    · subst h
      refine crust_heating_window_inside_cell _ (tiledSetup ℝ (fun i => Real.exp ((i : ℝ) - 2))) _ hshort ?_ ?_
      · show Real.exp (((2 : Int) : ℝ) - 2) * Real.exp (-0.5 * (sampleSetup ℝ).dx) < 0.9
        rw [em]; norm_num; linarith
      · show (1.1 : ℝ) < Real.exp (((2 : Int) : ℝ) - 2) * Real.exp (0.5 * (sampleSetup ℝ).dx)
        rw [ep]; norm_num; linarith
    · subst h
      have a1 : Real.exp (((3 : Int) : ℝ) - 2) * Real.exp (-(1 / 2)) = Real.exp (1 / 2) := by
        rw [← Real.exp_add]; congr 1; norm_num
      have a2 : Real.exp (1 / 2)
          ≤ Real.exp (((3 : Int) : ℝ) - 2) * Real.exp (1 / 2) := by
        rw [← Real.exp_add]; apply Real.exp_le_exp.2; norm_num
      refine crust_heating_short_zero _ (tiledSetup ℝ (fun i => Real.exp ((i : ℝ) - 2))) _ hshort ?_ ?_ ?_
      · intro h; have := h.2
        change Real.exp (((3 : Int) : ℝ) - 2) * Real.exp (0.5 * (sampleSetup ℝ).dx) < 1.1 at this
        rw [ep] at this; norm_num at this; norm_num at a2; linarith
      · intro h; have := h.1
        change Real.exp (((3 : Int) : ℝ) - 2) * Real.exp (-0.5 * (sampleSetup ℝ).dx) < 0.9 at this
        rw [em, a1] at this; norm_num at this; linarith
      · intro h; have := h.2.2
        change 1.1 > Real.exp (((3 : Int) : ℝ) - 2) * Real.exp (-0.5 * (sampleSetup ℝ).dx) at this
        rw [em, a1] at this; norm_num at this; linarith
  · intro i
    norm_num [eps_heat, tiledSetup, sampleSetup]
  · apply Real.log_pos
    rw [hP1, hP2]; norm_num

/-- Claim C16. `energy_deposited` returns `energy_deposited_inner*(rho/1e10)^slope`
for `rho > 4e11` and `energy_deposited_outer*(rho/1e10)^slope` for `rho <= 4e11`.
When `pow(., slope)` is continuous from the right at `40`, the value just above the
split density tends to the value at the split plus the jump
`(energy_deposited_inner - energy_deposited_outer)*40^slope`, and for `40^slope`
nonzero the jump is zero exactly when the two normalizations are equal. -/
theorem energy_deposited_split {R : Type} [LinearOrderedField R] (L : Libm R) (H : Setup R)
    (i : Int)
    (hcont : ∀ ε : R, 0 < ε → ∃ δ : R, 0 < δ ∧ ∀ x : R, 40 < x → x < 40 + δ →
      |L.pow x H.energy_slope - L.pow 40 H.energy_slope| < ε)
    (hne : L.pow 40 H.energy_slope ≠ 0) :
    (H.rho i > 4e11 → energy_deposited L H i
        = H.energy_deposited_inner * L.pow (H.rho i / 1e10) H.energy_slope)
      ∧ (H.rho i ≤ 4e11 → energy_deposited L H i
          = H.energy_deposited_outer * L.pow (H.rho i / 1e10) H.energy_slope)
      ∧ (∀ ε : R, 0 < ε → ∃ δ : R, 0 < δ ∧ ∀ r : R, 4e11 < r → r < 4e11 + δ →
          |energy_deposited L { H with rho := fun _ => r } i
              - energy_deposited L { H with rho := fun _ => 4e11 } i
              - (H.energy_deposited_inner - H.energy_deposited_outer)
                  * L.pow 40 H.energy_slope| < ε)
      ∧ ((H.energy_deposited_inner - H.energy_deposited_outer) * L.pow 40 H.energy_slope = 0
          ↔ H.energy_deposited_inner = H.energy_deposited_outer) := by
  refine ⟨fun h => ?_, fun h => ?_, ?_, ?_⟩
  · unfold energy_deposited
    rw [if_pos h]
  · unfold energy_deposited
    rw [if_neg (not_lt.2 h)]
  · intro ε hε
    have hA : 0 < |H.energy_deposited_inner| + 1 := by positivity
    obtain ⟨δ, hδ, hx⟩ := hcont (ε / (|H.energy_deposited_inner| + 1)) (div_pos hε hA)
    refine ⟨δ * 1e10, by positivity, fun r hr1 hr2 => ?_⟩
    have h40 : (4e11 : R) / 1e10 = 40 := by norm_num
    have e1 : energy_deposited L { H with rho := fun _ => r } i
        = H.energy_deposited_inner * L.pow (r / 1e10) H.energy_slope := by
      unfold energy_deposited
      dsimp only
      rw [if_pos hr1]
    have e2 : energy_deposited L { H with rho := fun _ => (4e11 : R) } i
        = H.energy_deposited_outer * L.pow 40 H.energy_slope := by
      unfold energy_deposited
      dsimp only
      rw [if_neg (lt_irrefl _), h40]
    have hlo : (40 : R) < r / 1e10 := by
      rw [lt_div_iff₀ (by norm_num)]
      calc (40 : R) * 1e10 = 4e11 := by norm_num
        _ < r := hr1
    have hhi : r / 1e10 < 40 + δ := by
      rw [div_lt_iff₀ (by norm_num)]
      calc r < 4e11 + δ * 1e10 := hr2
        _ = (40 + δ) * 1e10 := by norm_num; ring
    have hb := hx (r / 1e10) hlo hhi
    rw [e1, e2]
    have e3 : H.energy_deposited_inner * L.pow (r / 1e10) H.energy_slope
        - H.energy_deposited_outer * L.pow 40 H.energy_slope
        - (H.energy_deposited_inner - H.energy_deposited_outer) * L.pow 40 H.energy_slope
        = H.energy_deposited_inner
            * (L.pow (r / 1e10) H.energy_slope - L.pow 40 H.energy_slope) := by ring
    rw [e3, abs_mul]
    calc |H.energy_deposited_inner| * |L.pow (r / 1e10) H.energy_slope - L.pow 40 H.energy_slope|
        ≤ (|H.energy_deposited_inner| + 1)
            * |L.pow (r / 1e10) H.energy_slope - L.pow 40 H.energy_slope| :=
          mul_le_mul_of_nonneg_right (by linarith) (abs_nonneg _)
      _ < (|H.energy_deposited_inner| + 1) * (ε / (|H.energy_deposited_inner| + 1)) :=
          mul_lt_mul_of_pos_left hb hA
      _ = ε := by field_simp
  · constructor
    · intro h
      rcases mul_eq_zero.1 h with h | h
      · exact sub_eq_zero.1 h
      · exact absurd h hne
    · intro h
      rw [h, sub_self, zero_mul]

theorem energy_deposited_split_witness :
    ((∀ ε : ℝ, 0 < ε → ∃ δ : ℝ, 0 < δ ∧ ∀ x : ℝ, 40 < x → x < 40 + δ →
          |(x : ℝ) ^ (sampleSetup ℝ).energy_slope - (40 : ℝ) ^ (sampleSetup ℝ).energy_slope| < ε)
        ∧ (40 : ℝ) ^ (sampleSetup ℝ).energy_slope ≠ 0
        ∧ (sampleSetup ℝ).rho 2 > 4e11)
      ∧ energy_deposited ⟨Real.exp, Real.log, Real.logb 10, fun x y => x ^ y⟩ (sampleSetup ℝ) 2
          = (sampleSetup ℝ).energy_deposited_inner
              * ((sampleSetup ℝ).rho 2 / 1e10) ^ (sampleSetup ℝ).energy_slope :=
  ⟨⟨rpow_right_continuous 40 _ (by norm_num),
      (Real.rpow_pos_of_pos (by norm_num) _).ne',
      by norm_num [sampleSetup]⟩,
    (energy_deposited_split ⟨Real.exp, Real.log, Real.logb 10, fun x y => x ^ y⟩
      (sampleSetup ℝ) 2 (rpow_right_continuous 40 _ (by norm_num))
      (Real.rpow_pos_of_pos (by norm_num) _).ne').1 (by norm_num [sampleSetup])⟩

/-- Claim C17. For `N >= 2` and `0 < Pt < Pb`, with `exp` additive, positive,
strictly increasing and inverse to `log` on the positive numbers, and `log`
positive above `1`: `set_up_grid` sets `dx = log(Pb/Pt)/(N-1)` and
`P[i] = Pt*exp(dx*(i-1))` for `i = 0..N+2`, so `P[1] = Pt`, `P[N] = Pb`,
`P[i+1]/P[i] = exp(dx)` for every `i`, and `P` is strictly increasing on `0..N+2`. -/
theorem set_up_grid_log_uniform {R : Type} [LinearOrderedField R] (L : Libm R) (N : Int)
    (yt : R) (P0 : Int → R) (hN : 2 ≤ N)
    (hPt : 0 < (set_up_grid L N yt P0).Pt)
    (hPb : (set_up_grid L N yt P0).Pt < (set_up_grid L N yt P0).Pb)
    (hadd : ∀ a b : R, L.exp (a + b) = L.exp a * L.exp b)
    (hexplog : ∀ x : R, 0 < x → L.exp (L.log x) = x)
    (hmono : ∀ a b : R, a < b → L.exp a < L.exp b)
    (hpos : ∀ x : R, 0 < L.exp x)
    (hlogpos : ∀ x : R, 1 < x → 0 < L.log x) :
    (set_up_grid L N yt P0).dx
        = L.log ((set_up_grid L N yt P0).Pb / (set_up_grid L N yt P0).Pt) / ((N : R) - 1)
      ∧ (∀ i, 0 ≤ i → i ≤ N + 2 →
          (set_up_grid L N yt P0).P i
            = (set_up_grid L N yt P0).Pt * L.exp ((set_up_grid L N yt P0).dx * ((i : R) - 1)))
      ∧ (set_up_grid L N yt P0).P 1 = (set_up_grid L N yt P0).Pt
      ∧ (set_up_grid L N yt P0).P N = (set_up_grid L N yt P0).Pb
      ∧ (∀ i, 0 ≤ i → i < N + 2 →
          (set_up_grid L N yt P0).P (i + 1) / (set_up_grid L N yt P0).P i
            = L.exp (set_up_grid L N yt P0).dx)
      ∧ (∀ i k, 0 ≤ i → i < k → k ≤ N + 2 →
          (set_up_grid L N yt P0).P i < (set_up_grid L N yt P0).P k) := by
  have hdx : (set_up_grid L N yt P0).dx
      = L.log ((set_up_grid L N yt P0).Pb / (set_up_grid L N yt P0).Pt) / ((N : R) - 1) := by
    show L.log _ / ((N - 1 : Int) : R) = _
    push_cast
    rfl
  have hN1 : (0 : R) < (N : R) - 1 := by
    have : (0 : Int) < N - 1 := by omega
    have h := (Int.cast_pos (R := R)).2 this
    push_cast at h
    exact h
  have hexp0 : L.exp 0 = 1 := by
    have h := hadd 0 0
    rw [add_zero] at h
    have hp := hpos 0
    have : L.exp 0 * (L.exp 0 - 1) = 0 := by
      rw [mul_sub, mul_one, ← h, sub_self]
    rcases mul_eq_zero.1 this with h0 | h0
    · exact absurd h0 hp.ne'
    · exact sub_eq_zero.1 h0
  have hP : ∀ i, 0 ≤ i → i ≤ N + 2 →
      (set_up_grid L N yt P0).P i
        = (set_up_grid L N yt P0).Pt
            * L.exp ((set_up_grid L N yt P0).dx * ((i : R) - 1)) := by
    intro i h0 h1
    rw [set_up_grid_P_apply, if_pos ⟨h0, h1⟩, hadd, hexplog _ hPt]
    push_cast
    rfl
  have hratio : (1 : R) < (set_up_grid L N yt P0).Pb / (set_up_grid L N yt P0).Pt := by
    rw [one_lt_div hPt]; exact hPb
  have hdxpos : 0 < (set_up_grid L N yt P0).dx := by
    rw [hdx]; exact div_pos (hlogpos _ hratio) hN1
  refine ⟨hdx, hP, ?_, ?_, ?_, ?_⟩
  · rw [hP 1 (by omega) (by omega)]
    simp [hexp0]
  · rw [hP N (by omega) (by omega)]
    have e : (set_up_grid L N yt P0).dx * ((N : R) - 1)
        = L.log ((set_up_grid L N yt P0).Pb / (set_up_grid L N yt P0).Pt) := by
      rw [hdx]; field_simp
    rw [e, hexplog _ (lt_trans zero_lt_one hratio)]
    field_simp
  · intro i h0 h1
    rw [hP i h0 (by omega), hP (i + 1) (by omega) (by omega)]
    have e : (set_up_grid L N yt P0).dx * (((i + 1 : Int) : R) - 1)
        = (set_up_grid L N yt P0).dx * ((i : R) - 1) + (set_up_grid L N yt P0).dx := by
      push_cast; ring
    rw [e, hadd]
    have h1 := (hpos ((set_up_grid L N yt P0).dx * ((i : R) - 1))).ne'
    field_simp
    ring
  · intro i k h0 hik hk
    rw [hP i h0 (by omega), hP k (by omega) hk]
    apply mul_lt_mul_of_pos_left _ hPt
    apply hmono
    apply mul_lt_mul_of_pos_left _ hdxpos
    have : (i : R) < (k : R) := by exact_mod_cast hik
    linarith

theorem set_up_grid_log_uniform_witness :
    (((2 : Int) ≤ 3)
        ∧ 0 < (set_up_grid (R := ℝ) ⟨Real.exp, Real.log, Real.logb 10, fun x y => x ^ y⟩ 3
            1e12 (fun _ => 0)).Pt
        ∧ (set_up_grid (R := ℝ) ⟨Real.exp, Real.log, Real.logb 10, fun x y => x ^ y⟩ 3
            1e12 (fun _ => 0)).Pt
          < (set_up_grid (R := ℝ) ⟨Real.exp, Real.log, Real.logb 10, fun x y => x ^ y⟩ 3
            1e12 (fun _ => 0)).Pb
        ∧ (∀ a b : ℝ, Real.exp (a + b) = Real.exp a * Real.exp b)
        ∧ (∀ x : ℝ, 0 < x → Real.exp (Real.log x) = x)
        ∧ (∀ a b : ℝ, a < b → Real.exp a < Real.exp b)
        ∧ (∀ x : ℝ, 0 < Real.exp x)
        ∧ (∀ x : ℝ, 1 < x → 0 < Real.log x))
      ∧ (set_up_grid (R := ℝ) ⟨Real.exp, Real.log, Real.logb 10, fun x y => x ^ y⟩ 3
            1e12 (fun _ => 0)).P 1 = 2.28e26
      ∧ (set_up_grid (R := ℝ) ⟨Real.exp, Real.log, Real.logb 10, fun x y => x ^ y⟩ 3
            1e12 (fun _ => 0)).P 3 = 6.5e32 := by
  have hPt : (set_up_grid (R := ℝ) ⟨Real.exp, Real.log, Real.logb 10, fun x y => x ^ y⟩ 3
      1e12 (fun _ => 0)).Pt = 2.28e26 := by
    show (1e12 : ℝ) * 2.28e14 = 2.28e26
    norm_num
  have hPb : (set_up_grid (R := ℝ) ⟨Real.exp, Real.log, Real.logb 10, fun x y => x ^ y⟩ 3
      1e12 (fun _ => 0)).Pb = 6.5e32 := rfl
  have h := set_up_grid_log_uniform (R := ℝ)
    ⟨Real.exp, Real.log, Real.logb 10, fun x y => x ^ y⟩ 3 1e12 (fun _ => 0) (by decide)
    (by rw [hPt]; norm_num) (by rw [hPt, hPb]; norm_num)
    Real.exp_add (fun x hx => Real.exp_log hx) (fun a b hab => Real.exp_lt_exp.2 hab)
    Real.exp_pos (fun x hx => Real.log_pos hx)
  exact ⟨⟨by decide, by rw [hPt]; norm_num, by rw [hPt, hPb]; norm_num, Real.exp_add,
    fun x hx => Real.exp_log hx, fun a b hab => Real.exp_lt_exp.2 hab, Real.exp_pos,
    fun x hx => Real.log_pos hx⟩, h.2.2.1.trans hPt, h.2.2.2.1.trans hPb⟩

/-- Claim C18. For a NaN temperature and for every negative temperature,
`calculate_vars` returns the outputs it returns for the floor temperature `1e7`. -/
theorem calculate_vars_safe_floor (E : Env) (G : Globals) (i : Int) (t P : ℚ) :
    calculate_vars E G i none P = calculate_vars E G i (some 1e7) P
      ∧ (t < 0 → calculate_vars E G i (some t) P = calculate_vars E G i (some 1e7) P) := by
  have h7 : safeT (some 1e7) = 1e7 := safeT_some_nonneg _ (by norm_num)
  refine ⟨?_, fun ht => ?_⟩
  · apply calculate_vars_congr_beta
    rw [h7]; rfl
  · apply calculate_vars_congr_beta
    rw [h7]
    show clampBeta G (E.log10 (if t < 0 then (1e7 : ℚ) else t)) = _
    rw [if_pos ht]

theorem calculate_vars_safe_floor_witness :
    ((-5 : ℚ) < 0)
      ∧ calculate_vars sampleEnv sampleVarying 2 (some (-5)) 1
          = calculate_vars sampleEnv sampleVarying 2 (some 1e7) 1 :=
  ⟨by norm_num, (calculate_vars_safe_floor sampleEnv sampleVarying 2 (-5) 1).2 (by norm_num)⟩

/-- Claim C19 (evaluation at the failing input). Whatever `>` lines the file has,
and in particular when it has none, `set_up_initial_temperature_profile_piecewise`
does not take its `nvec == 0` exit: it returns an assigned profile, and with no
`>` line `nvec` is `1` or `2`. -/
theorem piecewise_exit_unreachable {R : Type} [LinearOrderedField R] (L : Libm R)
    (H : Setup R) (TC : Int → R → R) (Yn : Int → R) (lines : List (BreakLine R))
    (rhovec0 Tvec0 : Int → R) (p0 : Profile R) :
    set_up_initial_temperature_profile_piecewise L H TC Yn lines rhovec0 Tvec0 p0 ≠ none
      ∧ set_up_initial_temperature_profile_piecewise L H TC Yn [] rhovec0 Tvec0 p0
          = some (forRange 1 (H.N + 1)
              (assignCell L H TC Yn (readBreaks H [] rhovec0 Tvec0)) p0)
      ∧ ((readBreaks H [] rhovec0 Tvec0).i - 1 = 1
          ∨ (readBreaks H [] rhovec0 Tvec0).i - 1 = 2) := by
  have key : ∀ ls : List (BreakLine R),
      set_up_initial_temperature_profile_piecewise L H TC Yn ls rhovec0 Tvec0 p0
        = some (forRange 1 (H.N + 1)
            (assignCell L H TC Yn (readBreaks H ls rhovec0 Tvec0)) p0) := by
    intro ls
    have h := readBreaks_i_ge H ls rhovec0 Tvec0
    unfold set_up_initial_temperature_profile_piecewise
    dsimp only
    rw [if_neg (by omega)]
  refine ⟨?_, key [], ?_⟩
  · rw [key lines]; exact Option.some_ne_none _
  · unfold readBreaks
    dsimp only [List.foldl]
    split_ifs
    · right; show (2 : Int) + 1 - 1 = 2; norm_num
    · left; show (2 : Int) - 1 = 1; norm_num

/-- Claim C20 (amended). With `log10` strictly increasing on the positive numbers,
taking quotients to differences and inverse to `pow(10, .)`: for breakpoint vectors
with positive densities and temperatures and every interior cell `1 < i < N+1` with
`rho[1] < rho[i] <= rhovec[nvec]`, the search stops at the first index `j` with
`rhovec[j] >= rho[i]`, and the temperature `Ti` computed for the cell satisfies
`log10 Ti = log10 Tvec[j-1] + (log10 Tvec[j] - log10 Tvec[j-1])*(log10 rho[i] -
log10 rhovec[j-1])/(log10 rhovec[j] - log10 rhovec[j-1])`, lies between `Tvec[j-1]`
and `Tvec[j]`, and equals `Tvec[j]` when `rho[i] = rhovec[j]`; the routine returns,
and the value it assigns to the cell is `Ti`, except that in output mode a cell with
`Yn > 0` and `Ti > TTC > Tvec[nvec]` is assigned the critical temperature `TTC`;
with no `>` line (densities increasing from cell `1`) every cell is assigned the
core temperature `Tc`. -/
theorem piecewise_profile_loglog {R : Type} [LinearOrderedField R] (L : Libm R) (H : Setup R)
    (TC : Int → R → R) (Yn : Int → R) (lines : List (BreakLine R))
    (rhovec0 Tvec0 : Int → R) (p0 : Profile R) (b : Breaks R)
    (hb : readBreaks H lines rhovec0 Tvec0 = b)
    (hlogpow : ∀ x : R, L.log10 (L.pow 10 x) = x)
    (hpowlog : ∀ x : R, 0 < x → L.pow 10 (L.log10 x) = x)
    (hdiv : ∀ a b : R, 0 < a → 0 < b → L.log10 (a / b) = L.log10 a - L.log10 b)
    (hmono : ∀ a b : R, 0 < a → a < b → L.log10 a < L.log10 b)
    (hpowpos : ∀ x : R, 0 < L.pow 10 x) :
    (∀ i, 1 < i → i < H.N + 1 →
        (∀ k, 1 ≤ k → k ≤ b.i - 1 → 0 < b.rhovec k) →
        (∀ k, 1 ≤ k → k ≤ b.i - 1 → 0 < b.Tvec k) →
        H.rho 1 < H.rho i → H.rho i ≤ b.rhovec (b.i - 1) →
        (2 ≤ breakIndex H b i ∧ breakIndex H b i ≤ b.i - 1
            ∧ H.rho i ≤ b.rhovec (breakIndex H b i)
            ∧ ∀ k, 1 ≤ k → k < breakIndex H b i → b.rhovec k < H.rho i)
          ∧ L.log10 (piecewise_Ti L H b i)
              = L.log10 (b.Tvec (breakIndex H b i - 1))
                + (L.log10 (b.Tvec (breakIndex H b i))
                    - L.log10 (b.Tvec (breakIndex H b i - 1)))
                  * (L.log10 (H.rho i) - L.log10 (b.rhovec (breakIndex H b i - 1)))
                  / (L.log10 (b.rhovec (breakIndex H b i))
                      - L.log10 (b.rhovec (breakIndex H b i - 1)))
          ∧ min (b.Tvec (breakIndex H b i - 1)) (b.Tvec (breakIndex H b i))
              ≤ piecewise_Ti L H b i
          ∧ piecewise_Ti L H b i
              ≤ max (b.Tvec (breakIndex H b i - 1)) (b.Tvec (breakIndex H b i))
          ∧ (H.rho i = b.rhovec (breakIndex H b i) →
              piecewise_Ti L H b i = b.Tvec (breakIndex H b i))
          ∧ (∃ prof,
              set_up_initial_temperature_profile_piecewise L H TC Yn lines rhovec0 Tvec0 p0
                = some prof
              ∧ prof.bc i
                  = if H.output ≠ 0 ∧ Yn i > 0
                        ∧ piecewise_Ti L H b i > TC i (piecewise_Ti L H b i)
                        ∧ TC i (piecewise_Ti L H b i) > b.Tvec (b.i - 1) then
                      TC i (piecewise_Ti L H b i)
                    else piecewise_Ti L H b i))
      ∧ (lines = [] → 0 < H.Tc → (∀ k, 1 < k → k < H.N + 1 → H.rho 1 < H.rho k) →
          ∃ prof,
            set_up_initial_temperature_profile_piecewise L H TC Yn lines rhovec0 Tvec0 p0
              = some prof
            ∧ ∀ c, 1 ≤ c → c ≤ H.N + 1 → prof.bc c = H.Tc) := by
  have hset : set_up_initial_temperature_profile_piecewise L H TC Yn lines rhovec0 Tvec0 p0
      = some (forRange 1 (H.N + 1) (assignCell L H TC Yn b) p0) := by
    have h := readBreaks_i_ge H lines rhovec0 Tvec0
    unfold set_up_initial_temperature_profile_piecewise
    dsimp only
    rw [if_neg (by omega), hb]
  refine ⟨?_, ?_⟩
  · intro i h1 h2 hrpos hTpos hlo hhi
    subst hb
    obtain ⟨j2, jn, jge, jlt⟩ := breakIndex_spec H lines rhovec0 Tvec0 i hlo hhi
    have hr0 := hrpos (breakIndex H (readBreaks H lines rhovec0 Tvec0) i - 1)
      (by omega) (by omega)
    have ha := hTpos (breakIndex H (readBreaks H lines rhovec0 Tvec0) i - 1)
      (by omega) (by omega)
    have hc := hTpos (breakIndex H (readBreaks H lines rhovec0 Tvec0) i) (by omega) jn
    have h01 := jlt (breakIndex H (readBreaks H lines rhovec0 Tvec0) i - 1)
      (by omega) (by omega)
    obtain ⟨m1, m2, m3, m4⟩ := loglog_interp L hlogpow hpowlog hdiv hmono hpowpos _ _ _ _ _
      ha hc hr0 h01 jge
    rw [← piecewise_Ti_interior L H _ i h1 h2] at m1 m2 m3 m4
    refine ⟨⟨j2, jn, jge, jlt⟩, m1, m2, m3, m4, ?_⟩
    refine ⟨_, hset, ?_⟩
    rw [assignLoop_bc, if_pos ⟨by omega, by omega⟩]
    rfl
  · intro hnil hTc hrho
    subst hnil
    subst hb
    refine ⟨_, hset, fun c hc1 hc2 => ?_⟩
    rw [assignLoop_bc, if_pos ⟨hc1, hc2⟩]
    have hTi := piecewise_Ti_nil L H rhovec0 Tvec0 hpowlog hdiv hTc hrho c hc1 hc2
    unfold cellBC
    rw [hTi, (readBreaks_nil H rhovec0 Tvec0).2.1]
    rw [if_neg]
    intro h
    exact absurd h.2.2.2 (not_lt.2 h.2.2.1.le)


theorem piecewise_profile_loglog_witness :
    ((readBreaks (profileSetup ℝ) [{ rho := 30, T := 1000, T2 := none }] (fun _ => 0)
          (fun _ => 0)
        = { rhovec := Function.update (Function.update (fun _ => 0) 1 10) 2 30
            Tvec := Function.update (Function.update (fun _ => 0) 1 10) 2 1000
            i := 3 })
      ∧ (∀ x : ℝ, Real.logb 10 ((10 : ℝ) ^ x) = x)
      ∧ (∀ x : ℝ, 0 < x → (10 : ℝ) ^ Real.logb 10 x = x)
      ∧ (∀ a b : ℝ, 0 < a → 0 < b → Real.logb 10 (a / b) = Real.logb 10 a - Real.logb 10 b)
      ∧ (∀ a b : ℝ, 0 < a → a < b → Real.logb 10 a < Real.logb 10 b)
      ∧ (∀ x : ℝ, 0 < (10 : ℝ) ^ x)
      ∧ ((1 : Int) < 2 ∧ (2 : Int) < (profileSetup ℝ).N + 1)
      ∧ (profileSetup ℝ).rho 1 < (profileSetup ℝ).rho 2
      ∧ (profileSetup ℝ).rho 2 ≤ 30)
    ∧ (10 : ℝ) ≤ piecewise_Ti ⟨Real.exp, Real.log, Real.logb 10, fun x y => x ^ y⟩
          (profileSetup ℝ)
          { rhovec := Function.update (Function.update (fun _ => 0) 1 10) 2 30
            Tvec := Function.update (Function.update (fun _ => 0) 1 10) 2 1000
            i := 3 } 2
    ∧ piecewise_Ti ⟨Real.exp, Real.log, Real.logb 10, fun x y => x ^ y⟩ (profileSetup ℝ)
          { rhovec := Function.update (Function.update (fun _ => 0) 1 10) 2 30
            Tvec := Function.update (Function.update (fun _ => 0) 1 10) 2 1000
            i := 3 } 2 ≤ 1000 := by
  have l1 : ∀ x : ℝ, Real.logb 10 ((10 : ℝ) ^ x) = x :=
    fun x => Real.logb_rpow (by norm_num) (by norm_num)
  have l2 : ∀ x : ℝ, 0 < x → (10 : ℝ) ^ Real.logb 10 x = x :=
    fun x hx => Real.rpow_logb (by norm_num) (by norm_num) hx
  have l3 : ∀ a b : ℝ, 0 < a → 0 < b →
      Real.logb 10 (a / b) = Real.logb 10 a - Real.logb 10 b :=
    fun a b ha hb => Real.logb_div ha.ne' hb.ne'
  have l4 : ∀ a b : ℝ, 0 < a → a < b → Real.logb 10 a < Real.logb 10 b :=
    fun a b ha hab => Real.logb_lt_logb (by norm_num) ha hab
  have l5 : ∀ x : ℝ, 0 < (10 : ℝ) ^ x := fun x => Real.rpow_pos_of_pos (by norm_num) x
  have r1 : (profileSetup ℝ).rho 1 = 10 := by
    show (10 : ℝ) * ((1 : Int) : ℝ) = 10
    norm_num
  have r2 : (profileSetup ℝ).rho 2 = 20 := by
    show (10 : ℝ) * ((2 : Int) : ℝ) = 20
    norm_num
  have hpos : ∀ (f : Int → ℝ), f 1 = 10 → 0 < f 2 →
      ∀ k : Int, 1 ≤ k → k ≤ 3 - 1 → 0 < f k := by
    intro f f1 f2 k k1 k2
    have : k = 1 ∨ k = 2 := by omega
    rcases this with e | e
    · rw [e, f1]; norm_num
    · rw [e]; exact f2
  have h := (piecewise_profile_loglog (R := ℝ)
    ⟨Real.exp, Real.log, Real.logb 10, fun x y => x ^ y⟩ (profileSetup ℝ)
    (fun _ t => t) (fun _ => 0) [{ rho := 30, T := 1000, T2 := none }] (fun _ => 0)
    (fun _ => 0) { Tt := 0, bc := fun _ => 0 } _ profile_breaks l1 l2 l3 l4 l5).1 2
    (by decide) (by decide)
    (hpos _ (by simp [Function.update_apply]) (by simp [Function.update_apply]))
    (hpos _ (by simp [Function.update_apply]) (by simp [Function.update_apply]))
    (by rw [r1, r2]; norm_num)
    (by rw [r2]; simp [Function.update_apply]; norm_num)
  obtain ⟨⟨j2, jn, _, _⟩, _, m2, m3, _, _⟩ := h
  have hJ : breakIndex (profileSetup ℝ)
      { rhovec := Function.update (Function.update (fun _ => (0 : ℝ)) 1 10) 2 30
        Tvec := Function.update (Function.update (fun _ => (0 : ℝ)) 1 10) 2 1000
        i := 3 } 2 = 2 := by
    have : (3 : Int) - 1 = 2 := by norm_num
    rw [this] at jn
    omega
  rw [hJ] at m2 m3
  have t1 : Function.update (Function.update (fun _ => (0 : ℝ)) (1 : Int) 10) 2 1000 (2 - 1)
      = 10 := by
    simp [Function.update_apply]
  have t2 : Function.update (Function.update (fun _ => (0 : ℝ)) (1 : Int) 10) 2 1000 2
      = 1000 := by
    simp [Function.update_apply]
  simp only [t1, t2] at m2 m3
  refine ⟨⟨profile_breaks, l1, l2, l3, l4, l5, ⟨by decide, by decide⟩,
    by rw [r1, r2]; norm_num, by rw [r2]; norm_num⟩, ?_, ?_⟩
  · have : min (10 : ℝ) 1000 = 10 := min_eq_left (by norm_num)
    rw [this] at m2
    exact m2
  · have : max (10 : ℝ) 1000 = 1000 := max_eq_right (by norm_num)
    rw [this] at m3
    exact m3

/-- Claim C20 as stated fails in output mode. On a grid with densities `10, 20, 30`
and `Tc = 10`, with the single line `> 20 1000`, `Yn = 1` and critical temperature
`TTC = 100`, the breakpoints are `rhovec = (10, 20, 30)`, `Tvec = (10, 1000, 10)`;
cell `2` satisfies every hypothesis of the claim with `j = 2` and
`rho[2] = rhovec[2]`, and the computed `Ti` is `Tvec[2] = 1000`; yet the routine
assigns the cell `TTC = 100`, which is not `Tvec[2]` and whose `log10` is not the
interpolated value. -/
theorem piecewise_profile_capped_ne :
    ∃ prof,
      set_up_initial_temperature_profile_piecewise
          ⟨Real.exp, Real.log, Real.logb 10, fun x y => x ^ y⟩ (outputSetup ℝ)
          (fun _ _ => 100) (fun _ => 1) [{ rho := 20, T := 1000, T2 := none }]
          (fun _ => 0) (fun _ => 0) { Tt := 0, bc := fun _ => 0 } = some prof
        ∧ readBreaks (outputSetup ℝ) [{ rho := 20, T := 1000, T2 := none }] (fun _ => 0)
            (fun _ => 0)
          = { rhovec := Function.update (Function.update (Function.update (fun _ => 0) 1 10)
                2 20) 3 30
              Tvec := Function.update (Function.update (Function.update (fun _ => 0) 1 10)
                2 1000) 3 10
              i := 4 }
        ∧ ((1 : Int) < 2 ∧ (2 : Int) < (outputSetup ℝ).N + 1)
        ∧ (outputSetup ℝ).rho 1 = 10
        ∧ (outputSetup ℝ).rho 2 = 20
        ∧ piecewise_Ti ⟨Real.exp, Real.log, Real.logb 10, fun x y => x ^ y⟩ (outputSetup ℝ)
            (readBreaks (outputSetup ℝ) [{ rho := 20, T := 1000, T2 := none }] (fun _ => 0)
              (fun _ => 0)) 2 = 1000
        ∧ prof.bc 2 = 100
        ∧ prof.bc 2 ≠ 1000
        ∧ Real.logb 10 (prof.bc 2)
            ≠ Real.logb 10 10
              + (Real.logb 10 1000 - Real.logb 10 10) * (Real.logb 10 20 - Real.logb 10 10)
                / (Real.logb 10 20 - Real.logb 10 10) := by
  have r1 : (outputSetup ℝ).rho 1 = 10 := by
    show (10 : ℝ) * ((1 : Int) : ℝ) = 10
    norm_num
  have r2 : (outputSetup ℝ).rho 2 = 20 := by
    show (10 : ℝ) * ((2 : Int) : ℝ) = 20
    norm_num
  have hb := capped_breaks
  have hTi := capped_Ti
  have hset : set_up_initial_temperature_profile_piecewise
      ⟨Real.exp, Real.log, Real.logb 10, fun x y => x ^ y⟩ (outputSetup ℝ)
      (fun _ _ => 100) (fun _ => 1) [{ rho := 20, T := 1000, T2 := none }]
      (fun _ => 0) (fun _ => 0) { Tt := 0, bc := fun _ => 0 }
      = some (forRange 1 ((outputSetup ℝ).N + 1)
          (assignCell ⟨Real.exp, Real.log, Real.logb 10, fun x y => x ^ y⟩ (outputSetup ℝ)
            (fun _ _ => 100) (fun _ => 1)
            (readBreaks (outputSetup ℝ) [{ rho := 20, T := 1000, T2 := none }] (fun _ => 0)
              (fun _ => 0))) { Tt := 0, bc := fun _ => 0 }) := by
    have h := readBreaks_i_ge (outputSetup ℝ) [{ rho := 20, T := 1000, T2 := none }]
      (fun _ => (0 : ℝ)) (fun _ => 0)
    unfold set_up_initial_temperature_profile_piecewise
    dsimp only
    rw [if_neg (by omega)]
  have hbc : (forRange 1 ((outputSetup ℝ).N + 1)
      (assignCell ⟨Real.exp, Real.log, Real.logb 10, fun x y => x ^ y⟩ (outputSetup ℝ)
        (fun _ _ => 100) (fun _ => 1)
        (readBreaks (outputSetup ℝ) [{ rho := 20, T := 1000, T2 := none }] (fun _ => 0)
          (fun _ => 0))) { Tt := 0, bc := fun _ => 0 }).bc 2 = 100 := by
    rw [assignLoop_bc, if_pos ⟨by decide, by decide⟩]
    unfold cellBC
    rw [hTi, if_pos]
    refine ⟨by decide, by norm_num, by norm_num, ?_⟩
    rw [hb]
    simp [Function.update_apply]
    norm_num
  have e10 : Real.logb 10 10 = 1 := Real.logb_self_eq_one (by norm_num)
  have e100 : Real.logb 10 100 = 2 := by
    have : (100 : ℝ) = (10 : ℝ) ^ (2 : ℝ) := by rw [Real.rpow_two]; norm_num
    rw [this]; exact Real.logb_rpow (by norm_num) (by norm_num)
  have e1000 : Real.logb 10 1000 = 3 := by
    have : (1000 : ℝ) = (10 : ℝ) ^ ((3 : ℕ) : ℝ) := by rw [Real.rpow_natCast]; norm_num
    rw [this, Real.logb_rpow (by norm_num) (by norm_num)]; norm_num
  have hx : 0 < Real.logb 10 20 - Real.logb 10 10 :=
    sub_pos.2 (Real.logb_lt_logb (by norm_num) (by norm_num) (by norm_num))
  refine ⟨_, hset, hb, ⟨by decide, by decide⟩, r1, r2, hTi, hbc, ?_, ?_⟩
  · rw [hbc]; norm_num
  · rw [e10] at hx
    rw [hbc, e100, e10, e1000, mul_div_assoc, div_self hx.ne.symm]
    norm_num

/-- Claim C21 (code bug). With the table range `precalculate_vars` stores
(`nbeta = 100` bins on `[6.5, 10]`, width `3.5/99`), `calculate_vars` reads each
table at the bins `j` and `j+1`; for every temperature (NaN included) the index
`j` lies in `1..nbeta` and the weight `interpfac` in `[0,1)`, but `j+1 <= nbeta`
holds only while `log10 T < betamax`. At `T = 1e10` (`log10 T = betamax`) the index
is `j = nbeta = 100` with weight `0`, and the read of column `j+1 = 101` is outside
a table allocated by `matrix(1,N+2,1,nbeta)`. -/
theorem calculate_vars_reads_past_table (E : Env) (G : Globals) (i : Int) (T : Option ℚ)
    (P : ℚ) :
    (calculate_vars E (tableRange G) i T P).CP
        = G.CP_grid i (lookup_j E (tableRange G) T)
          + (G.CP_grid i (lookup_j E (tableRange G) T + 1)
              - G.CP_grid i (lookup_j E (tableRange G) T))
            * lookup_interpfac E (tableRange G) T
      ∧ 1 ≤ lookup_j E (tableRange G) T
      ∧ lookup_j E (tableRange G) T ≤ (tableRange G).nbeta
      ∧ 0 ≤ lookup_interpfac E (tableRange G) T
      ∧ lookup_interpfac E (tableRange G) T < 1
      ∧ (lookup_j E (tableRange G) T + 1 ≤ (tableRange G).nbeta
          ↔ E.log10 (safeT T) < (tableRange G).betamax)
      ∧ lookup_j decadeEnv (tableRange sampleGlobals) (some 1e10) = 100
      ∧ lookup_interpfac decadeEnv (tableRange sampleGlobals) (some 1e10) = 0
      ∧ inTable (tableRange sampleGlobals) 2
          (lookup_j decadeEnv (tableRange sampleGlobals) (some 1e10))
      ∧ ¬ inTable (tableRange sampleGlobals) 2
          (lookup_j decadeEnv (tableRange sampleGlobals) (some 1e10) + 1) := by
  obtain ⟨hlt, hn, hd⟩ := tableRange_hyps G
  obtain ⟨h1, h2, h3, h4, h5⟩ := lookup_bounds E (tableRange G) T hlt hn hd
  obtain ⟨glt, gn, gd⟩ := tableRange_hyps sampleGlobals
  obtain ⟨_, _, g3, _, _⟩ := lookup_bounds decadeEnv (tableRange sampleGlobals) (some 1e10)
    glt gn gd
  have hlog : (tableRange sampleGlobals).betamax ≤ decadeEnv.log10 (safeT (some 1e10)) := by
    rw [safeT_some_nonneg _ (by norm_num)]
    norm_num [decadeEnv, tableRange]
  have hj : lookup_j decadeEnv (tableRange sampleGlobals) (some 1e10) = 100 := g3.2 hlog
  refine ⟨rfl, h1, h2, h4, h5, ?_, hj, ?_, ?_, ?_⟩
  · constructor
    · intro h
      by_contra hc
      have := h3.2 (not_lt.1 hc)
      omega
    · intro h
      have hne : lookup_j E (tableRange G) T ≠ (tableRange G).nbeta :=
        fun e => absurd (h3.1 e) (not_le.2 h)
      omega
  · unfold lookup_interpfac
    dsimp only
    rw [safeT_some_nonneg _ (by norm_num)]
    have hb : clampBeta (tableRange sampleGlobals) (decadeEnv.log10 1e10) = 10 := by
      norm_num [clampBeta, decadeEnv, tableRange]
    rw [hb]
    have ht : truncInt (((10 : ℚ) - (tableRange sampleGlobals).betamin)
        / (tableRange sampleGlobals).deltabeta) = 99 := by
      have e : ((10 : ℚ) - (tableRange sampleGlobals).betamin)
          / (tableRange sampleGlobals).deltabeta = ((99 : Int) : ℚ) := by
        norm_num [tableRange]
      rw [e, truncInt_intCast 99 (by decide)]
    rw [ht]
    norm_num [tableRange]
  · rw [hj]; decide
  · rw [hj]; decide

/-- Claim C22 (code bug). On the sample grid (`N = 3`, `Tc = 2`), for every
collaborator, work array, base vector and matrix, `jacobn` called with `n = N+1`
on a temperature vector with nonzero entries whose ghost entry is `T[4] = Tc`
returns with `T[1..3]` equal to their entry values and with `T[4] = Tc/1.01`,
which is not the entry value. -/
theorem jacobn_ghost_temperature_scaled (E : Env) (t : ℚ) (S : Scratch) (dfdt : Int → ℚ)
    (dfdT : Int → Int → ℚ) :
    (sampleFilled 1 ≠ 0 ∧ sampleFilled 2 ≠ 0 ∧ sampleFilled 3 ≠ 0 ∧ sampleFilled 4 ≠ 0)
      ∧ sampleFilled 4 = sampleGlobals.Tc
      ∧ (jacobn E sampleGlobals t sampleFilled S dfdt dfdT (sampleGlobals.N + 1)).T 1
          = sampleFilled 1
      ∧ (jacobn E sampleGlobals t sampleFilled S dfdt dfdT (sampleGlobals.N + 1)).T 2
          = sampleFilled 2
      ∧ (jacobn E sampleGlobals t sampleFilled S dfdt dfdT (sampleGlobals.N + 1)).T 3
          = sampleFilled 3
      ∧ (jacobn E sampleGlobals t sampleFilled S dfdt dfdT (sampleGlobals.N + 1)).T 4
          = 200 / 101
      ∧ (jacobn E sampleGlobals t sampleFilled S dfdt dfdT (sampleGlobals.N + 1)).T 4
          ≠ sampleFilled 4 := by
  have hg : (jacobn E sampleGlobals t sampleFilled S dfdt dfdT (sampleGlobals.N + 1)).T 4
      = 200 / 101 := by
    have h := jacobn_T_ghost E sampleGlobals t sampleFilled S dfdt dfdT (by decide)
    have e : sampleGlobals.N + 1 = 4 := by decide
    rw [e] at h
    rw [e, h]
    norm_num [sampleGlobals]
  have h4 : sampleFilled 4 = 2 := by
    norm_num [sampleFilled, filledT, sampleGlobals, Function.update_apply]
  refine ⟨⟨?_, ?_, ?_, ?_⟩, h4, ?_, ?_, ?_, hg, ?_⟩
  · norm_num [sampleFilled, filledT, sampleGlobals, sampleT, Function.update_apply]
  · norm_num [sampleFilled, filledT, sampleGlobals, sampleT, Function.update_apply]
  · norm_num [sampleFilled, filledT, sampleGlobals, sampleT, Function.update_apply]
  · rw [h4]; norm_num
  · exact jacobn_T_interior E sampleGlobals t sampleFilled S dfdt dfdT _ 1 (by decide)
      (by decide)
  · exact jacobn_T_interior E sampleGlobals t sampleFilled S dfdt dfdT _ 2 (by decide)
      (by decide)
  · exact jacobn_T_interior E sampleGlobals t sampleFilled S dfdt dfdT _ 3 (by decide)
      (by decide)
  · rw [hg, h4]; norm_num

end CrustCool
